import Mathlib

/-!
# scopi: viscous contact problem with friction

A shallow embedding of `scopi::ViscousWithFriction` (file
`include/scopi/problems/ViscousWithFriction.hpp`).

Conventions of the embedding.

* `double` values are exact rationals (`ℚ`): comparisons, `std::max` and
  `std::min` are the exact ones, arithmetic does not round.
* `std::size_t` values are natural numbers.  The only subtraction of two
  run-time quantities is `contacts.size() - m_nb_gamma_min`; it is exact as soon
  as `m_nb_gamma_min ≤ contacts.size()`, which `set_gamma` establishes for a
  gamma vector with one entry per contact.
* `std::vector` and `xt::xtensor` are lists; an access outside the bounds of
  the container has no defined result and makes the embedded function return
  `none`.
* The assembly loop writes its triplets at consecutive positions
  `index = 0, 1, 2, ...` of `m_A_rows`, `m_A_cols`, `m_A_values`; it is embedded
  as the list of the triplets in the order of writing, so that the position in
  the list is the value of `index` at the write.
-/

namespace Scopi

/-- Three-component vector of doubles (`c.nij`, positions, contact points). -/
abbrev Vec3 := Fin 3 → ℚ

/-- Dense 3x3 matrix of doubles, indexed (row, column). -/
abbrev Mat3 := Fin 3 → Fin 3 → ℚ

/-- Quaternion of a particle, four doubles. -/
abbrev Quat := Fin 4 → ℚ

/-- The values taken by the loop variables `d`, `ip`, `ind_row`, `ind_col`
(`for (std::size_t d = 0; d < 3; ++d)`), in order. -/
def range3 : List (Fin 3) := [0, 1, 2]

/-- Contact `neighbor<dim>`: particle indices, signed distance, normal, and the
two contact points. -/
structure neighbor where
  i : Nat
  j : Nat
  dij : ℚ
  nij : Vec3
  pi : Vec3
  pj : Vec3

/-- The part of `scopi_container<dim>` read by the problem: the inactive
particles (obstacles) come first, `nb_inactive()` of them, followed by
`nb_active()` active particles. -/
structure scopi_container where
  nb_inactive : Nat
  nb_active : Nat
  pos : Nat → Vec3
  q : Nat → Quat

/-- The two helpers of `utils.hpp` and `quaternion.hpp` called by the assembly,
`cross_product<dim>` and `rotation_matrix<3>`.  They are defined in those
headers; the assembly is parametrised by them. -/
structure Helpers where
  cross_product : Vec3 → Mat3
  rotation_matrix : Quat → Mat3

/-- Matrix product `xt::linalg::dot(a, b)` of two 3x3 matrices. -/
def linalg_dot (a b : Mat3) : Mat3 :=
  fun r c => a r 0 * b 0 c + a r 1 * b 1 c + a r 2 * b 2 c

/-- One entry of the COO matrix: `m_A_rows[index]`, `m_A_cols[index]`,
`m_A_values[index]`. -/
structure Triplet where
  row : Nat
  col : Nat
  value : ℚ
deriving DecidableEq

/-- Members of `ViscousWithFriction<dim>` and of its bases that the four
operations read or write. -/
structure ViscousWithFriction where
  m_nparticles : Nat
  m_dt : ℚ
  m_tol : ℚ
  m_gamma_min : ℚ
  m_mu : ℚ
  m_gamma : List ℚ
  m_gamma_old : List ℚ
  m_contacts_old : List neighbor
  m_nb_gamma_neg : Nat
  m_nb_gamma_min : Nat
  m_A_rows : List Nat
  m_A_cols : List Nat
  m_A_values : List ℚ
  m_distances : List ℚ

/-- Constructor `ViscousWithFriction(nparticles, dt)`: `m_gamma_min(-3.)`,
`m_mu(0.1)`; the tolerance `m_tol` is set by the base class and is a parameter
here. -/
def ViscousWithFriction.init (nparticles : Nat) (dt tol : ℚ) : ViscousWithFriction :=
  { m_nparticles := nparticles, m_dt := dt, m_tol := tol, m_gamma_min := -3, m_mu := 1 / 10,
    m_gamma := [], m_gamma_old := [], m_contacts_old := [],
    m_nb_gamma_neg := 0, m_nb_gamma_min := 0,
    m_A_rows := [], m_A_cols := [], m_A_values := [], m_distances := [] }

/-! ## set_gamma -/

/-- Body of the counting loop of `set_gamma` for one entry `g`; the state is
the pair `(m_nb_gamma_neg, m_nb_gamma_min)`. -/
def set_gamma_step (tol gamma_min : ℚ) (cnt : Nat × Nat) (g : ℚ) : Nat × Nat :=
  if g < -tol ∧ g > gamma_min then (cnt.1 + 1, cnt.2)
  else if g = gamma_min then (cnt.1, cnt.2 + 1)
  else cnt

/-- Operation `set_gamma(contacts_new)`.  The call `set_gamma_base(contacts_new)`
of the base class leaves the vector `gamma` in `m_gamma` (one entry per new
contact); then both counters are reset and recomputed by the loop over
`m_gamma`. -/
def set_gamma (st : ViscousWithFriction) (gamma : List ℚ) : ViscousWithFriction :=
  let cnt := gamma.foldl (set_gamma_step st.m_tol st.m_gamma_min) (0, 0)
  { st with m_gamma := gamma, m_nb_gamma_neg := cnt.1, m_nb_gamma_min := cnt.2 }

/-! ## number_row_matrix_impl -/

/-- Operation `number_row_matrix_impl(contacts)`:
`contacts.size() - m_nb_gamma_min + m_nb_gamma_neg + 2*4*m_nb_gamma_min`. -/
def number_row_matrix_impl (st : ViscousWithFriction) (contacts : List neighbor) : Nat :=
  contacts.length - st.m_nb_gamma_min + st.m_nb_gamma_neg + 2 * 4 * st.m_nb_gamma_min

/-! ## create_matrix_constraint_coo_impl -/

/-- The sum `c.nij[0]*dot(0, ip) + c.nij[1]*dot(1, ip) + c.nij[2]*dot(2, ip)`. -/
def nij_dot (n : Vec3) (dot : Mat3) (ip : Fin 3) : ℚ :=
  n 0 * dot 0 ip + n 1 * dot 1 ip + n 2 * dot 2 ip

/-- Triplets written for contact `c` of index `ic` when
`m_gamma[ic] != m_gamma_min` (first branch of the loop body); `g` is
`m_gamma[ic]` and `size` is `contacts.size()`. -/
def writes_not_bonded (h : Helpers) (st : ViscousWithFriction) (particles : scopi_container)
    (size firstCol ic : Nat) (c : neighbor) (g : ℚ) : List Triplet :=
  let active_offset := particles.nb_inactive
  let ri_cross := h.cross_product (fun k => c.pi k - particles.pos c.i k)
  let rj_cross := h.cross_product (fun k => c.pj k - particles.pos c.j k)
  let Ri := h.rotation_matrix (particles.q c.i)
  let Rj := h.rotation_matrix (particles.q c.j)
  (if c.i ≥ active_offset then
    range3.flatMap fun d =>
      ⟨ic, firstCol + (c.i - active_offset) * 3 + d, -st.m_dt * c.nij d⟩ ::
      (if g < -st.m_tol then
        [⟨size - st.m_nb_gamma_min + ic, firstCol + (c.i - active_offset) * 3 + d,
          st.m_dt * c.nij d⟩]
       else [])
   else []) ++
  (if c.j ≥ active_offset then
    range3.flatMap fun d =>
      ⟨ic, firstCol + (c.j - active_offset) * 3 + d, st.m_dt * c.nij d⟩ ::
      (if g < -st.m_tol then
        [⟨size - st.m_nb_gamma_min + ic, firstCol + (c.j - active_offset) * 3 + d,
          -st.m_dt * c.nij d⟩]
       else [])
   else []) ++
  (if c.i ≥ active_offset then
    let ind_part := c.i - active_offset
    let dot := linalg_dot ri_cross Ri
    range3.flatMap fun ip =>
      ⟨ic, firstCol + 3 * particles.nb_active + 3 * ind_part + ip,
        st.m_dt * nij_dot c.nij dot ip⟩ ::
      (if g < -st.m_tol then
        [⟨size - st.m_nb_gamma_min + ic,
          firstCol + 3 * particles.nb_active + 3 * ind_part + ip,
          -st.m_dt * nij_dot c.nij dot ip⟩]
       else [])
   else []) ++
  (if c.j ≥ active_offset then
    let ind_part := c.j - active_offset
    let dot := linalg_dot rj_cross Rj
    range3.flatMap fun ip =>
      ⟨ic, firstCol + 3 * particles.nb_active + 3 * ind_part + ip,
        -st.m_dt * nij_dot c.nij dot ip⟩ ::
      (if g < -st.m_tol then
        [⟨size - st.m_nb_gamma_min + ic,
          firstCol + 3 * particles.nb_active + 3 * ind_part + ip,
          st.m_dt * nij_dot c.nij dot ip⟩]
       else [])
   else [])

/-- Triplets written for contact `c` of index `ic` when
`m_gamma[ic] == m_gamma_min` (second branch of the loop body); `size` is
`contacts.size()`. -/
def writes_bonded (h : Helpers) (st : ViscousWithFriction) (particles : scopi_container)
    (size firstCol ic : Nat) (c : neighbor) : List Triplet :=
  let active_offset := particles.nb_inactive
  let ri_cross := h.cross_product (fun k => c.pi k - particles.pos c.i k)
  let rj_cross := h.cross_product (fun k => c.pj k - particles.pos c.j k)
  let Ri := h.rotation_matrix (particles.q c.i)
  let Rj := h.rotation_matrix (particles.q c.j)
  (if c.i ≥ active_offset then
    (range3.flatMap fun d =>
      [⟨size - st.m_nb_gamma_min + st.m_nb_gamma_neg + 4 * ic,
        firstCol + (c.i - active_offset) * 3 + d, -st.m_dt * c.nij d⟩,
       ⟨size - st.m_nb_gamma_min + st.m_nb_gamma_neg + 4 * st.m_nb_gamma_min + 4 * ic,
        firstCol + (c.i - active_offset) * 3 + d, st.m_dt * c.nij d⟩]) ++
    (range3.flatMap fun ind_row =>
      (range3.map fun ind_col =>
        ⟨size - st.m_nb_gamma_min + st.m_nb_gamma_neg + 4 * ic + 1 + ind_row,
         firstCol + (c.i - active_offset) * 3 + ind_col,
         if ind_row = ind_col then
           -st.m_dt * st.m_mu * c.nij ind_row * c.nij ind_col + st.m_dt * st.m_mu
         else -st.m_dt * st.m_mu * c.nij ind_row * c.nij ind_col⟩) ++
      (range3.map fun ind_col =>
        ⟨size - st.m_nb_gamma_min + st.m_nb_gamma_neg + 4 * st.m_nb_gamma_min + 4 * ic + 1
           + ind_row,
         firstCol + (c.i - active_offset) * 3 + ind_col,
         if ind_row = ind_col then
           -st.m_dt * st.m_mu * c.nij ind_row * c.nij ind_col + st.m_dt * st.m_mu
         else -st.m_dt * st.m_mu * c.nij ind_row * c.nij ind_col⟩))
   else []) ++
  (if c.j ≥ active_offset then
    (range3.flatMap fun d =>
      [⟨size - st.m_nb_gamma_min + st.m_nb_gamma_neg + 4 * ic,
        firstCol + (c.j - active_offset) * 3 + d, st.m_dt * c.nij d⟩,
       ⟨size - st.m_nb_gamma_min + st.m_nb_gamma_neg + 4 * st.m_nb_gamma_min + 4 * ic,
        firstCol + (c.j - active_offset) * 3 + d, -st.m_dt * c.nij d⟩]) ++
    (range3.flatMap fun ind_row =>
      (range3.map fun ind_col =>
        ⟨size - st.m_nb_gamma_min + st.m_nb_gamma_neg + 4 * ic + 1 + ind_row,
         firstCol + (c.j - active_offset) * 3 + ind_col,
         if ind_row = ind_col then
           st.m_dt * st.m_mu * c.nij ind_row * c.nij ind_col - st.m_dt * st.m_mu
         else st.m_dt * st.m_mu * c.nij ind_row * c.nij ind_col⟩) ++
      (range3.map fun ind_col =>
        ⟨size - st.m_nb_gamma_min + st.m_nb_gamma_neg + 4 * st.m_nb_gamma_min + 4 * ic + 1
           + ind_row,
         firstCol + (c.j - active_offset) * 3 + ind_col,
         if ind_row = ind_col then
           st.m_dt * st.m_mu * c.nij ind_row * c.nij ind_col - st.m_dt * st.m_mu
         else st.m_dt * st.m_mu * c.nij ind_row * c.nij ind_col⟩))
   else []) ++
  (if c.i ≥ active_offset then
    let ind_part := c.i - active_offset
    let dot := linalg_dot ri_cross Ri
    (range3.flatMap fun ip =>
      [⟨size - st.m_nb_gamma_min + st.m_nb_gamma_neg + 4 * ic,
        firstCol + 3 * st.m_nparticles + 3 * ind_part + ip,
        st.m_dt * nij_dot c.nij dot ip⟩,
       ⟨size - st.m_nb_gamma_min + st.m_nb_gamma_neg + 4 * st.m_nb_gamma_min + 4 * ic,
        firstCol + 3 * st.m_nparticles + 3 * ind_part + ip,
        -st.m_dt * nij_dot c.nij dot ip⟩]) ++
    (range3.flatMap fun ind_row =>
      (range3.map fun ind_col =>
        ⟨size - st.m_nb_gamma_min + st.m_nb_gamma_neg + 4 * ic + 1 + ind_row,
         firstCol + 3 * st.m_nparticles + 3 * ind_part + ind_col,
         -st.m_mu * st.m_dt * dot ind_row ind_col
           + st.m_mu * st.m_dt * nij_dot c.nij dot ind_col⟩) ++
      (range3.map fun ind_col =>
        ⟨size - st.m_nb_gamma_min + st.m_nb_gamma_neg + 4 * st.m_nb_gamma_min + 4 * ic + 1
           + ind_row,
         firstCol + 3 * st.m_nparticles + 3 * ind_part + ind_col,
         -st.m_mu * st.m_dt * dot ind_row ind_col
           + st.m_mu * st.m_dt * nij_dot c.nij dot ind_col⟩))
   else []) ++
  (if c.j ≥ active_offset then
    let ind_part := c.j - active_offset
    let dot := linalg_dot rj_cross Rj
    (range3.flatMap fun ip =>
      [⟨size - st.m_nb_gamma_min + st.m_nb_gamma_neg + 4 * ic,
        firstCol + 3 * st.m_nparticles + 3 * ind_part + ip,
        -st.m_dt * nij_dot c.nij dot ip⟩,
       ⟨size - st.m_nb_gamma_min + st.m_nb_gamma_neg + 4 * st.m_nb_gamma_min + 4 * ic,
        firstCol + 3 * st.m_nparticles + 3 * ind_part + ip,
        st.m_dt * nij_dot c.nij dot ip⟩]) ++
    (range3.flatMap fun ind_row =>
      (range3.map fun ind_col =>
        ⟨size - st.m_nb_gamma_min + st.m_nb_gamma_neg + 4 * ic + 1 + ind_row,
         firstCol + 3 * st.m_nparticles + 3 * ind_part + ind_col,
         st.m_mu * st.m_dt * dot ind_row ind_col
           - st.m_mu * st.m_dt * nij_dot c.nij dot ind_col⟩) ++
      (range3.map fun ind_col =>
        ⟨size - st.m_nb_gamma_min + st.m_nb_gamma_neg + 4 * st.m_nb_gamma_min + 4 * ic + 1
           + ind_row,
         firstCol + 3 * st.m_nparticles + 3 * ind_part + ind_col,
         st.m_mu * st.m_dt * dot ind_row ind_col
           - st.m_mu * st.m_dt * nij_dot c.nij dot ind_col⟩))
   else [])

/-- Body of the loop `for (auto &c: contacts)` for the contact `c` of index
`ic` whose gamma is `g = m_gamma[ic]`. -/
def contact_writes (h : Helpers) (st : ViscousWithFriction) (particles : scopi_container)
    (size firstCol ic : Nat) (c : neighbor) (g : ℚ) : List Triplet :=
  if g ≠ st.m_gamma_min then writes_not_bonded h st particles size firstCol ic c g
  else writes_bonded h st particles size firstCol ic c

/-- The loop of `create_matrix_constraint_coo_impl` from contact index `ic` on,
over the remaining contacts; `none` when `m_gamma[ic]` does not exist. -/
def coo_loop (h : Helpers) (st : ViscousWithFriction) (particles : scopi_container)
    (size firstCol : Nat) : Nat → List neighbor → Option (List Triplet)
  | _, [] => some []
  | ic, c :: cs =>
    match st.m_gamma[ic]? with
    | none => none
    | some g =>
      match coo_loop h st particles size firstCol (ic + 1) cs with
      | none => none
      | some rest => some (contact_writes h st particles size firstCol ic c g ++ rest)

/-- Sequence of the triplets written by
`create_matrix_constraint_coo_impl(particles, contacts, firstCol)`, in the order
of writing (`ic` and `index` start at 0). -/
def coo_writes (h : Helpers) (st : ViscousWithFriction) (particles : scopi_container)
    (contacts : List neighbor) (firstCol : Nat) : Option (List Triplet) :=
  coo_loop h st particles contacts.length firstCol 0 contacts

/-- Vector after `v.resize(n)`: truncated, or extended by zeros. -/
def resize {α : Type} [Zero α] (v : List α) (n : Nat) : List α :=
  v.take n ++ List.replicate (n - v.length) 0

/-- The buffer `v` once the values `ws` have been stored at the positions
`0, 1, ..., ws.length - 1`; `none` when a position is outside `v`. -/
def store_front {α : Type} (v : List α) (ws : List α) : Option (List α) :=
  if ws.length ≤ v.length then some (ws ++ v.drop ws.length) else none

/-- Operation `create_matrix_constraint_coo_impl`: the three buffers are
resized to `6 * number_row_matrix(contacts)` and the triplets of the loop are
stored from position 0 on.  The result is `none` when a gamma is missing or a
write falls behind the end of the buffers. -/
def create_matrix_constraint_coo_impl (h : Helpers) (st : ViscousWithFriction)
    (particles : scopi_container) (contacts : List neighbor) (firstCol : Nat) :
    Option ViscousWithFriction :=
  let size := 6 * number_row_matrix_impl st contacts
  match coo_writes h st particles contacts firstCol with
  | none => none
  | some ts =>
    match store_front (resize st.m_A_rows size) (ts.map Triplet.row),
          store_front (resize st.m_A_cols size) (ts.map Triplet.col),
          store_front (resize st.m_A_values size) (ts.map Triplet.value) with
    | some rows, some cols, some values =>
      some { st with m_A_rows := rows, m_A_cols := cols, m_A_values := values }
    | _, _, _ => none

/-- Set of the distinct row indices written by the assembly loop. -/
def rows_written (ts : List Triplet) : Finset Nat := (ts.map Triplet.row).toFinset

/-! ## create_vector_distances_impl -/

/-- Writes `m_distances[index] = value` of the loop body of
`create_vector_distances_impl` for contact `c` with gamma `g`, in order, with
the current counters `index_dry` and `index_friciton`. -/
def distance_writes (st : ViscousWithFriction) (size : Nat) (c : neighbor) (g : ℚ)
    (index_dry index_friciton : Nat) : List (Nat × ℚ) :=
  if g ≠ st.m_gamma_min then
    (index_dry, c.dij) ::
    (if g < -st.m_tol then [(size - st.m_nb_gamma_min + index_dry, -c.dij)] else [])
  else
    [(size - st.m_nb_gamma_min + st.m_nb_gamma_neg + 4 * index_friciton, c.dij),
     (size - st.m_nb_gamma_min + st.m_nb_gamma_neg + 4 * st.m_nb_gamma_min + 4 * index_friciton,
      -c.dij)]

/-- The loop of `create_vector_distances_impl` from contact index `i` on: the
writes of every remaining contact, contact by contact; `none` when `m_gamma[i]`
does not exist. -/
def distances_loop (st : ViscousWithFriction) (size : Nat) :
    Nat → Nat → Nat → List neighbor → Option (List (List (Nat × ℚ)))
  | _, _, _, [] => some []
  | i, index_dry, index_friciton, c :: cs =>
    match st.m_gamma[i]? with
    | none => none
    | some g =>
      match distances_loop st size (i + 1)
          (if g ≠ st.m_gamma_min then index_dry + 1 else index_dry)
          (if g ≠ st.m_gamma_min then index_friciton else index_friciton + 1) cs with
      | none => none
      | some rest => some (distance_writes st size c g index_dry index_friciton :: rest)

/-- Writes of `create_vector_distances_impl(contacts)`, one list per contact
(`i`, `index_dry` and `index_friciton` start at 0). -/
def distances_writes (st : ViscousWithFriction) (contacts : List neighbor) :
    Option (List (List (Nat × ℚ))) :=
  distances_loop st contacts.length 0 0 0 contacts

/-- Assignment `v[index] = value`; `none` outside the bounds of `v`. -/
def store (v : List ℚ) (w : Nat × ℚ) : Option (List ℚ) :=
  if w.1 < v.length then some (v.set w.1 w.2) else none

/-- A sequence of assignments, in order. -/
def store_all : List ℚ → List (Nat × ℚ) → Option (List ℚ)
  | v, [] => some v
  | v, w :: ws =>
    match store v w with
    | none => none
    | some v1 => store_all v1 ws

/-- Operation `create_vector_distances_impl(contacts)`: `m_distances` is set to
a zero vector of the length of the row count and the writes of the loop are
applied to it. -/
def create_vector_distances_impl (st : ViscousWithFriction) (contacts : List neighbor) :
    Option ViscousWithFriction :=
  match distances_writes st contacts with
  | none => none
  | some ws =>
    match store_all
        (List.replicate
          (contacts.length - st.m_nb_gamma_min + st.m_nb_gamma_neg + 2 * 4 * st.m_nb_gamma_min) 0)
        ws.flatten with
    | none => none
    | some v => some { st with m_distances := v }

/-! ## update_gamma_impl -/

/-- What the loop body of `update_gamma_impl` reads of `lambda` for one
contact: index `first`, and index `second` when `f_contact` is a difference
`lambda(first) - lambda(second)`. -/
structure Decode where
  first : Nat
  second : Option Nat
deriving DecidableEq

/-- Indices of `lambda` read for contact `i` with gamma `g` and the current
counters `ind_gamma_neg`, `ind_gamma_min`. -/
def decode_indices (st : ViscousWithFriction) (g : ℚ) (i ind_gamma_neg ind_gamma_min : Nat) :
    Decode :=
  if g ≠ st.m_gamma_min then
    if g < -st.m_tol then
      ⟨i, some (st.m_gamma.length - st.m_nb_gamma_min + ind_gamma_neg)⟩
    else ⟨i, none⟩
  else
    ⟨st.m_gamma.length - st.m_nb_gamma_min + st.m_nb_gamma_neg + 4 * ind_gamma_min,
     some (st.m_gamma.length - st.m_nb_gamma_min + st.m_nb_gamma_neg + 4 * st.m_nb_gamma_min
       + 4 * ind_gamma_min)⟩

/-- Value `f_contact` decoded from `lambda` at the indices `d`; `none` when an
index is outside `lambda`. -/
def f_contact (lambda : List ℚ) (d : Decode) : Option ℚ :=
  match lambda[d.first]?, d.second with
  | some a, none => some a
  | some a, some k =>
    match lambda[k]? with
    | some b => some (a - b)
    | none => none
  | none, _ => none

/-- New value of `m_gamma_old[i]` from `g = m_gamma[i]` and `f_contact`:
`std::max(m_gamma_min, std::min(0., g - m_dt * f_contact))` followed by the two
tolerance tests. -/
def gamma_update (st : ViscousWithFriction) (g f : ℚ) : ℚ :=
  let v := max st.m_gamma_min (min 0 (g - st.m_dt * f))
  let v1 := if v - st.m_gamma_min < st.m_tol then st.m_gamma_min else v
  if v1 > -st.m_tol then 0 else v1

/-- Loop state of `update_gamma_impl`: the vector `m_gamma_old` and, for the
contacts already treated, the indices read and the value of `f_contact`. -/
structure GammaLoop where
  gamma_old : List ℚ
  reads : List (Decode × ℚ)

/-- The loop `for (i = 0; i < contacts.size(); ++i)` of `update_gamma_impl`,
with `n` iterations left.  `none` when `m_gamma[i]` or an entry of `lambda`
does not exist. -/
def update_gamma_loop (st : ViscousWithFriction) (lambda : List ℚ) :
    Nat → Nat → Nat → Nat → GammaLoop → Option GammaLoop
  | 0, _, _, _, s => some s
  | n + 1, i, ind_gamma_neg, ind_gamma_min, s =>
    match st.m_gamma[i]? with
    | none => none
    | some g =>
      match f_contact lambda (decode_indices st g i ind_gamma_neg ind_gamma_min) with
      | none => none
      | some f =>
        update_gamma_loop st lambda n (i + 1)
          (if g ≠ st.m_gamma_min ∧ g < -st.m_tol then ind_gamma_neg + 1 else ind_gamma_neg)
          (if g ≠ st.m_gamma_min then ind_gamma_min else ind_gamma_min + 1)
          { gamma_old := s.gamma_old.set i (gamma_update st g f)
            reads := s.reads ++ [(decode_indices st g i ind_gamma_neg ind_gamma_min, f)] }

/-- Run of the loop of `update_gamma_impl(contacts, lambda)` after
`m_gamma_old.resize(m_gamma.size())`, all counters at 0. -/
def update_gamma_run (st : ViscousWithFriction) (contacts : List neighbor) (lambda : List ℚ) :
    Option GammaLoop :=
  update_gamma_loop st lambda contacts.length 0 0 0
    { gamma_old := resize st.m_gamma_old st.m_gamma.length, reads := [] }

/-- Operation `update_gamma_impl(contacts, lambda)`. -/
def update_gamma_impl (st : ViscousWithFriction) (contacts : List neighbor) (lambda : List ℚ) :
    Option ViscousWithFriction :=
  match update_gamma_run st contacts lambda with
  | none => none
  | some s => some { st with m_contacts_old := contacts, m_gamma_old := s.gamma_old }

/-! ## Counts of the specification -/

/-- Number of bonded contacts: entries of the gamma vector equal to
`gamma_min`. -/
def n_bonded (gamma_min : ℚ) (gamma : List ℚ) : Nat :=
  gamma.countP fun g => decide (g = gamma_min)

/-- Number of negative-gamma contacts: entries of the gamma vector strictly
between `gamma_min` and `-tol`. -/
def n_negative_gamma (tol gamma_min : ℚ) (gamma : List ℚ) : Nat :=
  gamma.countP fun g => decide (gamma_min < g ∧ g < -tol)

/-- Rows of the writes of one `if (c.i >= active_offset)` block of a bonded
contact, `b1` and `b2` being the first rows of its two 4-row blocks. -/
def bonded_block_rows (b1 b2 : Nat) : List Nat :=
  (range3.flatMap fun _ => [b1, b2]) ++
  (range3.flatMap fun ind_row =>
    (range3.map fun _ => b1 + 1 + ind_row) ++ (range3.map fun _ => b2 + 1 + ind_row))

/-! ## A small configuration

One fixed plane (particle 0, inactive) and two spheres (particles 1 and 2,
active); a contact plane-sphere and a contact sphere-sphere. -/

/-- Usual cross-product matrix and the rotation matrix of the unit
quaternion, as an instance of the helpers. -/
def demo_helpers : Helpers :=
  { cross_product := fun v r c =>
      if r = 0 ∧ c = 1 then -v 2 else if r = 0 ∧ c = 2 then v 1
      else if r = 1 ∧ c = 0 then v 2 else if r = 1 ∧ c = 2 then -v 0
      else if r = 2 ∧ c = 0 then -v 1 else if r = 2 ∧ c = 1 then v 0 else 0
    rotation_matrix := fun _ r c => if r = c then 1 else 0 }

/-- One obstacle followed by two active particles. -/
def demo_particles : scopi_container :=
  { nb_inactive := 1, nb_active := 2, pos := fun k _ => k, q := fun _ _ => 0 }

/-- Contact between the plane (index 0) and the first sphere (index 1). -/
def contact_plane_sphere : neighbor :=
  { i := 0, j := 1, dij := 1 / 4, nij := fun d => if d = 1 then 1 else 0,
    pi := fun _ => 0, pj := fun _ => 0 }

/-- Contact between the two spheres (indices 1 and 2). -/
def contact_sphere_sphere : neighbor :=
  { i := 1, j := 2, dij := 1 / 2, nij := fun d => if d = 0 then 1 else 0,
    pi := fun _ => 0, pj := fun _ => 0 }

/-- Columns of the writes of one `if (c.i >= active_offset)` block of a bonded
contact whose first column is `col0`. -/
def bonded_block_cols (col0 : Nat) : List Nat :=
  (range3.flatMap fun d => [col0 + d, col0 + d]) ++
  (range3.flatMap fun _ =>
    (range3.map fun (ind_col : Fin 3) => col0 + ind_col) ++
    (range3.map fun (ind_col : Fin 3) => col0 + ind_col))

/-- Set of the distinct column indices written by the assembly loop. -/
def cols_written (ts : List Triplet) : Finset Nat := (ts.map Triplet.col).toFinset

/-- Problem as constructed for two particles, `dt = 1/100`, `tol = 1/1000`
(and `gamma_min = -3`, `mu = 1/10` from the constructor). -/
def demo_init : ViscousWithFriction := ViscousWithFriction.init 2 (1 / 100) (1 / 1000)

/-- The two contacts of the configuration, in order. -/
def demo_contacts : List neighbor := [contact_plane_sphere, contact_sphere_sphere]

/-- The problem `demo_init` after `set_gamma` has stored the vector `gamma`. -/
def demo_problem (gamma : List ℚ) : ViscousWithFriction := set_gamma demo_init gamma

/-! ## Coefficients of the specification -/

/-- Lever-arm matrix of the specification for a particle at position `x` with
quaternion `quat` and contact point `p`: the cross-product matrix of the lever
arm `p - x` times the rotation matrix of the particle. -/
def lever_arm_matrix (h : Helpers) (p x : Vec3) (quat : Quat) : Matrix (Fin 3) (Fin 3) ℚ :=
  Matrix.of (h.cross_product (fun k => p k - x k)) * Matrix.of (h.rotation_matrix quat)

/-- Normal row of a free contact as the specification gives it: row `ic`,
linear coefficients `-dt * n[d]` (particle `i`) and `+dt * n[d]` (particle
`j`), angular coefficients `+dt * (n^T (r_i^x R_i))[d]` (particle `i`) and
`-dt * (n^T (r_j^x R_j))[d]` (particle `j`); nothing for an inactive
particle. -/
def normal_row_spec (h : Helpers) (st : ViscousWithFriction) (particles : scopi_container)
    (firstCol ic : Nat) (c : neighbor) : List Triplet :=
  (if particles.nb_inactive ≤ c.i then
    range3.map fun d =>
      ⟨ic, firstCol + 3 * (c.i - particles.nb_inactive) + d, -st.m_dt * c.nij d⟩
   else []) ++
  (if particles.nb_inactive ≤ c.j then
    range3.map fun d =>
      ⟨ic, firstCol + 3 * (c.j - particles.nb_inactive) + d, st.m_dt * c.nij d⟩
   else []) ++
  (if particles.nb_inactive ≤ c.i then
    range3.map fun d =>
      ⟨ic, firstCol + 3 * particles.nb_active + 3 * (c.i - particles.nb_inactive) + d,
        st.m_dt * Matrix.vecMul c.nij
          (lever_arm_matrix h c.pi (particles.pos c.i) (particles.q c.i)) d⟩
   else []) ++
  (if particles.nb_inactive ≤ c.j then
    range3.map fun d =>
      ⟨ic, firstCol + 3 * particles.nb_active + 3 * (c.j - particles.nb_inactive) + d,
        -(st.m_dt * Matrix.vecMul c.nij
          (lever_arm_matrix h c.pj (particles.pos c.j) (particles.q c.j)) d)⟩
   else [])

/-- Tangential projection `I - n n^T` of the specification. -/
def tangential_projection (n : Vec3) : Matrix (Fin 3) (Fin 3) ℚ :=
  1 - Matrix.vecMulVec n n

/-- Linear part of the rows of a bonded contact for one particle, as the
specification gives it, in the order of writing.  `b1` and `b2` are the first
rows of the two 4-row blocks, `col0` the first linear column of the particle,
`sgn` is `1` for particle `i` and `-1` for particle `j`.  Normal rows:
`-sgn * dt * n[d]` in block 1 and its negation in block 2; tangential row `r`
of each block: `sgn * dt * mu * (I - n n^T)[r][c]` in column `c`. -/
def bonded_linear_spec (st : ViscousWithFriction) (b1 b2 col0 : Nat) (n : Vec3) (sgn : ℚ) :
    List Triplet :=
  (range3.flatMap fun d =>
    [⟨b1, col0 + d, -(sgn * (st.m_dt * n d))⟩, ⟨b2, col0 + d, sgn * (st.m_dt * n d)⟩]) ++
  (range3.flatMap fun r =>
    (range3.map fun c =>
      ⟨b1 + 1 + r, col0 + c, sgn * (st.m_dt * st.m_mu * tangential_projection n r c)⟩) ++
    (range3.map fun c =>
      ⟨b2 + 1 + r, col0 + c, sgn * (st.m_dt * st.m_mu * tangential_projection n r c)⟩))

/-- Angular tangential coefficient of a bonded contact as the specification
gives it, for particle `i`: `-dt * mu * ((I - n n^T) * D)[r][c]` with `D` the
lever-arm matrix of the particle (for particle `j`: the opposite sign). -/
def tangential_angular_spec (st : ViscousWithFriction) (n : Vec3)
    (D : Matrix (Fin 3) (Fin 3) ℚ) (r c : Fin 3) : ℚ :=
  -(st.m_dt * st.m_mu * (tangential_projection n * D) r c)

/-! ## Gradient solvers (`uzawa.hpp`, `apgd.hpp`, `projected_gradient.hpp`)

Vectors `xt::xtensor<double, 1>` of length `n` are functions `Fin n → K` and the
matrix `A` is a `Matrix (Fin n) (Fin n) K`, over a linearly ordered field `K`
of scalars (`K = ℚ` for evaluation).  The calls into MKL are taken to succeed;
the messages sent to the logger are collected in the member `log`. -/

/-- Value `xt::amax(xt::abs(x))(0)`, also `xt::norm_linf(x)`: the largest
absolute value of an entry (0 for a vector without entries). -/
def amax_abs {K : Type} [LinearOrderedField K] {n : Nat} (x : Fin n → K) : K :=
  (List.ofFn fun i => |x i|).foldl max 0

/-- Value `xt::amin(x)(0)`: the smallest entry (0 for a vector without
entries). -/
def amin {K : Type} [LinearOrderedField K] {n : Nat} (x : Fin n → K) : K :=
  match List.ofFn x with
  | [] => 0
  | a :: as => as.foldl min a

/-- Call `mkl_sparse_d_mv(SPARSE_OPERATION_NON_TRANSPOSE, alpha, A, descr, x, beta, y)`:
the new content of `y` is `alpha * A * x + beta * y`. -/
def mkl_sparse_d_mv {K : Type} [LinearOrderedField K] {n : Nat} (alpha : K)
    (A : Matrix (Fin n) (Fin n) K) (x : Fin n → K) (beta : K) (y : Fin n → K) : Fin n → K :=
  alpha • A.mulVec x + beta • y

/-- Call `mkl_sparse_d_dotmv(SPARSE_OPERATION_NON_TRANSPOSE, alpha, A, descr, x, beta, y, &d)`:
the new content of `y` is `alpha * A * x + beta * y` and `d` is the dot product
of `x` and the new `y`. -/
def mkl_sparse_d_dotmv {K : Type} [LinearOrderedField K] {n : Nat} (alpha : K)
    (A : Matrix (Fin n) (Fin n) K) (x : Fin n → K) (beta : K) (y : Fin n → K) :
    (Fin n → K) × K :=
  (mkl_sparse_d_mv alpha A x beta y, Matrix.dotProduct x (mkl_sparse_d_mv alpha A x beta y))

/-- Messages of the solvers: `PLOG_INFO << "Projection: ..."` at entry,
`PLOG_VERBOSE << constraint << "  " << cost` (verbose block of Uzawa and APGD),
`PLOG_VERBOSE << constraint` (projected gradient), and the
`PLOG_ERROR << "... does not converge"` behind the loop. -/
inductive LogEntry (K : Type) where
  | start : LogEntry K
  | cost (constraint value : K) : LogEntry K
  | constraint (constraint : K) : LogEntry K
  | does_not_converge : LogEntry K
deriving DecidableEq

/-- Members of the class `uzawa<projection_t>`; `projection_cone` is the
member function inherited from `projection_t`. -/
structure uzawa (K : Type) (n : Nat) where
  projection_cone : (Fin n → K) → (Fin n → K)
  m_max_iter : Nat
  m_rho : K
  m_tol_dg : K
  m_tol_l : K
  m_verbose : Bool
  m_dg : Fin n → K
  m_uu : Fin n → K
  m_lambda_prev : Fin n → K
  log : List (LogEntry K)

/-- Result of one pass through the body of the `while` loop of
`uzawa::projection`: the new `l`, the value `diff_lambda`, and the members. -/
structure uzawa_pass (K : Type) (n : Nat) where
  l : Fin n → K
  diff_lambda : K
  self : uzawa K n

/-- Body of the loop of `uzawa::projection` up to the stopping test, for the
current vector `l`. -/
def uzawa.body {K : Type} [LinearOrderedField K] {n : Nat} (s : uzawa K n)
    (A : Matrix (Fin n) (Fin n) K) (c l : Fin n → K) : uzawa_pass K n :=
  let m_lambda_prev := l
  let m_dg := mkl_sparse_d_mv 1 A l 1 c
  let l1 := s.projection_cone (l - s.m_rho • m_dg)
  let diff_lambda := amax_abs (l1 - m_lambda_prev) / (amax_abs m_lambda_prev + 1)
  if s.m_verbose then
    let m_uu := mkl_sparse_d_mv 1 A l1 1 c
    let constraint := amin m_uu
    let r := mkl_sparse_d_dotmv (1 / 2) A l1 0 m_uu
    { l := l1, diff_lambda := diff_lambda
      self := { s with
        m_lambda_prev := m_lambda_prev, m_dg := m_dg, m_uu := r.1
        log := s.log ++ [LogEntry.cost constraint (r.2 + Matrix.dotProduct c l1)] } }
  else
    { l := l1, diff_lambda := diff_lambda
      self := { s with m_lambda_prev := m_lambda_prev, m_dg := m_dg } }

/-- The loop `while (iter < m_max_iter)` of `uzawa::projection` with
`fuel = m_max_iter - iter` passes left; the result is the returned count, the
final `l` and the members. -/
def uzawa.loop {K : Type} [LinearOrderedField K] {n : Nat}
    (A : Matrix (Fin n) (Fin n) K) (c : Fin n → K) :
    Nat → Nat → uzawa K n → (Fin n → K) → Nat × (Fin n → K) × uzawa K n
  | 0, iter, s, l => (iter, l, { s with log := s.log ++ [LogEntry.does_not_converge] })
  | fuel + 1, iter, s, l =>
    if (s.body A c l).diff_lambda < s.m_tol_l then
      (iter + 1, (s.body A c l).l, (s.body A c l).self)
    else uzawa.loop A c fuel (iter + 1) (s.body A c l).self (s.body A c l).l

/-- Operation `uzawa::projection(A, descr, c, l)`: returned count, final `l`,
members. -/
def uzawa.projection {K : Type} [LinearOrderedField K] {n : Nat} (s : uzawa K n)
    (A : Matrix (Fin n) (Fin n) K) (c l : Fin n → K) : Nat × (Fin n → K) × uzawa K n :=
  uzawa.loop A c s.m_max_iter 0 { s with log := s.log ++ [LogEntry.start] } l

/-- The relative change `max|l - prev| / (max|prev| + 1)` of the stopping
test. -/
def relative_change {K : Type} [LinearOrderedField K] {n : Nat} (prev l : Fin n → K) : K :=
  amax_abs (l - prev) / (amax_abs prev + 1)

/-- Update rule of the specification: `l ← Π(l − ρ·(A·l + c))`. -/
def gradient_step {K : Type} [LinearOrderedField K] {n : Nat}
    (proj : (Fin n → K) → (Fin n → K)) (A : Matrix (Fin n) (Fin n) K) (c : Fin n → K)
    (rho : K) (l : Fin n → K) : Fin n → K :=
  proj (l - rho • (A.mulVec l + c))

/-- Iterates `l_0` (input), `l_1`, `l_2`, ... of the update rule. -/
def gradient_seq {K : Type} [LinearOrderedField K] {n : Nat}
    (proj : (Fin n → K) → (Fin n → K)) (A : Matrix (Fin n) (Fin n) K) (c : Fin n → K)
    (rho : K) (l0 : Fin n → K) : Nat → (Fin n → K)
  | 0 => l0
  | k + 1 => gradient_step proj A c rho (gradient_seq proj A c rho l0 k)

/-- Stopping test of the specification at iteration `k ≥ 1` of a sequence of
iterates: `max|l_k - l_(k-1)| / (max|l_(k-1)| + 1) < tol_l`. -/
def stops_at {K : Type} [LinearOrderedField K] {n : Nat} (tol_l : K)
    (seq : Nat → (Fin n → K)) (k : Nat) : Prop :=
  relative_change (seq (k - 1)) (seq k) < tol_l

/-- Members of the class `apgd<problem_t>`; `projection_cone` is the member
function inherited from `projection<problem_t>`. -/
structure apgd (K : Type) (n : Nat) where
  projection_cone : (Fin n → K) → (Fin n → K)
  m_max_iter : Nat
  m_rho : K
  m_tol_dg : K
  m_tol_l : K
  m_verbose : Bool
  m_dg : Fin n → K
  m_uu : Fin n → K
  m_y : Fin n → K
  m_l_old : Fin n → K
  log : List (LogEntry K)

/-- Result of one pass through the body of the `while` loop of
`apgd::projection`: the new `l`, the local `theta`, the value `diff_lambda`,
and the members. -/
structure apgd_pass (K : Type) (n : Nat) where
  l : Fin n → K
  theta : K
  diff_lambda : K
  self : apgd K n

/-- Body of the loop of `apgd::projection` up to the stopping test, for the
current vector `l` and the local `theta_old`; `sqrt` is `std::sqrt`. -/
def apgd.body {K : Type} [LinearOrderedField K] {n : Nat} (sqrt : K → K) (s : apgd K n)
    (A : Matrix (Fin n) (Fin n) K) (c l : Fin n → K) (theta_old : K) : apgd_pass K n :=
  let m_l_old := l
  let m_dg := mkl_sparse_d_mv 1 A s.m_y 1 c
  let l1 := s.projection_cone (s.m_y - s.m_rho • m_dg)
  let theta := (1 / 2) * (theta_old * sqrt (4 + theta_old * theta_old) - theta_old * theta_old)
  let beta := theta_old * (1 - theta_old) / (theta_old * theta_old + theta)
  let m_y := l1 + beta • (l1 - m_l_old)
  let diff_lambda := amax_abs (l1 - m_l_old) / (amax_abs m_l_old + 1)
  if s.m_verbose then
    let m_uu := mkl_sparse_d_mv 1 A l1 1 c
    let constraint := amin m_uu
    let r := mkl_sparse_d_dotmv (1 / 2) A l1 0 m_uu
    { l := l1, theta := theta, diff_lambda := diff_lambda
      self := { s with
        m_l_old := m_l_old, m_dg := m_dg, m_y := m_y, m_uu := r.1
        log := s.log ++ [LogEntry.cost constraint (r.2 + Matrix.dotProduct c l1)] } }
  else
    { l := l1, theta := theta, diff_lambda := diff_lambda
      self := { s with m_l_old := m_l_old, m_dg := m_dg, m_y := m_y } }

/-- The loop `while (iter < m_max_iter)` of `apgd::projection` with
`fuel = m_max_iter - iter` passes left; the result is the returned count, the
final `l` and the members. -/
def apgd.loop {K : Type} [LinearOrderedField K] {n : Nat} (sqrt : K → K)
    (A : Matrix (Fin n) (Fin n) K) (c : Fin n → K) :
    Nat → Nat → apgd K n → (Fin n → K) → K → Nat × (Fin n → K) × apgd K n
  | 0, iter, s, l, _ => (iter, l, { s with log := s.log ++ [LogEntry.does_not_converge] })
  | fuel + 1, iter, s, l, theta_old =>
    if (s.body sqrt A c l theta_old).diff_lambda < s.m_tol_l then
      (iter + 1, (s.body sqrt A c l theta_old).l, (s.body sqrt A c l theta_old).self)
    else
      apgd.loop sqrt A c fuel (iter + 1) (s.body sqrt A c l theta_old).self
        (s.body sqrt A c l theta_old).l (s.body sqrt A c l theta_old).theta

/-- Operation `apgd::projection(A, descr, c, l)`: `theta_old = 1`, `m_y = l`,
then the loop; returned count, final `l`, members (with the final `m_y`). -/
def apgd.projection {K : Type} [LinearOrderedField K] {n : Nat} (sqrt : K → K) (s : apgd K n)
    (A : Matrix (Fin n) (Fin n) K) (c l : Fin n → K) : Nat × (Fin n → K) × apgd K n :=
  apgd.loop sqrt A c s.m_max_iter 0 { s with m_y := l, log := s.log ++ [LogEntry.start] } l 1

/-- Iterate of APGD in the specification: `l_k`, `y_k`, `theta_k`. -/
structure apgd_iterate (K : Type) (n : Nat) where
  l : Fin n → K
  y : Fin n → K
  theta : K

/-- One APGD iteration of the specification: `dg = A*y_k + c`,
`l_(k+1) = Π(y_k - rho*dg)`,
`theta_(k+1) = (1/2)*(theta_k*sqrt(4 + theta_k^2) - theta_k^2)`,
`beta_(k+1) = theta_k*(1 - theta_k)/(theta_k^2 + theta_(k+1))`,
`y_(k+1) = l_(k+1) + beta_(k+1)*(l_(k+1) - l_k)`. -/
def apgd_step {K : Type} [LinearOrderedField K] {n : Nat} (sqrt : K → K)
    (proj : (Fin n → K) → (Fin n → K)) (A : Matrix (Fin n) (Fin n) K) (c : Fin n → K)
    (rho : K) (x : apgd_iterate K n) : apgd_iterate K n :=
  { l := proj (x.y - rho • (A.mulVec x.y + c))
    theta := (1 / 2) * (x.theta * sqrt (4 + x.theta ^ 2) - x.theta ^ 2)
    y := proj (x.y - rho • (A.mulVec x.y + c))
      + (x.theta * (1 - x.theta)
          / (x.theta ^ 2 + (1 / 2) * (x.theta * sqrt (4 + x.theta ^ 2) - x.theta ^ 2)))
        • (proj (x.y - rho • (A.mulVec x.y + c)) - x.l) }

/-- Iterates of APGD in the specification, from `y_0 = l_0` and
`theta_0 = 1`. -/
def apgd_seq {K : Type} [LinearOrderedField K] {n : Nat} (sqrt : K → K)
    (proj : (Fin n → K) → (Fin n → K)) (A : Matrix (Fin n) (Fin n) K) (c : Fin n → K)
    (rho : K) (l0 : Fin n → K) : Nat → apgd_iterate K n
  | 0 => { l := l0, y := l0, theta := 1 }
  | k + 1 => apgd_step sqrt proj A c rho (apgd_seq sqrt proj A c rho l0 k)

/-- Members of the class `projected_gradient<projection_t>` (it has no
`m_verbose`); `projection_cone` is inherited from `projection_t`. -/
structure projected_gradient (K : Type) (n : Nat) where
  projection_cone : (Fin n → K) → (Fin n → K)
  m_max_iter : Nat
  m_rho : K
  m_tol_dg : K
  m_tol_l : K
  m_dg : Fin n → K
  m_uu : Fin n → K
  log : List (LogEntry K)

/-- Result of one pass through the body of the `while` loop of
`projected_gradient::projection`: the new `l`, the locals `norm_dg` and
`norm_l`, and the members. -/
structure projected_gradient_pass (K : Type) (n : Nat) where
  l : Fin n → K
  norm_dg : K
  norm_l : K
  self : projected_gradient K n

/-- Body of the loop of `projected_gradient::projection` up to the stopping
test.  The names `dg` and `m_c` of the source, which are not declared, are read
as `m_dg` and `c`. -/
def projected_gradient.body {K : Type} [LinearOrderedField K] {n : Nat}
    (s : projected_gradient K n) (A : Matrix (Fin n) (Fin n) K) (c l : Fin n → K) :
    projected_gradient_pass K n :=
  let m_dg := mkl_sparse_d_mv 1 A l 1 c
  let l1 := s.projection_cone (l - s.m_rho • m_dg)
  let norm_dg := amax_abs m_dg
  let norm_l := amax_abs l1
  let m_uu := mkl_sparse_d_mv 1 A l1 1 c
  let constraint := amin m_uu
  { l := l1, norm_dg := norm_dg, norm_l := norm_l
    self := { s with m_dg := m_dg, m_uu := m_uu
                     log := s.log ++ [LogEntry.constraint constraint] } }

/-- The loop `while (iter < m_max_iter)` of `projected_gradient::projection`
with `fuel = m_max_iter - iter` passes left.  Behind the loop the function has
no `return` statement: the returned count is then `none`. -/
def projected_gradient.loop {K : Type} [LinearOrderedField K] {n : Nat}
    (A : Matrix (Fin n) (Fin n) K) (c : Fin n → K) :
    Nat → Nat → projected_gradient K n → (Fin n → K) →
      Option Nat × (Fin n → K) × projected_gradient K n
  | 0, _, s, l => (none, l, s)
  | fuel + 1, iter, s, l =>
    if (s.body A c l).norm_dg < s.m_tol_dg ∨ (s.body A c l).norm_l < s.m_tol_l then
      (some (iter + 1), (s.body A c l).l, (s.body A c l).self)
    else projected_gradient.loop A c fuel (iter + 1) (s.body A c l).self (s.body A c l).l

/-- Operation `projected_gradient::projection(A, descr, c, l)`: returned count
(when there is one), final `l`, members. -/
def projected_gradient.projection {K : Type} [LinearOrderedField K] {n : Nat}
    (s : projected_gradient K n) (A : Matrix (Fin n) (Fin n) K) (c l : Fin n → K) :
    Option Nat × (Fin n → K) × projected_gradient K n :=
  projected_gradient.loop A c s.m_max_iter 0 s l

/-- Iterates of APGD in the specification from an arbitrary iterate `x`. -/
def apgd_seq_from {K : Type} [LinearOrderedField K] {n : Nat} (sqrt : K → K)
    (proj : (Fin n → K) → (Fin n → K)) (A : Matrix (Fin n) (Fin n) K) (c : Fin n → K)
    (rho : K) (x : apgd_iterate K n) : Nat → apgd_iterate K n
  | 0 => x
  | k + 1 => apgd_step sqrt proj A c rho (apgd_seq_from sqrt proj A c rho x k)

/-- Modelled from the spec: the frictionless projection `projection_max`
(header `projection_max.hpp`, included by `uzawa.hpp`), the elementwise
projection onto `≥ 0`, written `max(x, 0)` in the algorithm of `uzawa.hpp`. -/
def projection_max {K : Type} [LinearOrderedField K] {n : Nat} (x : Fin n → K) : Fin n → K :=
  fun i => max (x i) 0

/-- Uzawa solver on one constraint row: frictionless projection,
`max_iter = 2`, `rho = 1999/2000`, `tol_l = 1/1000`, not verbose. -/
def demo_uzawa : uzawa ℚ 1 :=
  { projection_cone := projection_max, m_max_iter := 2, m_rho := 1999 / 2000,
    m_tol_dg := 1 / 1000, m_tol_l := 1 / 1000, m_verbose := false,
    m_dg := 0, m_uu := 0, m_lambda_prev := 0, log := [] }

/-- Projected gradient solver with the parameters of `demo_uzawa`. -/
def demo_projected_gradient : projected_gradient ℚ 1 :=
  { projection_cone := projection_max, m_max_iter := 2, m_rho := 1999 / 2000,
    m_tol_dg := 1 / 1000, m_tol_l := 1 / 1000, m_dg := 0, m_uu := 0, log := [] }

/-- Stopping test of `projected_gradient::projection` at iteration `k ≥ 1` of a
sequence of iterates: `max|A*l_(k-1) + c| < tol_dg` or `max|l_k| < tol_l`. -/
def pg_stops_at {K : Type} [LinearOrderedField K] {n : Nat} (tol_dg tol_l : K)
    (A : Matrix (Fin n) (Fin n) K) (c : Fin n → K) (seq : Nat → (Fin n → K)) (k : Nat) : Prop :=
  amax_abs (A.mulVec (seq (k - 1)) + c) < tol_dg ∨ amax_abs (seq k) < tol_l

/-! ## OptimBase (`OptimBase.hpp`) -/

/-- The part of `scopi_container<dim>` read by `create_vector_c`, on top of the
part read by the problem: masses `m()`, desired velocities `vd()` (component
`d` of particle `i` is `vd i d`), desired angular velocities `desired_omega()`
and moments of inertia `j()`.  `Omega` is the type of an angular velocity and
of a moment of inertia in dimension `dim`. -/
structure scopi_container_full (Omega : Type) extends scopi_container where
  m : Nat → ℚ
  vd : Nat → Nat → ℚ
  desired_omega : Nat → Omega
  j : Nat → Omega

/-- Members of `OptimBase` used by `create_vector_c`. -/
structure OptimBase where
  m_nparts : Nat
  m_c : List ℚ
  m_c_dec : Nat

/-- Constructor `OptimBase(nparts, dt, cSize, c_dec)`: `m_c` is a zero vector of
length `cSize`. -/
def OptimBase.init (nparts cSize c_dec : Nat) : OptimBase :=
  { m_nparts := nparts, m_c := List.replicate cSize 0, m_c_dec := c_dec }

/-- Assignments `m_c(index) = value` of `create_vector_c<dim>(particles)`, in
order; `get_omega` is the helper of `utils.hpp` that returns the three
components of an angular velocity or of a moment of inertia. -/
def create_vector_c_writes {Omega : Type} (dim : Nat) (get_omega : Omega → Vec3)
    (o : OptimBase) (particles : scopi_container_full Omega) : List (Nat × ℚ) :=
  let mass_dec := o.m_c_dec
  let moment_dec := mass_dec + 3 * particles.nb_active
  let active_offset := particles.nb_inactive
  (List.range particles.nb_active).flatMap fun i =>
    ((List.range dim).map fun (d : Nat) =>
      (mass_dec + 3 * i + d, -particles.m (active_offset + i) * particles.vd (i + active_offset) d))
    ++
    (range3.map fun (d : Fin 3) =>
      (moment_dec + 3 * i + d,
        -get_omega (particles.j (active_offset + i)) d
          * get_omega (particles.desired_omega (i + active_offset)) d))

/-- Operation `OptimBase::create_vector_c<dim>(particles)`; `none` when an
assignment falls outside `m_c`. -/
def create_vector_c {Omega : Type} (dim : Nat) (get_omega : Omega → Vec3)
    (o : OptimBase) (particles : scopi_container_full Omega) : Option OptimBase :=
  match store_all o.m_c (create_vector_c_writes dim get_omega o particles) with
  | none => none
  | some v => some { o with m_c := v }

/-- The container `demo_particles` in dimension 3 with masses, desired
velocities, desired angular velocities and moments of inertia. -/
def demo_particles_full : scopi_container_full Vec3 :=
  { demo_particles with
    m := fun i => i + 1
    vd := fun i d => 10 * i + d
    desired_omega := fun i d => i + d
    j := fun i _ => 2 * i }

/-- Adapter constructed with `nparts = 2`, `cSize = 12`, `c_dec = 0`. -/
def demo_optim : OptimBase := OptimBase.init 2 12 0

/-- Rational stand-in for `std::sqrt` in evaluations: one Newton step from 1. -/
def demo_sqrt (x : ℚ) : ℚ := (x + 1) / 2

/-- APGD solver with the parameters of `demo_uzawa`. -/
def demo_apgd : apgd ℚ 1 :=
  { projection_cone := projection_max, m_max_iter := 2, m_rho := 1999 / 2000,
    m_tol_dg := 1 / 1000, m_tol_l := 1 / 1000, m_verbose := false,
    m_dg := 0, m_uu := 0, m_y := 0, m_l_old := 0, log := [] }

/-- Signed pair of the specification: every triplet of the first row followed
by the triplet of the second row `row2` in the same column with the opposite
value. -/
def signed_pair (row2 : Nat) (first : List Triplet) : List Triplet :=
  first.flatMap fun t => [t, ⟨row2, t.col, -t.value⟩]

/-- Operations that `OptimBase<Derived, problem_t>` takes from its two template
parameters: `create_vector_distances` and `should_solve` of the problem
`m_problem` (state `P`), and `solve_optimization_problem_impl` and
`get_nb_active_contacts_impl` of the derived solver (state `D`), reached by
`static_cast<Derived&>(*this)`.  The derived solver sees the adapter and the
problem, and returns the new problem state, its own new state and the number of
iterations. -/
structure OptimOps (Omega P D : Type) where
  create_vector_distances : P → List neighbor → Option P
  should_solve : P → Bool
  solve_optimization_problem_impl :
    OptimBase → P → D → scopi_container_full Omega → List neighbor → P × D × Int
  get_nb_active_contacts_impl : D → Int

/-- Messages of `OptimBase::run`: `PLOG_INFO << "----> CPUTIME : vectors = ..."`,
`PLOG_INFO << "iterations : " << nbIter` and
`PLOG_INFO << "Contacts: " << contacts.size() << "  active contacts " << ...`. -/
inductive RunLog where
  | cputime_vectors
  | iterations (nbIter : Int)
  | contacts (size : Nat) (active : Int)
  deriving DecidableEq

/-- State after `OptimBase::run`: the adapter members, the problem, the derived
solver and the messages logged. -/
structure OptimRun (P D : Type) where
  base : OptimBase
  problem : P
  derived : D
  log : List RunLog

/-- Operation `OptimBase::solve_optimization_problem`: the call is forwarded to
`solve_optimization_problem_impl` of the derived solver. -/
def OptimBase.solve_optimization_problem {Omega P D : Type} (ops : OptimOps Omega P D)
    (o : OptimBase) (problem : P) (derived : D) (particles : scopi_container_full Omega)
    (contacts : List neighbor) : P × D × Int :=
  ops.solve_optimization_problem_impl o problem derived particles contacts

/-- Operation `OptimBase::get_nb_active_contacts`. -/
def OptimBase.get_nb_active_contacts {Omega P D : Type} (ops : OptimOps Omega P D)
    (derived : D) : Int :=
  ops.get_nb_active_contacts_impl derived

/-- Operation `OptimBase::should_solve`: `return m_problem.should_solve();`. -/
def OptimBase.should_solve {Omega P D : Type} (ops : OptimOps Omega P D) (problem : P) : Bool :=
  ops.should_solve problem

/-- Operation `OptimBase::run<dim>(particles, contacts, nite)`:
`create_vector_c(particles)`, `m_problem.create_vector_distances(contacts)`, a
message, then `nbIter = solve_optimization_problem(particles, contacts)` and two
messages.  `none` when one of the two vectors cannot be built. -/
def OptimBase.run {Omega P D : Type} (ops : OptimOps Omega P D) (dim : Nat)
    (get_omega : Omega → Vec3) (o : OptimBase) (problem : P) (derived : D)
    (particles : scopi_container_full Omega) (contacts : List neighbor) :
    Option (OptimRun P D) :=
  match create_vector_c dim get_omega o particles with
  | none => none
  | some o1 =>
    match ops.create_vector_distances problem contacts with
    | none => none
    | some p1 =>
      let r := OptimBase.solve_optimization_problem ops o1 p1 derived particles contacts
      some { base := o1, problem := r.1, derived := r.2.1,
             log := [RunLog.cputime_vectors, RunLog.iterations r.2.2,
               RunLog.contacts contacts.length (OptimBase.get_nb_active_contacts ops r.2.1)] }

/-- Adapter operations for evaluation: the viscous problem, reporting
`should_solve() = false`, and a derived solver that counts its invocations and
reports 7 iterations. -/
def demo_ops : OptimOps Vec3 ViscousWithFriction Nat :=
  { create_vector_distances := create_vector_distances_impl
    should_solve := fun _ => false
    solve_optimization_problem_impl := fun _ p d _ _ => (p, d + 1, 7)
    get_nb_active_contacts_impl := fun _ => 0 }

/-- The local `theta_old` of `apgd::projection` at the start of pass `k + 1` of
the loop: `theta_old = 1.` before the loop, and after each pass `theta_old = theta`
with `theta = 0.5 * (theta_old * std::sqrt(4. + theta_old * theta_old) - theta_old * theta_old)`. -/
def apgd_theta {K : Type} [LinearOrderedField K] (sqrt : K → K) : Nat → K
  | 0 => 1
  | k + 1 =>
    1 / 2 * (apgd_theta sqrt k * sqrt (4 + apgd_theta sqrt k * apgd_theta sqrt k)
      - apgd_theta sqrt k * apgd_theta sqrt k)

/-- The local `beta` of pass `k + 1` of the loop of `apgd::projection`:
`beta = theta_old * (1. - theta_old) / (theta_old * theta_old + theta)`. -/
def apgd_beta {K : Type} [LinearOrderedField K] (sqrt : K → K) (k : Nat) : K :=
  apgd_theta sqrt k * (1 - apgd_theta sqrt k)
    / (apgd_theta sqrt k * apgd_theta sqrt k + apgd_theta sqrt (k + 1))

/-! ## vap_projection (`vap_projection.hpp`, `vap_projection.cpp`) -/

/-- Element `t(i, d)` of an `xt::xtensor<double, 2>` held as the list of its
rows; `none` outside the shape. -/
def xtensor2_at (t : List (List ℚ)) (i d : Nat) : Option ℚ :=
  match t[i]? with
  | none => none
  | some row => row[d]?

/-- Members of the class `vap_projection`: `m_Nactive`, `m_active_ptr` and `m_dt`
of its base `vap_base`, and the stored velocities `m_u`, `m_w`. -/
structure vap_projection where
  m_Nactive : Nat
  m_active_ptr : Nat
  m_dt : ℚ
  m_u : List (List ℚ)
  m_w : List (List ℚ)

/-- Constructor `vap_projection(Nactive, active_ptr, dt)`: `m_u` and `m_w` are
empty. -/
def vap_projection.init (Nactive active_ptr : Nat) (dt : ℚ) : vap_projection :=
  { m_Nactive := Nactive, m_active_ptr := active_ptr, m_dt := dt, m_u := [], m_w := [] }

/-- Operation `vap_projection::set_u_w(u, w)`: `m_u = u; m_w = w;`. -/
def vap_projection.set_u_w (s : vap_projection) (u w : List (List ℚ)) : vap_projection :=
  { s with m_u := u, m_w := w }

/-- The arrays `vd()` and `omega()` of a `scopi_container<dim>`, one entry per
particle: a desired velocity has `dim` components, an angular velocity has the
type `Omega`. -/
structure scopi_container_velocities (dim : Nat) (Omega : Type) where
  vd : List (Fin dim → ℚ)
  omega : List Omega

/-- The loop `for (d = 0; d < dim; ++d) particles.vd()(i + m_active_ptr)(d) = m_u(i, d)`
on the desired velocity `row` of one particle, over the remaining values of
`d`; `none` when `m_u(i, d)` does not exist. -/
def vap_projection.set_vd (s : vap_projection) {dim : Nat} (i : Nat) :
    List (Fin dim) → (Fin dim → ℚ) → Option (Fin dim → ℚ)
  | [], row => some row
  | d :: ds, row =>
    match xtensor2_at s.m_u i d with
    | none => none
    | some x => vap_projection.set_vd s i ds (Function.update row d x)

/-- The loop `for (i = 0; i < m_Nactive; ++i)` of `set_a_priori_velocity_impl` over
the remaining values of `i`; `of_scalar` is the assignment of a `double` to an
element of `omega()`.  `none` when a particle or an element of `m_u`, `m_w`
does not exist. -/
def vap_projection.set_a_priori_velocity_loop {dim : Nat} {Omega : Type}
    (of_scalar : ℚ → Omega) (s : vap_projection) :
    List Nat → scopi_container_velocities dim Omega →
      Option (scopi_container_velocities dim Omega)
  | [], particles => some particles
  | i :: rest, particles =>
    match particles.vd[i + s.m_active_ptr]? with
    | none => none
    | some row =>
      match vap_projection.set_vd s i (List.finRange dim) row with
      | none => none
      | some row1 =>
        match xtensor2_at s.m_w i 2 with
        | none => none
        | some x =>
          if i + s.m_active_ptr < particles.omega.length then
            vap_projection.set_a_priori_velocity_loop of_scalar s rest
              { vd := particles.vd.set (i + s.m_active_ptr) row1
                omega := particles.omega.set (i + s.m_active_ptr) (of_scalar x) }
          else none

/-- Operation `vap_projection::set_a_priori_velocity_impl<dim>(particles)`. -/
def vap_projection.set_a_priori_velocity_impl {dim : Nat} {Omega : Type}
    (of_scalar : ℚ → Omega) (s : vap_projection)
    (particles : scopi_container_velocities dim Omega) :
    Option (scopi_container_velocities dim Omega) :=
  vap_projection.set_a_priori_velocity_loop of_scalar s (List.range s.m_Nactive) particles

/-- Operation `vap_projection::update_velocity_impl<dim>(particles, uadapt, wadapt)`:
the body is empty. -/
def vap_projection.update_velocity_impl {dim : Nat} {Omega : Type} (s : vap_projection)
    (particles : scopi_container_velocities dim Omega) (_uadapt _wadapt : List (List ℚ)) :
    vap_projection × scopi_container_velocities dim Omega :=
  (s, particles)

/-- Projection stage for two active particles behind one obstacle, with stored
velocities `u`, `w`. -/
def demo_vap : vap_projection :=
  (vap_projection.init 2 1 (1 / 100)).set_u_w [[1, 2], [3, 4]] [[0, 0, 5], [0, 0, 6]]

/-- Velocities of three particles in dimension 2. -/
def demo_velocities : scopi_container_velocities 2 ℚ :=
  { vd := [fun _ => 9, fun _ => 0, fun _ => 0], omega := [7, 0, 0] }

/-- Columns of the writes of one `if (c.i >= active_offset)` block of a
non-bonded contact whose first column is `col0`, in the order of writing: the
column `col0 + d` once, or twice when the second row is written
(`gamma < -tol`). -/
def not_bonded_block_cols (second_row : Bool) (col0 : Nat) : List Nat :=
  range3.flatMap fun (d : Fin 3) => if second_row then [col0 + d, col0 + d] else [col0 + d]

/-- Column layout of the specification for the triplets of one contact, in the
order of writing: the linear coefficients of particle `i`, then of particle
`j`, then the angular coefficients of `i`, then of `j`.  An active particle
(`index >= nb_inactive`) with `p = index - nb_inactive` has its linear
coefficients in the three columns from `firstCol + 3*p` and its angular
coefficients in the three columns from `firstCol + 3*nb_active + 3*p`; an
inactive particle has none.  `group col0` lists the columns of one group of
three, with the multiplicity of the regime. -/
def column_layout_spec (particles : scopi_container) (firstCol : Nat) (c : neighbor)
    (group : Nat → List Nat) : List Nat :=
  (if particles.nb_inactive ≤ c.i then
    group (firstCol + 3 * (c.i - particles.nb_inactive)) else []) ++
  (if particles.nb_inactive ≤ c.j then
    group (firstCol + 3 * (c.j - particles.nb_inactive)) else []) ++
  (if particles.nb_inactive ≤ c.i then
    group (firstCol + 3 * particles.nb_active + 3 * (c.i - particles.nb_inactive)) else []) ++
  (if particles.nb_inactive ≤ c.j then
    group (firstCol + 3 * particles.nb_active + 3 * (c.j - particles.nb_inactive)) else [])

/-- Contact between the plane (index 0) and the second sphere (index 2). -/
def contact_plane_second_sphere : neighbor :=
  { i := 0, j := 2, dij := 1 / 8, nij := fun d => if d = 1 then 1 else 0,
    pi := fun _ => 0, pj := fun _ => 0 }

/-! # Theorems -/

theorem set_gamma_foldl (tol gamma_min : ℚ) (gamma : List ℚ) (cnt : Nat × Nat) :
    gamma.foldl (set_gamma_step tol gamma_min) cnt =
      (cnt.1 + n_negative_gamma tol gamma_min gamma, cnt.2 + n_bonded gamma_min gamma) := by
  induction gamma generalizing cnt with
  | nil => simp [n_negative_gamma, n_bonded]
  | cons g gs ih =>
    rw [List.foldl_cons, ih]
    unfold set_gamma_step n_negative_gamma n_bonded
    by_cases h1 : g < -tol ∧ g > gamma_min
    · have h2 : ¬ g = gamma_min := ne_of_gt h1.2
      have h3 : gamma_min < g ∧ g < -tol := ⟨h1.2, h1.1⟩
      simp [h1, h2, h3, List.countP_cons]
      omega
    · by_cases h2 : g = gamma_min
      · have h3 : ¬ (gamma_min < g ∧ g < -tol) := fun h => h1 ⟨h.2, h.1⟩
        simp only [if_neg h1, if_pos h2, List.countP_cons, decide_eq_true_eq, h3, h2]
        simp
        omega
      · have h3 : ¬ (gamma_min < g ∧ g < -tol) := fun h => h1 ⟨h.2, h.1⟩
        simp [h1, h2, h3, List.countP_cons]

theorem counts_le_length (tol gamma_min : ℚ) (gamma : List ℚ) :
    n_bonded gamma_min gamma + n_negative_gamma tol gamma_min gamma ≤ gamma.length := by
  induction gamma with
  | nil => simp [n_negative_gamma, n_bonded]
  | cons g gs ih =>
    unfold n_negative_gamma n_bonded at *
    simp only [List.countP_cons, List.length_cons]
    by_cases h2 : g = gamma_min
    · have e1 : decide (g = gamma_min) = true := decide_eq_true h2
      have e2 : decide (gamma_min < g ∧ g < -tol) = false :=
        decide_eq_false fun h => (ne_of_gt h.1) h2
      rw [e1, e2]
      simp only [if_true, Bool.false_eq_true, if_false]
      omega
    · have e1 : decide (g = gamma_min) = false := decide_eq_false h2
      rw [e1]
      simp only [Bool.false_eq_true, if_false]
      split_ifs <;> omega

theorem set_gamma_nb_gamma_neg (st : ViscousWithFriction) (gamma : List ℚ) :
    (set_gamma st gamma).m_nb_gamma_neg = n_negative_gamma st.m_tol st.m_gamma_min gamma := by
  simp [set_gamma, set_gamma_foldl]

theorem set_gamma_nb_gamma_min (st : ViscousWithFriction) (gamma : List ℚ) :
    (set_gamma st gamma).m_nb_gamma_min = n_bonded st.m_gamma_min gamma := by
  simp [set_gamma, set_gamma_foldl]

/-- Claim C2.  After `set_gamma` on a gamma vector with one entry per contact,
`number_row_matrix_impl(contacts)` is
`(|contacts| - n_bonded) + n_negative_gamma + 8 * n_bonded`, where `n_bonded`
counts the entries equal to `gamma_min` and `n_negative_gamma` the entries
strictly between `gamma_min` and `-tol`; the two counts together do not exceed
`|contacts|`, so the subtraction is exact. -/
theorem number_row_matrix_after_set_gamma (st : ViscousWithFriction) (gamma : List ℚ)
    (contacts : List neighbor) (hlen : gamma.length = contacts.length) :
    number_row_matrix_impl (set_gamma st gamma) contacts =
        (contacts.length - n_bonded st.m_gamma_min gamma)
          + n_negative_gamma st.m_tol st.m_gamma_min gamma + 8 * n_bonded st.m_gamma_min gamma
      ∧ n_bonded st.m_gamma_min gamma + n_negative_gamma st.m_tol st.m_gamma_min gamma
          ≤ contacts.length := by
  refine ⟨?_, hlen ▸ counts_le_length _ _ _⟩
  simp [number_row_matrix_impl, set_gamma_nb_gamma_neg, set_gamma_nb_gamma_min]

theorem rows_written_append (a b : List Triplet) :
    rows_written (a ++ b) = rows_written a ∪ rows_written b := by
  simp [rows_written, List.toFinset_append]

theorem mem_rows_not_bonded (h : Helpers) (st : ViscousWithFriction) (particles : scopi_container)
    (size firstCol ic : Nat) (c : neighbor) (g : ℚ)
    (hact : particles.nb_inactive ≤ c.i ∨ particles.nb_inactive ≤ c.j) (r : Nat) :
    r ∈ rows_written (writes_not_bonded h st particles size firstCol ic c g) ↔
      r = ic ∨ (g < -st.m_tol ∧ r = size - st.m_nb_gamma_min + ic) := by
  unfold writes_not_bonded rows_written
  by_cases hg : g < -st.m_tol
  · rcases hact with hi | hj
    · by_cases hj : particles.nb_inactive ≤ c.j <;>
        simp [range3, hg, hi, hj]
    · by_cases hi : particles.nb_inactive ≤ c.i <;>
        simp [range3, hg, hi, hj]
  · rcases hact with hi | hj
    · by_cases hj : particles.nb_inactive ≤ c.j <;>
        simp [range3, hg, hi, hj]
    · by_cases hi : particles.nb_inactive ≤ c.i <;>
        simp [range3, hg, hi, hj]


theorem rows_of_writes_bonded (h : Helpers) (st : ViscousWithFriction)
    (particles : scopi_container) (size firstCol ic : Nat) (c : neighbor) :
    (writes_bonded h st particles size firstCol ic c).map Triplet.row =
      let b1 := size - st.m_nb_gamma_min + st.m_nb_gamma_neg + 4 * ic
      let b2 := size - st.m_nb_gamma_min + st.m_nb_gamma_neg + 4 * st.m_nb_gamma_min + 4 * ic
      (if particles.nb_inactive ≤ c.i then bonded_block_rows b1 b2 else []) ++
      (if particles.nb_inactive ≤ c.j then bonded_block_rows b1 b2 else []) ++
      (if particles.nb_inactive ≤ c.i then bonded_block_rows b1 b2 else []) ++
      (if particles.nb_inactive ≤ c.j then bonded_block_rows b1 b2 else []) := by
  unfold writes_bonded
  by_cases hi : particles.nb_inactive ≤ c.i <;> by_cases hj : particles.nb_inactive ≤ c.j <;>
    simp only [ge_iff_le, hi, hj, if_true, if_false] <;> rfl

theorem mem_bonded_block_rows (b1 b2 r : Nat) :
    r ∈ bonded_block_rows b1 b2 ↔ (b1 ≤ r ∧ r < b1 + 4) ∨ (b2 ≤ r ∧ r < b2 + 4) := by
  simp [bonded_block_rows, range3]
  omega

theorem mem_rows_bonded (h : Helpers) (st : ViscousWithFriction) (particles : scopi_container)
    (size firstCol ic : Nat) (c : neighbor)
    (hact : particles.nb_inactive ≤ c.i ∨ particles.nb_inactive ≤ c.j) (r : Nat) :
    r ∈ rows_written (writes_bonded h st particles size firstCol ic c) ↔
      (size - st.m_nb_gamma_min + st.m_nb_gamma_neg + 4 * ic ≤ r ∧
        r < size - st.m_nb_gamma_min + st.m_nb_gamma_neg + 4 * ic + 4) ∨
      (size - st.m_nb_gamma_min + st.m_nb_gamma_neg + 4 * st.m_nb_gamma_min + 4 * ic ≤ r ∧
        r < size - st.m_nb_gamma_min + st.m_nb_gamma_neg + 4 * st.m_nb_gamma_min + 4 * ic + 4) := by
  unfold rows_written
  rw [rows_of_writes_bonded]
  simp only [List.mem_toFinset, List.mem_append]
  rcases hact with hi | hj
  · by_cases hj : particles.nb_inactive ≤ c.j <;>
      simp [hi, hj, mem_bonded_block_rows]
  · by_cases hi : particles.nb_inactive ≤ c.i <;>
      simp [hi, hj, mem_bonded_block_rows]

theorem coo_loop_some (h : Helpers) (st : ViscousWithFriction) (particles : scopi_container)
    (size firstCol : Nat) (cs : List neighbor) (ic : Nat)
    (hlen : ic + cs.length ≤ st.m_gamma.length) :
    ∃ ts, coo_loop h st particles size firstCol ic cs = some ts := by
  induction cs generalizing ic with
  | nil => exact ⟨[], rfl⟩
  | cons c cs ih =>
    simp only [List.length_cons] at hlen
    obtain ⟨rest, hrest⟩ := ih (ic + 1) (by omega)
    have hlt : ic < st.m_gamma.length := by omega
    refine ⟨contact_writes h st particles size firstCol ic c st.m_gamma[ic] ++ rest, ?_⟩
    simp [coo_loop, hrest, List.getElem?_eq_getElem hlt]

theorem coo_loop_mem (h : Helpers) (st : ViscousWithFriction) (particles : scopi_container)
    (size firstCol : Nat) (cs : List neighbor) (ic : Nat) (ts : List Triplet)
    (hrun : coo_loop h st particles size firstCol ic cs = some ts) (t : Triplet) :
    t ∈ ts ↔ ∃ k c g, cs[k]? = some c ∧ st.m_gamma[ic + k]? = some g ∧
      t ∈ contact_writes h st particles size firstCol (ic + k) c g := by
  induction cs generalizing ic ts with
  | nil =>
    simp only [coo_loop, Option.some.injEq] at hrun
    subst hrun
    simp
  | cons c cs ih =>
    unfold coo_loop at hrun
    cases hg : st.m_gamma[ic]? with
    | none => simp [hg] at hrun
    | some g =>
      cases hr : coo_loop h st particles size firstCol (ic + 1) cs with
      | none => simp [hg, hr] at hrun
      | some rest =>
        simp only [hg, hr, Option.some.injEq] at hrun
        subst hrun
        rw [List.mem_append, ih (ic + 1) rest hr]
        constructor
        · rintro (ht | ⟨k, c1, g1, hc1, hg1, ht⟩)
          · exact ⟨0, c, g, by simp, by simpa using hg, by simpa using ht⟩
          · refine ⟨k + 1, c1, g1, by simpa using hc1, ?_, ?_⟩
            · rw [← hg1]; congr 1; omega
            · have e : ic + (k + 1) = ic + 1 + k := by omega
              rw [e]; exact ht
        · rintro ⟨k, c1, g1, hc1, hg1, ht⟩
          cases k with
          | zero =>
            left
            simp only [List.getElem?_cons_zero, Option.some.injEq] at hc1
            simp only [Nat.add_zero] at hg1 ht
            rw [hg] at hg1
            simp only [Option.some.injEq] at hg1
            subst hc1 hg1
            exact ht
          | succ k =>
            right
            refine ⟨k, c1, g1, by simpa using hc1, ?_, ?_⟩
            · rw [← hg1]; congr 1; omega
            · have e : ic + (k + 1) = ic + 1 + k := by omega
              rw [← e]; exact ht

theorem coo_writes_rows (h : Helpers) (st : ViscousWithFriction) (particles : scopi_container)
    (contacts : List neighbor) (firstCol : Nat) (ts : List Triplet)
    (hrun : coo_writes h st particles contacts firstCol = some ts) (r : Nat) :
    r ∈ rows_written ts ↔ ∃ k c g, contacts[k]? = some c ∧ st.m_gamma[k]? = some g ∧
      r ∈ rows_written (contact_writes h st particles contacts.length firstCol k c g) := by
  unfold rows_written
  simp only [List.mem_toFinset, List.mem_map]
  constructor
  · rintro ⟨t, ht, rfl⟩
    obtain ⟨k, c, g, hc, hg, hm⟩ := (coo_loop_mem h st particles _ firstCol contacts 0 ts hrun t).1 ht
    rw [Nat.zero_add] at hg hm
    exact ⟨k, c, g, hc, hg, t, hm, rfl⟩
  · rintro ⟨k, c, g, hc, hg, t, hm, rfl⟩
    refine ⟨t, (coo_loop_mem h st particles _ firstCol contacts 0 ts hrun t).2 ?_, rfl⟩
    exact ⟨k, c, g, hc, by simpa using hg, by simpa using hm⟩

theorem coo_loop_split (h : Helpers) (st : ViscousWithFriction) (particles : scopi_container)
    (size firstCol : Nat) (cs : List neighbor) (ic : Nat) (ts : List Triplet)
    (hrun : coo_loop h st particles size firstCol ic cs = some ts)
    (k : Nat) (c : neighbor) (g : ℚ) (hc : cs[k]? = some c) (hg : st.m_gamma[ic + k]? = some g) :
    ∃ before after,
      ts = before ++ contact_writes h st particles size firstCol (ic + k) c g ++ after := by
  induction cs generalizing ic ts k with
  | nil => simp at hc
  | cons c0 cs ih =>
    unfold coo_loop at hrun
    cases hg0 : st.m_gamma[ic]? with
    | none => simp [hg0] at hrun
    | some g0 =>
      cases hr : coo_loop h st particles size firstCol (ic + 1) cs with
      | none => simp [hg0, hr] at hrun
      | some rest =>
        simp only [hg0, hr, Option.some.injEq] at hrun
        subst hrun
        cases k with
        | zero =>
          simp only [List.getElem?_cons_zero, Option.some.injEq] at hc
          simp only [Nat.add_zero] at hg
          rw [hg0] at hg
          simp only [Option.some.injEq] at hg
          subst hc hg
          exact ⟨[], rest, by simp⟩
        | succ k =>
          have e : ic + (k + 1) = ic + 1 + k := by omega
          rw [e] at hg
          obtain ⟨b, a, hba⟩ := ih (ic + 1) rest hr k (by simpa using hc) hg
          refine ⟨contact_writes h st particles size firstCol ic c0 g0 ++ b, a, ?_⟩
          rw [e, hba]
          simp

theorem mem_rows_contact_free (h : Helpers) (st : ViscousWithFriction)
    (particles : scopi_container) (size firstCol ic : Nat) (c : neighbor) (g : ℚ)
    (hact : particles.nb_inactive ≤ c.i ∨ particles.nb_inactive ≤ c.j)
    (hmin : st.m_gamma_min < -st.m_tol) (hg : -st.m_tol < g) (r : Nat) :
    r ∈ rows_written (contact_writes h st particles size firstCol ic c g) ↔ r = ic := by
  have h1 : g ≠ st.m_gamma_min := ne_of_gt (lt_trans hmin hg)
  have h2 : ¬ g < -st.m_tol := not_lt.mpr (le_of_lt hg)
  unfold contact_writes
  rw [if_pos h1, mem_rows_not_bonded h st particles size firstCol ic c g hact]
  simp [h2]

theorem mem_rows_contact_negative (h : Helpers) (st : ViscousWithFriction)
    (particles : scopi_container) (size firstCol ic : Nat) (c : neighbor) (g : ℚ)
    (hact : particles.nb_inactive ≤ c.i ∨ particles.nb_inactive ≤ c.j)
    (hg1 : st.m_gamma_min < g) (hg2 : g < -st.m_tol) (r : Nat) :
    r ∈ rows_written (contact_writes h st particles size firstCol ic c g) ↔
      r = ic ∨ r = size - st.m_nb_gamma_min + ic := by
  have h1 : g ≠ st.m_gamma_min := ne_of_gt hg1
  unfold contact_writes
  rw [if_pos h1, mem_rows_not_bonded h st particles size firstCol ic c g hact]
  simp [hg2]

theorem mem_rows_contact_bonded (h : Helpers) (st : ViscousWithFriction)
    (particles : scopi_container) (size firstCol ic : Nat) (c : neighbor) (g : ℚ)
    (hact : particles.nb_inactive ≤ c.i ∨ particles.nb_inactive ≤ c.j)
    (hg : g = st.m_gamma_min) (r : Nat) :
    r ∈ rows_written (contact_writes h st particles size firstCol ic c g) ↔
      (size - st.m_nb_gamma_min + st.m_nb_gamma_neg + 4 * ic ≤ r ∧
        r < size - st.m_nb_gamma_min + st.m_nb_gamma_neg + 4 * ic + 4) ∨
      (size - st.m_nb_gamma_min + st.m_nb_gamma_neg + 4 * st.m_nb_gamma_min + 4 * ic ≤ r ∧
        r < size - st.m_nb_gamma_min + st.m_nb_gamma_neg + 4 * st.m_nb_gamma_min + 4 * ic + 4) := by
  unfold contact_writes
  rw [if_neg (not_not.mpr hg), mem_rows_bonded h st particles size firstCol ic c hact]

theorem n_bonded_pos (gamma_min : ℚ) (gamma : List ℚ) (k : Nat)
    (hk : gamma[k]? = some gamma_min) : 0 < n_bonded gamma_min gamma := by
  unfold n_bonded
  rw [List.countP_pos_iff]
  exact ⟨gamma_min, List.getElem?_mem hk, by simp⟩

theorem n_negative_gamma_pos (tol gamma_min g : ℚ) (gamma : List ℚ) (k : Nat)
    (hk : gamma[k]? = some g) (h1 : gamma_min < g) (h2 : g < -tol) :
    0 < n_negative_gamma tol gamma_min gamma := by
  unfold n_negative_gamma
  rw [List.countP_pos_iff]
  exact ⟨g, List.getElem?_mem hk, by simp [h1, h2]⟩

/-- Claim C8.  Rows per regime: with the counts taken from `set_gamma` and
`gamma_min < -tol`, the triplets that the assembly loop writes for a contact
with at least one active particle (a contiguous part of the sequence of
writes) carry exactly 1 distinct row index when `-tol < gamma <= 0`, exactly 2
when `gamma_min < gamma < -tol`, and exactly 8 when `gamma == gamma_min`. -/
theorem rows_per_regime (h : Helpers) (st0 : ViscousWithFriction) (particles : scopi_container)
    (contacts : List neighbor) (gamma : List ℚ) (firstCol ic : Nat) (c : neighbor) (g : ℚ)
    (hlen : gamma.length = contacts.length)
    (hc : contacts[ic]? = some c) (hg : gamma[ic]? = some g)
    (hact : particles.nb_inactive ≤ c.i ∨ particles.nb_inactive ≤ c.j)
    (hmin : st0.m_gamma_min < -st0.m_tol) :
    ∃ ts before after,
      coo_writes h (set_gamma st0 gamma) particles contacts firstCol = some ts ∧
      ts = before
        ++ contact_writes h (set_gamma st0 gamma) particles contacts.length firstCol ic c g
        ++ after ∧
      (-st0.m_tol < g ∧ g ≤ 0 →
        (rows_written (contact_writes h (set_gamma st0 gamma) particles contacts.length
          firstCol ic c g)).card = 1) ∧
      (st0.m_gamma_min < g ∧ g < -st0.m_tol →
        (rows_written (contact_writes h (set_gamma st0 gamma) particles contacts.length
          firstCol ic c g)).card = 2) ∧
      (g = st0.m_gamma_min →
        (rows_written (contact_writes h (set_gamma st0 gamma) particles contacts.length
          firstCol ic c g)).card = 8) := by
  have hgam : (set_gamma st0 gamma).m_gamma = gamma := rfl
  have htol : (set_gamma st0 gamma).m_tol = st0.m_tol := rfl
  have hgm : (set_gamma st0 gamma).m_gamma_min = st0.m_gamma_min := rfl
  obtain ⟨ts, hts⟩ := coo_loop_some h (set_gamma st0 gamma) particles contacts.length firstCol
    contacts 0 (by rw [hgam]; omega)
  obtain ⟨before, after, hsplit⟩ := coo_loop_split h (set_gamma st0 gamma) particles
    contacts.length firstCol contacts 0 ts hts ic c g hc (by rw [hgam]; simpa using hg)
  rw [Nat.zero_add] at hsplit
  refine ⟨ts, before, after, hts, hsplit, ?_, ?_, ?_⟩
  · rintro ⟨h1, _⟩
    have e : rows_written (contact_writes h (set_gamma st0 gamma) particles contacts.length
        firstCol ic c g) = {ic} := by
      ext r
      rw [mem_rows_contact_free h _ particles _ firstCol ic c g hact (by rw [hgm, htol]; exact hmin)
        (by rw [htol]; exact h1)]
      simp
    rw [e, Finset.card_singleton]
  · rintro ⟨h1, h2⟩
    have hpos := n_negative_gamma_pos st0.m_tol st0.m_gamma_min g gamma ic hg h1 h2
    have hle := counts_le_length st0.m_tol st0.m_gamma_min gamma
    have e : rows_written (contact_writes h (set_gamma st0 gamma) particles contacts.length
        firstCol ic c g) = {ic, contacts.length - (set_gamma st0 gamma).m_nb_gamma_min + ic} := by
      ext r
      rw [mem_rows_contact_negative h _ particles _ firstCol ic c g hact (by rw [hgm]; exact h1)
        (by rw [htol]; exact h2)]
      simp
    rw [e, Finset.card_pair]
    rw [set_gamma_nb_gamma_min]
    omega
  · intro h1
    have hpos := n_bonded_pos st0.m_gamma_min gamma ic (h1 ▸ hg)
    have e : rows_written (contact_writes h (set_gamma st0 gamma) particles contacts.length
        firstCol ic c g) =
        Finset.Ico (contacts.length - (set_gamma st0 gamma).m_nb_gamma_min
            + (set_gamma st0 gamma).m_nb_gamma_neg + 4 * ic)
          (contacts.length - (set_gamma st0 gamma).m_nb_gamma_min
            + (set_gamma st0 gamma).m_nb_gamma_neg + 4 * ic + 4) ∪
        Finset.Ico (contacts.length - (set_gamma st0 gamma).m_nb_gamma_min
            + (set_gamma st0 gamma).m_nb_gamma_neg + 4 * (set_gamma st0 gamma).m_nb_gamma_min
            + 4 * ic)
          (contacts.length - (set_gamma st0 gamma).m_nb_gamma_min
            + (set_gamma st0 gamma).m_nb_gamma_neg + 4 * (set_gamma st0 gamma).m_nb_gamma_min
            + 4 * ic + 4) := by
      ext r
      rw [mem_rows_contact_bonded h _ particles _ firstCol ic c g hact (by rw [hgm]; exact h1)]
      simp [Finset.mem_union, Finset.mem_Ico]
    rw [e, Finset.card_union_of_disjoint, Nat.card_Ico, Nat.card_Ico]
    · omega
    · rw [Finset.disjoint_left]
      intro r hr1 hr2
      rw [Finset.mem_Ico] at hr1 hr2
      rw [set_gamma_nb_gamma_min] at hr1 hr2
      omega

theorem counts_all_free (tol gamma_min : ℚ) (gamma : List ℚ) (hmin : gamma_min < -tol)
    (hall : ∀ g ∈ gamma, -tol < g ∧ g ≤ 0) :
    n_bonded gamma_min gamma = 0 ∧ n_negative_gamma tol gamma_min gamma = 0 := by
  unfold n_bonded n_negative_gamma
  rw [List.countP_eq_zero, List.countP_eq_zero]
  constructor
  · intro g hg
    have := (hall g hg).1
    simp only [decide_eq_true_eq]
    exact ne_of_gt (lt_trans hmin this)
  · intro g hg
    have := (hall g hg).1
    simp only [decide_eq_true_eq, not_and, not_lt]
    intro _
    exact le_of_lt this

theorem counts_all_negative (tol gamma_min : ℚ) (gamma : List ℚ)
    (hall : ∀ g ∈ gamma, gamma_min < g ∧ g < -tol) :
    n_bonded gamma_min gamma = 0 ∧ n_negative_gamma tol gamma_min gamma = gamma.length := by
  unfold n_bonded n_negative_gamma
  rw [List.countP_eq_zero, List.countP_eq_length]
  constructor
  · intro g hg
    simp only [decide_eq_true_eq]
    exact ne_of_gt (hall g hg).1
  · intro g hg
    simp only [decide_eq_true_eq]
    exact hall g hg

theorem counts_all_bonded (tol gamma_min : ℚ) (gamma : List ℚ)
    (hall : ∀ g ∈ gamma, g = gamma_min) :
    n_bonded gamma_min gamma = gamma.length ∧ n_negative_gamma tol gamma_min gamma = 0 := by
  unfold n_bonded n_negative_gamma
  rw [List.countP_eq_zero, List.countP_eq_length]
  constructor
  · intro g hg
    simp only [decide_eq_true_eq]
    exact hall g hg
  · intro g hg
    simp only [decide_eq_true_eq, not_and, not_lt]
    intro h1
    exact absurd (hall g hg) (ne_of_gt h1)

/-- Claim C9.  Homogeneous contact lists are laid out exactly: when every
contact has at least one active particle and all gammas are free
(`-tol < gamma <= 0`, with `gamma_min < -tol`), or all strictly between
`gamma_min` and `-tol`, or all equal to `gamma_min`, then
`number_row_matrix_impl` returns `|contacts|`, `2 * |contacts|` or
`8 * |contacts|` respectively, and the set of row indices written by the
assembly loop is exactly `0 .. row_count - 1`. -/
theorem homogeneous_layout (h : Helpers) (st0 : ViscousWithFriction) (particles : scopi_container)
    (contacts : List neighbor) (gamma : List ℚ) (firstCol : Nat)
    (hlen : gamma.length = contacts.length)
    (hact : ∀ c ∈ contacts, particles.nb_inactive ≤ c.i ∨ particles.nb_inactive ≤ c.j) :
    ∃ ts, coo_writes h (set_gamma st0 gamma) particles contacts firstCol = some ts ∧
      (st0.m_gamma_min < -st0.m_tol → (∀ g ∈ gamma, -st0.m_tol < g ∧ g ≤ 0) →
        number_row_matrix_impl (set_gamma st0 gamma) contacts = contacts.length ∧
        rows_written ts = Finset.range (number_row_matrix_impl (set_gamma st0 gamma) contacts)) ∧
      ((∀ g ∈ gamma, st0.m_gamma_min < g ∧ g < -st0.m_tol) →
        number_row_matrix_impl (set_gamma st0 gamma) contacts = 2 * contacts.length ∧
        rows_written ts = Finset.range (number_row_matrix_impl (set_gamma st0 gamma) contacts)) ∧
      ((∀ g ∈ gamma, g = st0.m_gamma_min) →
        number_row_matrix_impl (set_gamma st0 gamma) contacts = 8 * contacts.length ∧
        rows_written ts = Finset.range (number_row_matrix_impl (set_gamma st0 gamma) contacts)) := by
  have hgam : (set_gamma st0 gamma).m_gamma = gamma := rfl
  have htol : (set_gamma st0 gamma).m_tol = st0.m_tol := rfl
  have hgm : (set_gamma st0 gamma).m_gamma_min = st0.m_gamma_min := rfl
  obtain ⟨ts, hts⟩ := coo_loop_some h (set_gamma st0 gamma) particles contacts.length firstCol
    contacts 0 (by rw [hgam]; omega)
  have hrows := coo_writes_rows h (set_gamma st0 gamma) particles contacts firstCol ts hts
  have hex : ∀ k, k < contacts.length → ∃ c g, contacts[k]? = some c ∧ gamma[k]? = some g :=
    fun k hk => ⟨contacts[k], gamma[k], List.getElem?_eq_getElem hk,
      List.getElem?_eq_getElem (by omega)⟩
  have hklt : ∀ k c, contacts[k]? = some c → k < contacts.length := by
    intro k c hc
    by_contra hn
    rw [List.getElem?_eq_none (by omega)] at hc
    exact Option.noConfusion hc
  refine ⟨ts, hts, ?_, ?_, ?_⟩
  · intro hmin hall
    obtain ⟨hb, hn⟩ := counts_all_free st0.m_tol st0.m_gamma_min gamma hmin hall
    have hcount : number_row_matrix_impl (set_gamma st0 gamma) contacts = contacts.length := by
      simp [number_row_matrix_impl, set_gamma_nb_gamma_neg, set_gamma_nb_gamma_min, hb, hn]
    refine ⟨hcount, ?_⟩
    ext r
    rw [hrows, hcount, Finset.mem_range]
    constructor
    · rintro ⟨k, c, g, hc, hg, hr⟩
      rw [mem_rows_contact_free h _ particles _ firstCol k c g (hact c (List.getElem?_mem hc))
        (by rw [hgm, htol]; exact hmin)
        (by rw [htol]; exact (hall g (List.getElem?_mem hg)).1)] at hr
      rw [hr]
      exact hklt k c hc
    · intro hr
      obtain ⟨c, g, hc, hg⟩ := hex r hr
      refine ⟨r, c, g, hc, hg, ?_⟩
      rw [mem_rows_contact_free h _ particles _ firstCol r c g (hact c (List.getElem?_mem hc))
        (by rw [hgm, htol]; exact hmin)
        (by rw [htol]; exact (hall g (List.getElem?_mem hg)).1)]
  · intro hall
    obtain ⟨hb, hn⟩ := counts_all_negative st0.m_tol st0.m_gamma_min gamma hall
    have hcount : number_row_matrix_impl (set_gamma st0 gamma) contacts
        = 2 * contacts.length := by
      simp [number_row_matrix_impl, set_gamma_nb_gamma_neg, set_gamma_nb_gamma_min, hb, hn]
      omega
    refine ⟨hcount, ?_⟩
    ext r
    rw [hrows, hcount, Finset.mem_range]
    constructor
    · rintro ⟨k, c, g, hc, hg, hr⟩
      rw [mem_rows_contact_negative h _ particles _ firstCol k c g
        (hact c (List.getElem?_mem hc))
        (by rw [hgm]; exact (hall g (List.getElem?_mem hg)).1)
        (by rw [htol]; exact (hall g (List.getElem?_mem hg)).2)] at hr
      have := hklt k c hc
      rw [set_gamma_nb_gamma_min, hb] at hr
      omega
    · intro hr
      by_cases hlt : r < contacts.length
      · obtain ⟨c, g, hc, hg⟩ := hex r hlt
        refine ⟨r, c, g, hc, hg, ?_⟩
        rw [mem_rows_contact_negative h _ particles _ firstCol r c g
          (hact c (List.getElem?_mem hc))
          (by rw [hgm]; exact (hall g (List.getElem?_mem hg)).1)
          (by rw [htol]; exact (hall g (List.getElem?_mem hg)).2)]
        left; rfl
      · obtain ⟨c, g, hc, hg⟩ := hex (r - contacts.length) (by omega)
        refine ⟨r - contacts.length, c, g, hc, hg, ?_⟩
        rw [mem_rows_contact_negative h _ particles _ firstCol _ c g
          (hact c (List.getElem?_mem hc))
          (by rw [hgm]; exact (hall g (List.getElem?_mem hg)).1)
          (by rw [htol]; exact (hall g (List.getElem?_mem hg)).2)]
        rw [set_gamma_nb_gamma_min, hb]
        omega
  · intro hall
    obtain ⟨hb, hn⟩ := counts_all_bonded st0.m_tol st0.m_gamma_min gamma hall
    have hcount : number_row_matrix_impl (set_gamma st0 gamma) contacts
        = 8 * contacts.length := by
      simp [number_row_matrix_impl, set_gamma_nb_gamma_neg, set_gamma_nb_gamma_min, hb, hn, hlen]
    refine ⟨hcount, ?_⟩
    ext r
    rw [hrows, hcount, Finset.mem_range]
    constructor
    · rintro ⟨k, c, g, hc, hg, hr⟩
      rw [mem_rows_contact_bonded h _ particles _ firstCol k c g
        (hact c (List.getElem?_mem hc))
        (by rw [hgm]; exact hall g (List.getElem?_mem hg))] at hr
      have := hklt k c hc
      rw [set_gamma_nb_gamma_min, set_gamma_nb_gamma_neg, hb, hn] at hr
      omega
    · intro hr
      by_cases hlt : r < 4 * contacts.length
      · obtain ⟨c, g, hc, hg⟩ := hex (r / 4) (by omega)
        refine ⟨r / 4, c, g, hc, hg, ?_⟩
        rw [mem_rows_contact_bonded h _ particles _ firstCol _ c g
          (hact c (List.getElem?_mem hc))
          (by rw [hgm]; exact hall g (List.getElem?_mem hg))]
        rw [set_gamma_nb_gamma_min, set_gamma_nb_gamma_neg, hb, hn]
        omega
      · obtain ⟨c, g, hc, hg⟩ := hex ((r - 4 * contacts.length) / 4) (by omega)
        refine ⟨(r - 4 * contacts.length) / 4, c, g, hc, hg, ?_⟩
        rw [mem_rows_contact_bonded h _ particles _ firstCol _ c g
          (hact c (List.getElem?_mem hc))
          (by rw [hgm]; exact hall g (List.getElem?_mem hg))]
        rw [set_gamma_nb_gamma_min, set_gamma_nb_gamma_neg, hb, hn]
        omega

theorem gamma_update_bounds (st : ViscousWithFriction) (g f : ℚ) (hmin : st.m_gamma_min ≤ 0) :
    st.m_gamma_min ≤ gamma_update st g f ∧ gamma_update st g f ≤ 0 := by
  unfold gamma_update
  have h1 : st.m_gamma_min ≤ max st.m_gamma_min (min 0 (g - st.m_dt * f)) := le_max_left _ _
  have h2 : max st.m_gamma_min (min 0 (g - st.m_dt * f)) ≤ 0 := max_le hmin (min_le_left _ _)
  simp only
  split_ifs with a b b
  · exact ⟨hmin, le_refl _⟩
  · exact ⟨le_refl _, hmin⟩
  · exact ⟨hmin, le_refl _⟩
  · exact ⟨h1, h2⟩

theorem gamma_update_cases (st : ViscousWithFriction) (g f : ℚ) (htol : 0 < st.m_tol)
    (hmin : st.m_gamma_min ≤ -2 * st.m_tol) :
    gamma_update st g f =
      (if max st.m_gamma_min (min 0 (g - st.m_dt * f)) - st.m_gamma_min < st.m_tol then
          st.m_gamma_min
        else if max st.m_gamma_min (min 0 (g - st.m_dt * f)) > -st.m_tol then 0
        else max st.m_gamma_min (min 0 (g - st.m_dt * f))) ∧
    (gamma_update st g f = st.m_gamma_min ∨ gamma_update st g f = 0 ∨
      (st.m_gamma_min + st.m_tol ≤ gamma_update st g f ∧ gamma_update st g f ≤ -st.m_tol)) := by
  unfold gamma_update
  simp only
  split_ifs with a b b
  · exfalso; linarith
  · exact ⟨rfl, Or.inl rfl⟩
  · exact ⟨rfl, Or.inr (Or.inl rfl)⟩
  · refine ⟨rfl, Or.inr (Or.inr ⟨?_, ?_⟩)⟩
    · linarith [not_lt.mp a]
    · exact not_lt.mp b

theorem update_gamma_loop_spec (st : ViscousWithFriction) (lambda : List ℚ) (n : Nat) :
    ∀ (i a b : Nat) (s s' : GammaLoop),
      update_gamma_loop st lambda n i a b s = some s' →
      s.gamma_old.length = st.m_gamma.length →
      s'.gamma_old.length = s.gamma_old.length ∧
      s'.reads.length = s.reads.length + n ∧
      (∀ k, k < i ∨ i + n ≤ k → s'.gamma_old[k]? = s.gamma_old[k]?) ∧
      (∀ k, k < s.reads.length → s'.reads[k]? = s.reads[k]?) ∧
      (∀ k, i ≤ k → k < i + n → ∃ g d f, st.m_gamma[k]? = some g ∧
        s'.reads[s.reads.length + (k - i)]? = some (d, f) ∧ f_contact lambda d = some f ∧
        s'.gamma_old[k]? = some (gamma_update st g f)) := by
  induction n with
  | zero =>
    intro i a b s s' hrun _
    simp only [update_gamma_loop, Option.some.injEq] at hrun
    subst hrun
    refine ⟨rfl, rfl, fun _ _ => rfl, fun _ _ => rfl, ?_⟩
    intro k h1 h2
    omega
  | succ n ih =>
    intro i a b s s' hrun hlen
    unfold update_gamma_loop at hrun
    cases hg : st.m_gamma[i]? with
    | none => simp [hg] at hrun
    | some g =>
      cases hf : f_contact lambda (decode_indices st g i a b) with
      | none => simp [hg, hf] at hrun
      | some f =>
        simp only [hg, hf] at hrun
        have hi : i < st.m_gamma.length := by
          by_contra hn
          rw [List.getElem?_eq_none (by omega)] at hg
          exact Option.noConfusion hg
        obtain ⟨e1, e2, e3, e4, e5⟩ := ih _ _ _ _ s' hrun (by simp [hlen])
        simp only [List.length_set, List.length_append, List.length_singleton] at e1 e2 e4
        refine ⟨e1, by omega, ?_, ?_, ?_⟩
        · intro k hk
          rw [e3 k (by omega)]
          exact List.getElem?_set_ne (by omega)
        · intro k hk
          rw [e4 k (by omega)]
          exact List.getElem?_append_left hk
        · intro k h1 h2
          by_cases hki : k = i
          · subst hki
            refine ⟨g, decode_indices st g k a b, f, hg, ?_, hf, ?_⟩
            · rw [Nat.sub_self, Nat.add_zero, e4 _ (by omega)]
              simp
            · rw [e3 k (by omega)]
              simp [hlen, hi]
          · obtain ⟨g1, d1, f1, q1, q2, q3, q4⟩ := e5 k (by omega) (by omega)
            refine ⟨g1, d1, f1, q1, ?_, q3, q4⟩
            rw [← q2]
            simp only [List.length_append, List.length_singleton]
            congr 1
            omega

theorem resize_length {α : Type} [Zero α] (v : List α) (n : Nat) :
    (resize v n).length = n := by
  simp [resize]
  omega

theorem f_contact_zero (R : Nat) (d : Decode) (h1 : d.first < R)
    (h2 : ∀ k, d.second = some k → k < R) :
    f_contact (List.replicate R 0) d = some 0 := by
  unfold f_contact
  have e1 : (List.replicate R (0 : ℚ))[d.first]? = some 0 := by
    simp [List.getElem?_replicate, h1]
  cases hs : d.second with
  | none => simp [e1]
  | some k =>
    have e2 : (List.replicate R (0 : ℚ))[k]? = some 0 := by
      simp [List.getElem?_replicate, h2 k hs]
    simp [e1, e2]

theorem n_negative_gamma_take_succ (tol gamma_min g : ℚ) (gamma : List ℚ) (i : Nat)
    (hg : gamma[i]? = some g) :
    n_negative_gamma tol gamma_min (gamma.take (i + 1)) =
      n_negative_gamma tol gamma_min (gamma.take i)
        + (if gamma_min < g ∧ g < -tol then 1 else 0) := by
  unfold n_negative_gamma
  rw [List.take_succ, hg, List.countP_append]
  simp [List.countP_cons]

theorem n_bonded_take_succ (gamma_min g : ℚ) (gamma : List ℚ) (i : Nat)
    (hg : gamma[i]? = some g) :
    n_bonded gamma_min (gamma.take (i + 1)) =
      n_bonded gamma_min (gamma.take i) + (if g = gamma_min then 1 else 0) := by
  unfold n_bonded
  rw [List.take_succ, hg, List.countP_append]
  simp [List.countP_cons]

theorem n_negative_gamma_take_le (tol gamma_min : ℚ) (gamma : List ℚ) (i : Nat) :
    n_negative_gamma tol gamma_min (gamma.take i) ≤ n_negative_gamma tol gamma_min gamma :=
  List.Sublist.countP_le _ (List.take_sublist i gamma)

theorem n_bonded_take_le (gamma_min : ℚ) (gamma : List ℚ) (i : Nat) :
    n_bonded gamma_min (gamma.take i) ≤ n_bonded gamma_min gamma :=
  List.Sublist.countP_le _ (List.take_sublist i gamma)

theorem update_gamma_loop_zero (st : ViscousWithFriction) (R : Nat)
    (hneg : st.m_nb_gamma_neg = n_negative_gamma st.m_tol st.m_gamma_min st.m_gamma)
    (hbond : st.m_nb_gamma_min = n_bonded st.m_gamma_min st.m_gamma)
    (hge : ∀ g ∈ st.m_gamma, st.m_gamma_min ≤ g)
    (hR : R = st.m_gamma.length - st.m_nb_gamma_min + st.m_nb_gamma_neg
      + 2 * 4 * st.m_nb_gamma_min) (n : Nat) :
    ∀ (i : Nat) (s : GammaLoop), i + n ≤ st.m_gamma.length →
      ∃ s', update_gamma_loop st (List.replicate R 0) n i
          (n_negative_gamma st.m_tol st.m_gamma_min (st.m_gamma.take i))
          (n_bonded st.m_gamma_min (st.m_gamma.take i)) s = some s' ∧
        ∀ p ∈ s'.reads, p ∈ s.reads ∨
          (p.2 = 0 ∧ p.1.first < R ∧ ∀ k, p.1.second = some k → k < R) := by
  induction n with
  | zero =>
    intro i s _
    exact ⟨s, rfl, fun p hp => Or.inl hp⟩
  | succ n ih =>
    intro i s hi
    have hlt : i < st.m_gamma.length := by omega
    have hg : st.m_gamma[i]? = some st.m_gamma[i] := List.getElem?_eq_getElem hlt
    have hmem : st.m_gamma[i] ∈ st.m_gamma := List.getElem?_mem hg
    have hgmin := hge _ hmem
    have t1 := n_negative_gamma_take_succ st.m_tol st.m_gamma_min _ st.m_gamma i hg
    have t2 := n_bonded_take_succ st.m_gamma_min _ st.m_gamma i hg
    have l1 := n_negative_gamma_take_le st.m_tol st.m_gamma_min st.m_gamma (i + 1)
    have l2 := n_bonded_take_le st.m_gamma_min st.m_gamma (i + 1)
    have l3 := counts_le_length st.m_tol st.m_gamma_min st.m_gamma
    have hd : (decode_indices st st.m_gamma[i] i
          (n_negative_gamma st.m_tol st.m_gamma_min (st.m_gamma.take i))
          (n_bonded st.m_gamma_min (st.m_gamma.take i))).first < R ∧
        ∀ k, (decode_indices st st.m_gamma[i] i
          (n_negative_gamma st.m_tol st.m_gamma_min (st.m_gamma.take i))
          (n_bonded st.m_gamma_min (st.m_gamma.take i))).second = some k → k < R := by
      unfold decode_indices
      by_cases hb : st.m_gamma[i] = st.m_gamma_min
      · rw [if_pos hb] at t2
        simp only [hb, ne_eq, not_true_eq_false, if_false, Option.some.injEq]
        constructor
        · omega
        · intro k hk; omega
      · by_cases hn : st.m_gamma[i] < -st.m_tol
        · have hlt2 : st.m_gamma_min < st.m_gamma[i] := lt_of_le_of_ne hgmin (Ne.symm hb)
          rw [if_pos ⟨hlt2, hn⟩] at t1
          simp only [ne_eq, hb, not_false_eq_true, if_true, hn, Option.some.injEq]
          constructor
          · omega
          · intro k hk; omega
        · simp only [ne_eq, hb, not_false_eq_true, if_true, hn, if_false]
          constructor
          · omega
          · intro k hk; exact Option.noConfusion hk
    have hf := f_contact_zero R _ hd.1 hd.2
    have c1 : (if st.m_gamma[i] ≠ st.m_gamma_min ∧ st.m_gamma[i] < -st.m_tol then
          n_negative_gamma st.m_tol st.m_gamma_min (st.m_gamma.take i) + 1
        else n_negative_gamma st.m_tol st.m_gamma_min (st.m_gamma.take i)) =
        n_negative_gamma st.m_tol st.m_gamma_min (st.m_gamma.take (i + 1)) := by
      rw [t1]
      by_cases hb : st.m_gamma[i] = st.m_gamma_min
      · have : ¬ (st.m_gamma_min < st.m_gamma[i] ∧ st.m_gamma[i] < -st.m_tol) :=
          fun h => (ne_of_gt h.1) hb
        simp [hb]
      · by_cases hn : st.m_gamma[i] < -st.m_tol
        · have hlt2 : st.m_gamma_min < st.m_gamma[i] := lt_of_le_of_ne hgmin (Ne.symm hb)
          simp [hb, hn, hlt2]
        · simp [hb, hn]
    have c2 : (if st.m_gamma[i] ≠ st.m_gamma_min then
          n_bonded st.m_gamma_min (st.m_gamma.take i)
        else n_bonded st.m_gamma_min (st.m_gamma.take i) + 1) =
        n_bonded st.m_gamma_min (st.m_gamma.take (i + 1)) := by
      rw [t2]
      by_cases hb : st.m_gamma[i] = st.m_gamma_min <;> simp [hb]
    obtain ⟨s', hs', hreads⟩ := ih (i + 1)
      { gamma_old := s.gamma_old.set i (gamma_update st st.m_gamma[i] 0)
        reads := s.reads ++ [(decode_indices st st.m_gamma[i] i
          (n_negative_gamma st.m_tol st.m_gamma_min (st.m_gamma.take i))
          (n_bonded st.m_gamma_min (st.m_gamma.take i)), 0)] } (by omega)
    refine ⟨s', ?_, ?_⟩
    · unfold update_gamma_loop
      simp only [hg, hf, c1, c2]
      exact hs'
    · intro p hp
      rcases hreads p hp with h1 | h1
      · simp only [List.mem_append, List.mem_singleton] at h1
        rcases h1 with h1 | h1
        · exact Or.inl h1
        · right
          subst h1
          exact ⟨rfl, hd.1, hd.2⟩
      · exact Or.inr h1

theorem gamma_update_zero_force (st : ViscousWithFriction) (g : ℚ) (htol : 0 < st.m_tol)
    (hmin : st.m_gamma_min ≤ -2 * st.m_tol)
    (hg : g = st.m_gamma_min ∨ g = 0 ∨ (st.m_gamma_min + st.m_tol ≤ g ∧ g ≤ -st.m_tol)) :
    gamma_update st g 0 = g := by
  have hv : max st.m_gamma_min (min 0 (g - st.m_dt * 0)) = g := by
    rw [mul_zero, sub_zero]
    rcases hg with h | h | ⟨h1, h2⟩
    · rw [h, min_eq_right (by linarith), max_self]
    · rw [h, min_self, max_eq_right (by linarith)]
    · rw [min_eq_right (by linarith), max_eq_right (by linarith)]
  unfold gamma_update
  simp only [hv]
  split_ifs with a b b <;> rcases hg with h | h | ⟨h1, h2⟩ <;> linarith

/-- Claim C5.  Gamma bound invariant: for every gamma vector, multiplier
vector `lambda`, time step and tolerance, with `gamma_min <= 0`, every entry
`m_gamma_old[i]` (`i < contacts.size()`) produced by `update_gamma_impl`
satisfies `gamma_min <= m_gamma_old[i] <= 0`. -/
theorem gamma_bound_invariant (st : ViscousWithFriction) (contacts : List neighbor)
    (lambda : List ℚ) (st' : ViscousWithFriction) (hmin : st.m_gamma_min ≤ 0)
    (hrun : update_gamma_impl st contacts lambda = some st') :
    ∀ i, i < contacts.length →
      ∃ x, st'.m_gamma_old[i]? = some x ∧ st.m_gamma_min ≤ x ∧ x ≤ 0 := by
  intro i hi
  unfold update_gamma_impl at hrun
  cases hr : update_gamma_run st contacts lambda with
  | none => simp [hr] at hrun
  | some s =>
    simp only [hr, Option.some.injEq] at hrun
    subst hrun
    obtain ⟨_, _, _, _, e5⟩ := update_gamma_loop_spec st lambda contacts.length 0 0 0 _ s hr
      (resize_length _ _)
    obtain ⟨g, d, f, _, _, _, q4⟩ := e5 i (Nat.zero_le i) (by omega)
    exact ⟨gamma_update st g f, q4, gamma_update_bounds st g f hmin⟩

/-- Claim C6.  Clamp-then-snap: with `tol > 0` and `gamma_min <= -2 * tol`, for
every contact `i`, with `f` the decoded `f_contact` and
`v = max(gamma_min, min(0, gamma[i] - dt * f))`, `update_gamma_impl` sets
`m_gamma_old[i]` to `gamma_min` if `v - gamma_min < tol`, to `0` if `v > -tol`,
and to `v` otherwise; the result is `gamma_min`, `0`, or lies in
`[gamma_min + tol, -tol]`. -/
theorem clamp_then_snap (st : ViscousWithFriction) (contacts : List neighbor)
    (lambda : List ℚ) (s : GammaLoop) (htol : 0 < st.m_tol)
    (hmin : st.m_gamma_min ≤ -2 * st.m_tol)
    (hrun : update_gamma_run st contacts lambda = some s) :
    update_gamma_impl st contacts lambda =
        some { st with m_contacts_old := contacts, m_gamma_old := s.gamma_old } ∧
    ∀ i, i < contacts.length →
      ∃ g d f x, st.m_gamma[i]? = some g ∧ s.reads[i]? = some (d, f) ∧
        f_contact lambda d = some f ∧ s.gamma_old[i]? = some x ∧
        x = (if max st.m_gamma_min (min 0 (g - st.m_dt * f)) - st.m_gamma_min < st.m_tol then
              st.m_gamma_min
            else if max st.m_gamma_min (min 0 (g - st.m_dt * f)) > -st.m_tol then 0
            else max st.m_gamma_min (min 0 (g - st.m_dt * f))) ∧
        (x = st.m_gamma_min ∨ x = 0 ∨ (st.m_gamma_min + st.m_tol ≤ x ∧ x ≤ -st.m_tol)) := by
  refine ⟨by simp [update_gamma_impl, hrun], ?_⟩
  intro i hi
  obtain ⟨_, _, _, _, e5⟩ := update_gamma_loop_spec st lambda contacts.length 0 0 0 _ s hrun
    (resize_length _ _)
  obtain ⟨g, d, f, q1, q2, q3, q4⟩ := e5 i (Nat.zero_le i) (by omega)
  simp only [List.length_nil, Nat.zero_add, Nat.sub_zero] at q2
  obtain ⟨c1, c2⟩ := gamma_update_cases st g f htol hmin
  exact ⟨g, d, f, gamma_update st g f, q1, q2, q3, q4, c1, c2⟩

/-- Claim C7.  Zero-multiplier round trip: for a gamma vector with one entry
per contact, every entry `>= gamma_min` (any mix of free, negative-gamma and
bonded contacts), counts from `set_gamma`, `tol > 0` and
`gamma_min <= -2 * tol`, `update_gamma_impl` called with the all-zero
multiplier vector of length `number_row_matrix_impl(contacts)` runs to the end,
decodes `f_contact = 0` for every contact, and leaves `m_gamma_old[i] = gamma[i]`
for every contact whose gamma is `gamma_min`, `0`, or in
`[gamma_min + tol, -tol]`. -/
theorem zero_multiplier_round_trip (st0 : ViscousWithFriction) (contacts : List neighbor)
    (gamma : List ℚ) (hlen : gamma.length = contacts.length)
    (hge : ∀ g ∈ gamma, st0.m_gamma_min ≤ g)
    (htol : 0 < st0.m_tol) (hmin : st0.m_gamma_min ≤ -2 * st0.m_tol) :
    ∃ s, update_gamma_run (set_gamma st0 gamma) contacts
          (List.replicate (number_row_matrix_impl (set_gamma st0 gamma) contacts) 0) = some s ∧
      update_gamma_impl (set_gamma st0 gamma) contacts
          (List.replicate (number_row_matrix_impl (set_gamma st0 gamma) contacts) 0) =
        some { set_gamma st0 gamma with m_contacts_old := contacts, m_gamma_old := s.gamma_old } ∧
      s.reads.length = contacts.length ∧
      (∀ p ∈ s.reads, p.2 = 0) ∧
      ∀ (i : Nat) (g : ℚ), gamma[i]? = some g →
        (g = st0.m_gamma_min ∨ g = 0 ∨ (st0.m_gamma_min + st0.m_tol ≤ g ∧ g ≤ -st0.m_tol)) →
        s.gamma_old[i]? = some g := by
  have hgam : (set_gamma st0 gamma).m_gamma = gamma := rfl
  have hz := update_gamma_loop_zero (set_gamma st0 gamma)
    (number_row_matrix_impl (set_gamma st0 gamma) contacts)
    (set_gamma_nb_gamma_neg st0 gamma) (set_gamma_nb_gamma_min st0 gamma) hge
    (by rw [hgam, hlen]; rfl) contacts.length 0
    { gamma_old := resize (set_gamma st0 gamma).m_gamma_old (set_gamma st0 gamma).m_gamma.length
      reads := [] }
    (by rw [hgam]; omega)
  obtain ⟨s, hs, hreads⟩ := hz
  have hs' : update_gamma_run (set_gamma st0 gamma) contacts
      (List.replicate (number_row_matrix_impl (set_gamma st0 gamma) contacts) 0) = some s := by
    unfold update_gamma_run
    simpa [n_negative_gamma, n_bonded] using hs
  obtain ⟨_, e2, _, _, e5⟩ := update_gamma_loop_spec (set_gamma st0 gamma) _ contacts.length
    0 0 0 _ s hs' (resize_length _ _)
  refine ⟨s, hs', by simp [update_gamma_impl, hs'], by simpa using e2, ?_, ?_⟩
  · intro p hp
    rcases hreads p hp with h1 | h1
    · simp at h1
    · exact h1.1
  · intro i g hg hreg
    have hi : i < contacts.length := by
      by_contra hn
      rw [List.getElem?_eq_none (by omega)] at hg
      exact Option.noConfusion hg
    obtain ⟨g1, d, f, q1, q2, _, q4⟩ := e5 i (Nat.zero_le i) (by omega)
    rw [hgam, hg] at q1
    simp only [Option.some.injEq] at q1
    subst q1
    simp only [List.length_nil, Nat.zero_add, Nat.sub_zero] at q2
    have hmemr : (d, f) ∈ s.reads := List.getElem?_mem q2
    have hf : f = 0 := by
      rcases hreads (d, f) hmemr with h1 | h1
      · simp at h1
      · exact h1.1
    rw [q4, hf]
    congr 1
    exact gamma_update_zero_force (set_gamma st0 gamma) g htol hmin hreg

theorem rows_contact_free (h : Helpers) (st : ViscousWithFriction)
    (particles : scopi_container) (size firstCol ic : Nat) (c : neighbor) (g : ℚ)
    (hact : particles.nb_inactive ≤ c.i ∨ particles.nb_inactive ≤ c.j)
    (hmin : st.m_gamma_min < -st.m_tol) (hg : -st.m_tol < g) :
    rows_written (contact_writes h st particles size firstCol ic c g) = {ic} := by
  ext r
  rw [mem_rows_contact_free h st particles size firstCol ic c g hact hmin hg]
  simp

theorem rows_contact_negative (h : Helpers) (st : ViscousWithFriction)
    (particles : scopi_container) (size firstCol ic : Nat) (c : neighbor) (g : ℚ)
    (hact : particles.nb_inactive ≤ c.i ∨ particles.nb_inactive ≤ c.j)
    (hg1 : st.m_gamma_min < g) (hg2 : g < -st.m_tol) :
    rows_written (contact_writes h st particles size firstCol ic c g) =
      {ic, size - st.m_nb_gamma_min + ic} := by
  ext r
  rw [mem_rows_contact_negative h st particles size firstCol ic c g hact hg1 hg2]
  simp

theorem rows_contact_bonded (h : Helpers) (st : ViscousWithFriction)
    (particles : scopi_container) (size firstCol ic : Nat) (c : neighbor) (g : ℚ)
    (hact : particles.nb_inactive ≤ c.i ∨ particles.nb_inactive ≤ c.j)
    (hg : g = st.m_gamma_min) :
    rows_written (contact_writes h st particles size firstCol ic c g) =
      Finset.Ico (size - st.m_nb_gamma_min + st.m_nb_gamma_neg + 4 * ic)
        (size - st.m_nb_gamma_min + st.m_nb_gamma_neg + 4 * ic + 4) ∪
      Finset.Ico (size - st.m_nb_gamma_min + st.m_nb_gamma_neg + 4 * st.m_nb_gamma_min + 4 * ic)
        (size - st.m_nb_gamma_min + st.m_nb_gamma_neg + 4 * st.m_nb_gamma_min + 4 * ic + 4) := by
  ext r
  rw [mem_rows_contact_bonded h st particles size firstCol ic c g hact hg]
  simp [Finset.mem_union, Finset.mem_Ico]

theorem demo_problem_free_negative :
    demo_problem [0, -1] =
      { demo_init with m_gamma := [0, -1], m_nb_gamma_neg := 1, m_nb_gamma_min := 0 } := by
  simp [demo_problem, demo_init, set_gamma, set_gamma_step, ViscousWithFriction.init]
  norm_num

theorem demo_problem_bonded_free :
    demo_problem [-3, 0] =
      { demo_init with m_gamma := [-3, 0], m_nb_gamma_neg := 0, m_nb_gamma_min := 1 } := by
  simp [demo_problem, demo_init, set_gamma, set_gamma_step, ViscousWithFriction.init]
  norm_num

theorem demo_coo_writes (gamma : List ℚ) (g0 g1 : ℚ) (hg : gamma = [g0, g1]) :
    coo_writes demo_helpers (demo_problem gamma) demo_particles demo_contacts 0 =
      some (contact_writes demo_helpers (demo_problem gamma) demo_particles 2 0 0
          contact_plane_sphere g0 ++
        contact_writes demo_helpers (demo_problem gamma) demo_particles 2 0 1
          contact_sphere_sphere g1) := by
  subst hg
  have hgam : (demo_problem [g0, g1]).m_gamma = [g0, g1] := rfl
  simp [coo_writes, coo_loop, demo_contacts, hgam]

theorem demo_update_run :
    update_gamma_run (demo_problem [0, -1]) demo_contacts [2, 5, 1] =
      some { gamma_old := [-1 / 50, -26 / 25]
             reads := [(⟨0, none⟩, 2), (⟨1, some 2⟩, 4)] } := by
  rw [demo_problem_free_negative]
  simp [update_gamma_run, update_gamma_loop, resize, decode_indices, f_contact, gamma_update,
    demo_init, demo_contacts, ViscousWithFriction.init]
  norm_num [max_def, min_def]

/-- Claim C1, evaluated at a mixed list.  For the contacts plane-sphere (free,
`gamma = 0`) and sphere-sphere (negative gamma, `gamma = -1`), both touching an
active particle and both gammas in `[gamma_min, 0]`, `number_row_matrix_impl`
returns 3 while the assembly loop writes the row indices 0, 1 and 3: row 2 is
never written and row 3 lies outside the matrix. -/
theorem rows_written_free_then_negative :
    (∀ g ∈ ([0, -1] : List ℚ), (demo_problem [0, -1]).m_gamma_min ≤ g ∧ g ≤ 0) ∧
    (∀ c ∈ demo_contacts, demo_particles.nb_inactive ≤ c.i ∨ demo_particles.nb_inactive ≤ c.j) ∧
    number_row_matrix_impl (demo_problem [0, -1]) demo_contacts = 3 ∧
    (coo_writes demo_helpers (demo_problem [0, -1]) demo_particles demo_contacts 0).map
      rows_written = some {0, 1, 3} := by
  have hmin : (demo_problem [0, -1]).m_gamma_min < -(demo_problem [0, -1]).m_tol := by
    rw [demo_problem_free_negative]; norm_num [demo_init, ViscousWithFriction.init]
  refine ⟨?_, ?_, ?_, ?_⟩
  · rw [demo_problem_free_negative]
    norm_num [demo_init, ViscousWithFriction.init]
  · simp [demo_contacts, contact_plane_sphere, contact_sphere_sphere, demo_particles]
  · rw [demo_problem_free_negative]
    simp [number_row_matrix_impl, demo_contacts]
  · rw [demo_coo_writes [0, -1] 0 (-1) rfl, Option.map_some', rows_written_append,
      rows_contact_free _ _ _ _ _ _ _ _ (Or.inr (by decide)) hmin
        (by rw [demo_problem_free_negative]; norm_num [demo_init, ViscousWithFriction.init]),
      rows_contact_negative _ _ _ _ _ _ _ _ (Or.inr (by decide))
        (by rw [demo_problem_free_negative]; norm_num [demo_init, ViscousWithFriction.init])
        (by rw [demo_problem_free_negative]; norm_num [demo_init, ViscousWithFriction.init])]
    rw [demo_problem_free_negative]
    rfl

theorem cols_of_writes_bonded (h : Helpers) (st : ViscousWithFriction)
    (particles : scopi_container) (size firstCol ic : Nat) (c : neighbor) :
    (writes_bonded h st particles size firstCol ic c).map Triplet.col =
      (if particles.nb_inactive ≤ c.i then
        bonded_block_cols (firstCol + (c.i - particles.nb_inactive) * 3) else []) ++
      (if particles.nb_inactive ≤ c.j then
        bonded_block_cols (firstCol + (c.j - particles.nb_inactive) * 3) else []) ++
      (if particles.nb_inactive ≤ c.i then
        bonded_block_cols (firstCol + 3 * st.m_nparticles + 3 * (c.i - particles.nb_inactive))
       else []) ++
      (if particles.nb_inactive ≤ c.j then
        bonded_block_cols (firstCol + 3 * st.m_nparticles + 3 * (c.j - particles.nb_inactive))
       else []) := by
  unfold writes_bonded
  by_cases hi : particles.nb_inactive ≤ c.i <;> by_cases hj : particles.nb_inactive ≤ c.j <;>
    simp only [ge_iff_le, hi, hj, if_true, if_false] <;> rfl

/-- Claim C3, evaluated at a mixed list.  For the contacts plane-sphere
(bonded, `gamma = gamma_min`) and sphere-sphere (free, `gamma = 0`), the
assembly loop writes every triplet of the free contact in row 1, while
`create_vector_distances_impl` stores its `dij` at index 0 (and the `dij` of
the bonded contact at index 1). -/
theorem distances_not_aligned_bonded_then_free :
    coo_writes demo_helpers (demo_problem [-3, 0]) demo_particles demo_contacts 0 =
      some (contact_writes demo_helpers (demo_problem [-3, 0]) demo_particles 2 0 0
          contact_plane_sphere (-3) ++
        contact_writes demo_helpers (demo_problem [-3, 0]) demo_particles 2 0 1
          contact_sphere_sphere 0) ∧
    rows_written (contact_writes demo_helpers (demo_problem [-3, 0]) demo_particles 2 0 1
      contact_sphere_sphere 0) = {1} ∧
    distances_writes (demo_problem [-3, 0]) demo_contacts =
      some [[(1, contact_plane_sphere.dij), (5, -contact_plane_sphere.dij)],
            [(0, contact_sphere_sphere.dij)]] := by
  refine ⟨demo_coo_writes [-3, 0] (-3) 0 rfl, ?_, ?_⟩
  · exact rows_contact_free _ _ _ _ _ _ _ _ (Or.inr (by decide))
      (by rw [demo_problem_bonded_free]; norm_num [demo_init, ViscousWithFriction.init])
      (by rw [demo_problem_bonded_free]; norm_num [demo_init, ViscousWithFriction.init])
  · rw [demo_problem_bonded_free]
    simp [distances_writes, distances_loop, distance_writes, demo_contacts, demo_init,
      ViscousWithFriction.init]

/-- Claim C4, evaluated at a mixed list.  For the contacts plane-sphere (free)
and sphere-sphere (negative gamma), the assembly loop writes the two rows of
the second contact at the indices 1 and 3, while `update_gamma_impl` decodes
its force as `lambda(1) - lambda(2)`. -/
theorem decode_not_aligned_free_then_negative :
    coo_writes demo_helpers (demo_problem [0, -1]) demo_particles demo_contacts 0 =
      some (contact_writes demo_helpers (demo_problem [0, -1]) demo_particles 2 0 0
          contact_plane_sphere 0 ++
        contact_writes demo_helpers (demo_problem [0, -1]) demo_particles 2 0 1
          contact_sphere_sphere (-1)) ∧
    rows_written (contact_writes demo_helpers (demo_problem [0, -1]) demo_particles 2 0 1
      contact_sphere_sphere (-1)) = {1, 3} ∧
    (update_gamma_run (demo_problem [0, -1]) demo_contacts [2, 5, 1]).map
        (fun s => s.reads.map Prod.fst) = some [⟨0, none⟩, ⟨1, some 2⟩] := by
  refine ⟨demo_coo_writes [0, -1] 0 (-1) rfl, ?_, ?_⟩
  · rw [rows_contact_negative _ _ _ _ _ _ _ _ (Or.inr (by decide))
      (by rw [demo_problem_free_negative]; norm_num [demo_init, ViscousWithFriction.init])
      (by rw [demo_problem_free_negative]; norm_num [demo_init, ViscousWithFriction.init])]
    rw [demo_problem_free_negative]
    rfl
  · rw [demo_update_run]
    rfl

theorem demo_gamma_min : demo_init.m_gamma_min = -3 := rfl

theorem demo_tol : demo_init.m_tol = 1 / 1000 := rfl

/-- Claim C2 at the small configuration. -/
theorem number_row_matrix_after_set_gamma_witness :
    ([0, -1] : List ℚ).length = demo_contacts.length ∧
    number_row_matrix_impl (set_gamma demo_init [0, -1]) demo_contacts =
        (demo_contacts.length - n_bonded demo_init.m_gamma_min [0, -1])
          + n_negative_gamma demo_init.m_tol demo_init.m_gamma_min [0, -1]
          + 8 * n_bonded demo_init.m_gamma_min [0, -1] ∧
    n_bonded demo_init.m_gamma_min [0, -1]
        + n_negative_gamma demo_init.m_tol demo_init.m_gamma_min [0, -1]
      ≤ demo_contacts.length :=
  ⟨rfl, number_row_matrix_after_set_gamma demo_init [0, -1] demo_contacts rfl⟩

/-- Claim C5 at the small configuration. -/
theorem gamma_bound_invariant_witness :
    (demo_problem [0, -1]).m_gamma_min ≤ 0 ∧
    update_gamma_impl (demo_problem [0, -1]) demo_contacts [2, 5, 1] =
      some { demo_problem [0, -1] with
        m_contacts_old := demo_contacts, m_gamma_old := [-1 / 50, -26 / 25] } ∧
    ∀ i, i < demo_contacts.length →
      ∃ x, ([-1 / 50, -26 / 25] : List ℚ)[i]? = some x ∧
        (demo_problem [0, -1]).m_gamma_min ≤ x ∧ x ≤ 0 :=
  have h1 : (demo_problem [0, -1]).m_gamma_min ≤ 0 := by
    show demo_init.m_gamma_min ≤ 0
    rw [demo_gamma_min]; norm_num
  have h2 : update_gamma_impl (demo_problem [0, -1]) demo_contacts [2, 5, 1] =
      some { demo_problem [0, -1] with
        m_contacts_old := demo_contacts, m_gamma_old := [-1 / 50, -26 / 25] } := by
    simp [update_gamma_impl, demo_update_run]
  ⟨h1, h2, gamma_bound_invariant (demo_problem [0, -1]) demo_contacts [2, 5, 1] _ h1 h2⟩

/-- Claim C6 at the small configuration. -/
theorem clamp_then_snap_witness :
    0 < (demo_problem [0, -1]).m_tol ∧
    (demo_problem [0, -1]).m_gamma_min ≤ -2 * (demo_problem [0, -1]).m_tol ∧
    ∃ g d f x, (demo_problem [0, -1]).m_gamma[1]? = some g ∧
      ([(⟨0, none⟩, 2), (⟨1, some 2⟩, 4)] : List (Decode × ℚ))[1]? = some (d, f) ∧
      f_contact [2, 5, 1] d = some f ∧ ([-1 / 50, -26 / 25] : List ℚ)[1]? = some x ∧
      x = (if max (demo_problem [0, -1]).m_gamma_min
                (min 0 (g - (demo_problem [0, -1]).m_dt * f))
              - (demo_problem [0, -1]).m_gamma_min < (demo_problem [0, -1]).m_tol then
            (demo_problem [0, -1]).m_gamma_min
          else if max (demo_problem [0, -1]).m_gamma_min
                (min 0 (g - (demo_problem [0, -1]).m_dt * f))
              > -(demo_problem [0, -1]).m_tol then 0
          else max (demo_problem [0, -1]).m_gamma_min
                (min 0 (g - (demo_problem [0, -1]).m_dt * f))) ∧
      (x = (demo_problem [0, -1]).m_gamma_min ∨ x = 0 ∨
        ((demo_problem [0, -1]).m_gamma_min + (demo_problem [0, -1]).m_tol ≤ x ∧
          x ≤ -(demo_problem [0, -1]).m_tol)) :=
  have h1 : 0 < (demo_problem [0, -1]).m_tol := by
    show 0 < demo_init.m_tol
    rw [demo_tol]; norm_num
  have h2 : (demo_problem [0, -1]).m_gamma_min ≤ -2 * (demo_problem [0, -1]).m_tol := by
    show demo_init.m_gamma_min ≤ -2 * demo_init.m_tol
    rw [demo_tol, demo_gamma_min]; norm_num
  ⟨h1, h2, (clamp_then_snap (demo_problem [0, -1]) demo_contacts [2, 5, 1] _ h1 h2
    demo_update_run).2 1 (by decide)⟩

/-- Claim C7 at the small configuration. -/
theorem zero_multiplier_round_trip_witness :
    ∃ s, update_gamma_run (demo_problem [0, -1]) demo_contacts
          (List.replicate (number_row_matrix_impl (demo_problem [0, -1]) demo_contacts) 0)
          = some s ∧
      s.reads.length = demo_contacts.length ∧ (∀ p ∈ s.reads, p.2 = 0) ∧
      s.gamma_old[0]? = some 0 ∧ s.gamma_old[1]? = some (-1 : ℚ) := by
  have hge : ∀ g ∈ ([0, -1] : List ℚ), demo_init.m_gamma_min ≤ g := by
    rw [demo_gamma_min]
    intro g hg
    simp only [List.mem_cons, List.mem_singleton, List.not_mem_nil, or_false] at hg
    rcases hg with h | h <;> rw [h] <;> norm_num
  have htol : 0 < demo_init.m_tol := by rw [demo_tol]; norm_num
  have hmin : demo_init.m_gamma_min ≤ -2 * demo_init.m_tol := by
    rw [demo_tol, demo_gamma_min]; norm_num
  obtain ⟨s, h1, _, h3, h4, h5⟩ :=
    zero_multiplier_round_trip demo_init demo_contacts [0, -1] rfl hge htol hmin
  refine ⟨s, h1, h3, h4, h5 0 0 rfl (Or.inr (Or.inl rfl)), h5 1 (-1) rfl ?_⟩
  right; right
  rw [demo_tol, demo_gamma_min]
  norm_num

/-- Claim C8 at the small configuration. -/
theorem rows_per_regime_witness :
    demo_contacts[1]? = some contact_sphere_sphere ∧ ([0, -1] : List ℚ)[1]? = some (-1 : ℚ) ∧
    (rows_written (contact_writes demo_helpers (demo_problem [0, -1]) demo_particles
      demo_contacts.length 0 1 contact_sphere_sphere (-1))).card = 2 := by
  have hmin : demo_init.m_gamma_min < -demo_init.m_tol := by
    rw [demo_tol, demo_gamma_min]; norm_num
  obtain ⟨_, _, _, _, _, _, h2, _⟩ := rows_per_regime demo_helpers demo_init demo_particles
    demo_contacts [0, -1] 0 1 contact_sphere_sphere (-1) rfl rfl rfl (Or.inl (by decide)) hmin
  refine ⟨rfl, rfl, h2 ⟨?_, ?_⟩⟩
  · rw [demo_gamma_min]; norm_num
  · rw [demo_tol]; norm_num

/-- Claim C9 at the small configuration. -/
theorem homogeneous_layout_witness :
    ∃ ts, coo_writes demo_helpers (demo_problem [0, 0]) demo_particles demo_contacts 0
        = some ts ∧
      number_row_matrix_impl (demo_problem [0, 0]) demo_contacts = 2 ∧
      rows_written ts = Finset.range 2 := by
  have hmin : demo_init.m_gamma_min < -demo_init.m_tol := by
    rw [demo_tol, demo_gamma_min]; norm_num
  have hact : ∀ c ∈ demo_contacts,
      demo_particles.nb_inactive ≤ c.i ∨ demo_particles.nb_inactive ≤ c.j := by
    simp [demo_contacts, contact_plane_sphere, contact_sphere_sphere, demo_particles]
  have hfree : ∀ g ∈ ([0, 0] : List ℚ), -demo_init.m_tol < g ∧ g ≤ 0 := by
    rw [demo_tol]
    intro g hg
    simp only [List.mem_cons, List.mem_singleton, List.not_mem_nil, or_false, or_self] at hg
    rw [hg]; norm_num
  obtain ⟨ts, h1, h2, _, _⟩ := homogeneous_layout demo_helpers demo_init demo_particles
    demo_contacts [0, 0] 0 rfl hact
  obtain ⟨h3, h4⟩ := h2 hmin hfree
  rw [h3] at h4
  exact ⟨ts, h1, h3, h4⟩

theorem nij_dot_eq_vecMul (h : Helpers) (n p x : Vec3) (quat : Quat) (d : Fin 3) :
    nij_dot n (linalg_dot (h.cross_product fun k => p k - x k) (h.rotation_matrix quat)) d =
      Matrix.vecMul n (lever_arm_matrix h p x quat) d := by
  simp [nij_dot, linalg_dot, lever_arm_matrix, Matrix.vecMul, Matrix.dotProduct,
    Matrix.mul_apply, Fin.sum_univ_three]

/-- Claim C11.  Normal-row coefficients: for a free contact (`-tol < gamma`,
with `gamma_min < -tol`) the triplets written by the assembly loop are those of
the specification: in row `ic`, linear coefficients `-dt * n[d]` in the columns
of particle `i` and `+dt * n[d]` in those of particle `j`, angular coefficients
`+dt * (n^T (r_i^x R_i))[d]` for `i` and `-dt * (n^T (r_j^x R_j))[d]` for `j`,
and nothing for an inactive particle. -/
theorem normal_row_coefficients (h : Helpers) (st : ViscousWithFriction)
    (particles : scopi_container) (size firstCol ic : Nat) (c : neighbor) (g : ℚ)
    (hmin : st.m_gamma_min < -st.m_tol) (hg : -st.m_tol < g) :
    contact_writes h st particles size firstCol ic c g =
      normal_row_spec h st particles firstCol ic c := by
  have h1 : g ≠ st.m_gamma_min := ne_of_gt (lt_trans hmin hg)
  have h2 : ¬ g < -st.m_tol := not_lt.mpr (le_of_lt hg)
  unfold contact_writes writes_not_bonded normal_row_spec
  rw [if_pos h1]
  simp only [h2, if_false, nij_dot_eq_vecMul]
  by_cases hi : particles.nb_inactive ≤ c.i <;> by_cases hj : particles.nb_inactive ≤ c.j <;>
    simp [range3, hi, hj, Nat.mul_comm]

theorem tangential_projection_apply (n : Vec3) (r c : Fin 3) :
    tangential_projection n r c = (if r = c then 1 else 0) - n r * n c := by
  simp [tangential_projection, Matrix.vecMulVec_apply, Matrix.one_apply]

theorem exists_tail_of_head_eq {α : Type} (x y z w : List α) (hxy : x = y) :
    ∃ t, x ++ z ++ w = y ++ t :=
  ⟨z ++ w, by rw [hxy, List.append_assoc]⟩

/-- Claim C12.  Linear tangential term of a bonded contact: the writes of the
bonded branch begin with the linear part, which is that of the specification:
in tangential row `r` of each 4-row block the coefficient in column `c` of
particle `i` is `dt * mu * (delta(r,c) - n[r] * n[c])`, that is
`dt * mu * (I - n n^T)[r][c]`, and the coefficient in column `c` of particle
`j` is its negation (nothing for an inactive particle). -/
theorem bonded_linear_tangential (h : Helpers) (st : ViscousWithFriction)
    (particles : scopi_container) (size firstCol ic : Nat) (c : neighbor) :
    (∀ r k : Fin 3, tangential_projection c.nij r k
        = (if r = k then 1 else 0) - c.nij r * c.nij k) ∧
    ∃ angular, writes_bonded h st particles size firstCol ic c =
      ((if particles.nb_inactive ≤ c.i then
          bonded_linear_spec st (size - st.m_nb_gamma_min + st.m_nb_gamma_neg + 4 * ic)
            (size - st.m_nb_gamma_min + st.m_nb_gamma_neg + 4 * st.m_nb_gamma_min + 4 * ic)
            (firstCol + (c.i - particles.nb_inactive) * 3) c.nij 1
        else []) ++
       (if particles.nb_inactive ≤ c.j then
          bonded_linear_spec st (size - st.m_nb_gamma_min + st.m_nb_gamma_neg + 4 * ic)
            (size - st.m_nb_gamma_min + st.m_nb_gamma_neg + 4 * st.m_nb_gamma_min + 4 * ic)
            (firstCol + (c.j - particles.nb_inactive) * 3) c.nij (-1)
        else [])) ++ angular := by
  refine ⟨tangential_projection_apply c.nij, ?_⟩
  unfold writes_bonded
  apply exists_tail_of_head_eq
  by_cases hi : particles.nb_inactive ≤ c.i <;> by_cases hj : particles.nb_inactive ≤ c.j <;>
    simp [range3, hi, hj, bonded_linear_spec, tangential_projection_apply] <;>
    (repeat' constructor) <;> ring

theorem demo_bonded_plane_sphere_writes :
    contact_writes demo_helpers (demo_problem [-3, 0]) demo_particles 2 0 0
        contact_plane_sphere (-3) =
      [⟨1, 0, 0⟩, ⟨5, 0, 0⟩, ⟨1, 1, 1 / 100⟩, ⟨5, 1, -1 / 100⟩, ⟨1, 2, 0⟩, ⟨5, 2, 0⟩,
       ⟨2, 0, -1 / 1000⟩, ⟨2, 1, 0⟩, ⟨2, 2, 0⟩, ⟨6, 0, -1 / 1000⟩, ⟨6, 1, 0⟩, ⟨6, 2, 0⟩,
       ⟨3, 0, 0⟩, ⟨3, 1, 0⟩, ⟨3, 2, 0⟩, ⟨7, 0, 0⟩, ⟨7, 1, 0⟩, ⟨7, 2, 0⟩,
       ⟨4, 0, 0⟩, ⟨4, 1, 0⟩, ⟨4, 2, -1 / 1000⟩, ⟨8, 0, 0⟩, ⟨8, 1, 0⟩, ⟨8, 2, -1 / 1000⟩,
       ⟨1, 6, 1 / 100⟩, ⟨5, 6, -1 / 100⟩, ⟨1, 7, 0⟩, ⟨5, 7, 0⟩, ⟨1, 8, -1 / 100⟩,
       ⟨5, 8, 1 / 100⟩,
       ⟨2, 6, 1 / 1000⟩, ⟨2, 7, 1 / 1000⟩, ⟨2, 8, -1 / 500⟩,
       ⟨6, 6, 1 / 1000⟩, ⟨6, 7, 1 / 1000⟩, ⟨6, 8, -1 / 500⟩,
       ⟨3, 6, 0⟩, ⟨3, 7, 0⟩, ⟨3, 8, 0⟩, ⟨7, 6, 0⟩, ⟨7, 7, 0⟩, ⟨7, 8, 0⟩,
       ⟨4, 6, 1 / 500⟩, ⟨4, 7, -1 / 1000⟩, ⟨4, 8, -1 / 1000⟩,
       ⟨8, 6, 1 / 500⟩, ⟨8, 7, -1 / 1000⟩, ⟨8, 8, -1 / 1000⟩] := by
  rw [demo_problem_bonded_free]
  simp [contact_writes, writes_bonded, range3, demo_init, ViscousWithFriction.init,
    contact_plane_sphere, demo_particles, demo_helpers, linalg_dot, nij_dot]
  norm_num

/-- Claim C13, evaluated at a bonded contact.  For the bonded contact
plane-sphere (normal `n = (0, 1, 0)`, particle `j = 1` active, lever arm
`(-1, -1, -1)`), the assembly loop writes in tangential row `r = 0` of the
first block (row 2) and angular column `c = 0` of particle `j` (column 6) the
value `mu * dt * D[0][0] - mu * dt * (n^T D)[0] = 1/1000`, and no other value
there, while the coefficient of the specification,
`dt * mu * ((I - n n^T) D)[0][0] = dt * mu * (D[0][0] - n[0] * (n^T D)[0])`,
is 0: the factor `n[r]` is missing in the code. -/
theorem bonded_angular_tangential_lacks_normal_factor :
    (⟨2, 6, 1 / 1000⟩ : Triplet) ∈ contact_writes demo_helpers (demo_problem [-3, 0])
      demo_particles 2 0 0 contact_plane_sphere (-3) ∧
    (∀ t ∈ contact_writes demo_helpers (demo_problem [-3, 0]) demo_particles 2 0 0
        contact_plane_sphere (-3), t.row = 2 → t.col = 6 → t.value = 1 / 1000) ∧
    -tangential_angular_spec (demo_problem [-3, 0]) contact_plane_sphere.nij
        (lever_arm_matrix demo_helpers contact_plane_sphere.pj
          (demo_particles.pos contact_plane_sphere.j)
          (demo_particles.q contact_plane_sphere.j)) 0 0 = 0 := by
  rw [demo_bonded_plane_sphere_writes]
  refine ⟨by simp, ?_, ?_⟩
  · intro t ht
    simp only [List.mem_cons, List.mem_singleton, List.not_mem_nil, or_false] at ht
    rcases ht with h | h | h | h | h | h | h | h | h | h | h | h | h | h | h | h | h | h | h
      | h | h | h | h | h | h | h | h | h | h | h | h | h | h | h | h | h | h | h | h | h | h
      | h | h | h | h | h | h | h <;> subst h <;> simp
  · simp [tangential_angular_spec, tangential_projection, lever_arm_matrix, Matrix.mul_apply,
      Fin.sum_univ_three, Matrix.vecMulVec_apply, Matrix.one_apply, contact_plane_sphere,
      demo_helpers, demo_particles]

section gradient_lemmas

variable {K : Type} [LinearOrderedField K] {n : Nat}

theorem mkl_sparse_d_mv_one_one (A : Matrix (Fin n) (Fin n) K) (x y : Fin n → K) :
    mkl_sparse_d_mv 1 A x 1 y = A.mulVec x + y := by
  simp [mkl_sparse_d_mv]

theorem gradient_seq_shift (proj : (Fin n → K) → (Fin n → K)) (A : Matrix (Fin n) (Fin n) K)
    (c : Fin n → K) (rho : K) (l : Fin n → K) (k : Nat) :
    gradient_seq proj A c rho (gradient_step proj A c rho l) k =
      gradient_seq proj A c rho l (k + 1) := by
  induction k with
  | zero => rfl
  | succ k ih =>
    show gradient_step proj A c rho (gradient_seq proj A c rho (gradient_step proj A c rho l) k)
      = gradient_step proj A c rho (gradient_seq proj A c rho l (k + 1))
    rw [ih]

theorem uzawa_body_l (s : uzawa K n) (A : Matrix (Fin n) (Fin n) K) (c l : Fin n → K) :
    (s.body A c l).l = gradient_step s.projection_cone A c s.m_rho l := by
  unfold uzawa.body gradient_step
  cases s.m_verbose <;> simp [mkl_sparse_d_mv_one_one]

theorem uzawa_body_diff (s : uzawa K n) (A : Matrix (Fin n) (Fin n) K) (c l : Fin n → K) :
    (s.body A c l).diff_lambda =
      relative_change l (gradient_step s.projection_cone A c s.m_rho l) := by
  unfold uzawa.body gradient_step relative_change
  cases s.m_verbose <;> simp [mkl_sparse_d_mv_one_one]

theorem uzawa_body_self (s : uzawa K n) (A : Matrix (Fin n) (Fin n) K) (c l : Fin n → K) :
    (s.body A c l).self.projection_cone = s.projection_cone ∧
    (s.body A c l).self.m_rho = s.m_rho ∧ (s.body A c l).self.m_tol_l = s.m_tol_l ∧
    (s.body A c l).self.m_verbose = s.m_verbose ∧
    ∃ extra, (s.body A c l).self.log = s.log ++ extra ∧
      LogEntry.does_not_converge ∉ extra := by
  unfold uzawa.body
  cases s.m_verbose
  · exact ⟨rfl, rfl, rfl, rfl, [], by simp, by simp⟩
  · exact ⟨rfl, rfl, rfl, rfl, _, rfl, by simp⟩

theorem uzawa_loop_stops (A : Matrix (Fin n) (Fin n) K) (c : Fin n → K) (fuel : Nat) :
    ∀ (iter : Nat) (s : uzawa K n) (l : Fin n → K) (k : Nat), 1 ≤ k → k ≤ fuel →
      stops_at s.m_tol_l (gradient_seq s.projection_cone A c s.m_rho l) k →
      (∀ j, 1 ≤ j → j < k →
        ¬ stops_at s.m_tol_l (gradient_seq s.projection_cone A c s.m_rho l) j) →
      (uzawa.loop A c fuel iter s l).1 = iter + k ∧
      (uzawa.loop A c fuel iter s l).2.1 = gradient_seq s.projection_cone A c s.m_rho l k := by
  induction fuel with
  | zero => intro iter s l k h1 h2; omega
  | succ fuel ih =>
    intro iter s l k h1 h2 hstop hfirst
    obtain ⟨p1, p2, p3, _, _⟩ := uzawa_body_self s A c l
    unfold uzawa.loop
    rw [uzawa_body_diff]
    by_cases hk : k = 1
    · subst hk
      have h : relative_change l (gradient_step s.projection_cone A c s.m_rho l) < s.m_tol_l :=
        hstop
      rw [if_pos h, uzawa_body_l]
      exact ⟨rfl, rfl⟩
    · have h : ¬ relative_change l (gradient_step s.projection_cone A c s.m_rho l)
          < s.m_tol_l := hfirst 1 (le_refl 1) (by omega)
      rw [if_neg h, uzawa_body_l]
      have key := ih (iter + 1) (s.body A c l).self (s.body A c l).l (k - 1) (by omega)
        (by omega)
      rw [p1, p2, p3, uzawa_body_l] at key
      have e : k - 1 + 1 = k := by omega
      have hs : stops_at s.m_tol_l (gradient_seq s.projection_cone A c s.m_rho
          (gradient_step s.projection_cone A c s.m_rho l)) (k - 1) := by
        unfold stops_at at hstop ⊢
        rw [gradient_seq_shift, gradient_seq_shift, e]
        have e2 : k - 1 - 1 + 1 = k - 1 := by omega
        rw [e2]
        exact hstop
      have hf : ∀ j, 1 ≤ j → j < k - 1 → ¬ stops_at s.m_tol_l
          (gradient_seq s.projection_cone A c s.m_rho
            (gradient_step s.projection_cone A c s.m_rho l)) j := by
        intro j hj1 hj2
        have := hfirst (j + 1) (by omega) (by omega)
        unfold stops_at at this ⊢
        rw [gradient_seq_shift, gradient_seq_shift]
        have e3 : j - 1 + 1 = j + 1 - 1 := by omega
        rw [e3]
        exact this
      obtain ⟨k1, k2⟩ := key hs hf
      rw [gradient_seq_shift, e] at k2
      exact ⟨by rw [k1]; omega, k2⟩

theorem uzawa_loop_exhausts (A : Matrix (Fin n) (Fin n) K) (c : Fin n → K) (fuel : Nat) :
    ∀ (iter : Nat) (s : uzawa K n) (l : Fin n → K),
      (∀ j, 1 ≤ j → j ≤ fuel →
        ¬ stops_at s.m_tol_l (gradient_seq s.projection_cone A c s.m_rho l) j) →
      (uzawa.loop A c fuel iter s l).1 = iter + fuel ∧
      (uzawa.loop A c fuel iter s l).2.1 = gradient_seq s.projection_cone A c s.m_rho l fuel := by
  induction fuel with
  | zero => intro iter s l _; exact ⟨rfl, rfl⟩
  | succ fuel ih =>
    intro iter s l hall
    obtain ⟨p1, p2, p3, _, _⟩ := uzawa_body_self s A c l
    unfold uzawa.loop
    rw [uzawa_body_diff]
    have h : ¬ relative_change l (gradient_step s.projection_cone A c s.m_rho l)
        < s.m_tol_l := hall 1 (le_refl 1) (by omega)
    rw [if_neg h, uzawa_body_l]
    have key := ih (iter + 1) (s.body A c l).self (s.body A c l).l
    rw [p1, p2, p3, uzawa_body_l] at key
    have hf : ∀ j, 1 ≤ j → j ≤ fuel → ¬ stops_at s.m_tol_l
        (gradient_seq s.projection_cone A c s.m_rho
          (gradient_step s.projection_cone A c s.m_rho l)) j := by
      intro j hj1 hj2
      have := hall (j + 1) (by omega) (by omega)
      unfold stops_at at this ⊢
      rw [gradient_seq_shift, gradient_seq_shift]
      have e3 : j - 1 + 1 = j + 1 - 1 := by omega
      rw [e3]
      exact this
    obtain ⟨k1, k2⟩ := key hf
    rw [gradient_seq_shift] at k2
    exact ⟨by rw [k1]; omega, k2⟩

end gradient_lemmas

section apgd_lemmas

variable {K : Type} [LinearOrderedField K] {n : Nat}

theorem apgd_seq_eq_from (sqrt : K → K) (proj : (Fin n → K) → (Fin n → K))
    (A : Matrix (Fin n) (Fin n) K) (c : Fin n → K) (rho : K) (l0 : Fin n → K) (k : Nat) :
    apgd_seq sqrt proj A c rho l0 k =
      apgd_seq_from sqrt proj A c rho { l := l0, y := l0, theta := 1 } k := by
  induction k with
  | zero => rfl
  | succ k ih =>
    show apgd_step sqrt proj A c rho (apgd_seq sqrt proj A c rho l0 k) = _
    rw [ih]
    rfl

theorem apgd_seq_from_shift (sqrt : K → K) (proj : (Fin n → K) → (Fin n → K))
    (A : Matrix (Fin n) (Fin n) K) (c : Fin n → K) (rho : K) (x : apgd_iterate K n)
    (k : Nat) :
    apgd_seq_from sqrt proj A c rho (apgd_step sqrt proj A c rho x) k =
      apgd_seq_from sqrt proj A c rho x (k + 1) := by
  induction k with
  | zero => rfl
  | succ k ih =>
    show apgd_step sqrt proj A c rho
        (apgd_seq_from sqrt proj A c rho (apgd_step sqrt proj A c rho x) k)
      = apgd_step sqrt proj A c rho (apgd_seq_from sqrt proj A c rho x (k + 1))
    rw [ih]

theorem apgd_body_step (sqrt : K → K) (s : apgd K n) (A : Matrix (Fin n) (Fin n) K)
    (c l : Fin n → K) (theta_old : K) :
    ({ l := (s.body sqrt A c l theta_old).l, y := (s.body sqrt A c l theta_old).self.m_y,
       theta := (s.body sqrt A c l theta_old).theta } : apgd_iterate K n) =
      apgd_step sqrt s.projection_cone A c s.m_rho { l := l, y := s.m_y, theta := theta_old } := by
  unfold apgd.body apgd_step
  cases s.m_verbose <;> simp [mkl_sparse_d_mv_one_one, pow_two]

theorem apgd_body_diff (sqrt : K → K) (s : apgd K n) (A : Matrix (Fin n) (Fin n) K)
    (c l : Fin n → K) (theta_old : K) :
    (s.body sqrt A c l theta_old).diff_lambda =
      relative_change l (s.body sqrt A c l theta_old).l := by
  unfold apgd.body relative_change
  cases s.m_verbose <;> simp

theorem apgd_body_self (sqrt : K → K) (s : apgd K n) (A : Matrix (Fin n) (Fin n) K)
    (c l : Fin n → K) (theta_old : K) :
    (s.body sqrt A c l theta_old).self.projection_cone = s.projection_cone ∧
    (s.body sqrt A c l theta_old).self.m_rho = s.m_rho ∧
    (s.body sqrt A c l theta_old).self.m_tol_l = s.m_tol_l ∧
    (s.body sqrt A c l theta_old).self.m_verbose = s.m_verbose ∧
    ∃ extra, (s.body sqrt A c l theta_old).self.log = s.log ++ extra ∧
      LogEntry.does_not_converge ∉ extra := by
  unfold apgd.body
  cases s.m_verbose
  · exact ⟨rfl, rfl, rfl, rfl, [], by simp, by simp⟩
  · exact ⟨rfl, rfl, rfl, rfl, _, rfl, by simp⟩

theorem apgd_loop_stops (sqrt : K → K) (A : Matrix (Fin n) (Fin n) K) (c : Fin n → K)
    (fuel : Nat) :
    ∀ (iter : Nat) (s : apgd K n) (l : Fin n → K) (theta_old : K) (k : Nat), 1 ≤ k → k ≤ fuel →
      stops_at s.m_tol_l (fun i => (apgd_seq_from sqrt s.projection_cone A c s.m_rho
        { l := l, y := s.m_y, theta := theta_old } i).l) k →
      (∀ j, 1 ≤ j → j < k →
        ¬ stops_at s.m_tol_l (fun i => (apgd_seq_from sqrt s.projection_cone A c s.m_rho
          { l := l, y := s.m_y, theta := theta_old } i).l) j) →
      (apgd.loop sqrt A c fuel iter s l theta_old).1 = iter + k ∧
      (apgd.loop sqrt A c fuel iter s l theta_old).2.1 =
        (apgd_seq_from sqrt s.projection_cone A c s.m_rho
          { l := l, y := s.m_y, theta := theta_old } k).l ∧
      (apgd.loop sqrt A c fuel iter s l theta_old).2.2.m_y =
        (apgd_seq_from sqrt s.projection_cone A c s.m_rho
          { l := l, y := s.m_y, theta := theta_old } k).y := by
  induction fuel with
  | zero => intro iter s l theta_old k h1 h2; omega
  | succ fuel ih =>
    intro iter s l theta_old k h1 h2 hstop hfirst
    obtain ⟨p1, p2, p3, _, _⟩ := apgd_body_self sqrt s A c l theta_old
    have hb := apgd_body_step sqrt s A c l theta_old
    have hbl : (s.body sqrt A c l theta_old).l = (apgd_step sqrt s.projection_cone A c s.m_rho
        { l := l, y := s.m_y, theta := theta_old }).l := congrArg apgd_iterate.l hb
    have hby : (s.body sqrt A c l theta_old).self.m_y =
        (apgd_step sqrt s.projection_cone A c s.m_rho
          { l := l, y := s.m_y, theta := theta_old }).y := congrArg apgd_iterate.y hb
    unfold apgd.loop
    rw [apgd_body_diff]
    by_cases hk : k = 1
    · subst hk
      have h : relative_change l (s.body sqrt A c l theta_old).l < s.m_tol_l := by
        rw [hbl]; exact hstop
      rw [if_pos h]
      exact ⟨rfl, hbl, hby⟩
    · have h : ¬ relative_change l (s.body sqrt A c l theta_old).l < s.m_tol_l := by
        rw [hbl]; exact hfirst 1 (le_refl 1) (by omega)
      rw [if_neg h]
      have key := ih (iter + 1) (s.body sqrt A c l theta_old).self
        (s.body sqrt A c l theta_old).l (s.body sqrt A c l theta_old).theta (k - 1) (by omega)
        (by omega)
      rw [p1, p2, p3, hb] at key
      have e : k - 1 + 1 = k := by omega
      have hs : stops_at s.m_tol_l (fun i => (apgd_seq_from sqrt s.projection_cone A c s.m_rho
          (apgd_step sqrt s.projection_cone A c s.m_rho
            { l := l, y := s.m_y, theta := theta_old }) i).l) (k - 1) := by
        unfold stops_at at hstop ⊢
        simp only [apgd_seq_from_shift]
        have e2 : k - 1 - 1 + 1 = k - 1 := by omega
        rw [e, e2]
        exact hstop
      have hf : ∀ j, 1 ≤ j → j < k - 1 → ¬ stops_at s.m_tol_l
          (fun i => (apgd_seq_from sqrt s.projection_cone A c s.m_rho
            (apgd_step sqrt s.projection_cone A c s.m_rho
              { l := l, y := s.m_y, theta := theta_old }) i).l) j := by
        intro j hj1 hj2
        have := hfirst (j + 1) (by omega) (by omega)
        unfold stops_at at this ⊢
        simp only [apgd_seq_from_shift]
        have e3 : j - 1 + 1 = j + 1 - 1 := by omega
        rw [e3]
        exact this
      obtain ⟨k1, k2, k3⟩ := key hs hf
      rw [apgd_seq_from_shift, e] at k2 k3
      exact ⟨by rw [k1]; omega, k2, k3⟩

theorem apgd_loop_exhausts (sqrt : K → K) (A : Matrix (Fin n) (Fin n) K) (c : Fin n → K)
    (fuel : Nat) :
    ∀ (iter : Nat) (s : apgd K n) (l : Fin n → K) (theta_old : K),
      (∀ j, 1 ≤ j → j ≤ fuel →
        ¬ stops_at s.m_tol_l (fun i => (apgd_seq_from sqrt s.projection_cone A c s.m_rho
          { l := l, y := s.m_y, theta := theta_old } i).l) j) →
      (apgd.loop sqrt A c fuel iter s l theta_old).1 = iter + fuel ∧
      (apgd.loop sqrt A c fuel iter s l theta_old).2.1 =
        (apgd_seq_from sqrt s.projection_cone A c s.m_rho
          { l := l, y := s.m_y, theta := theta_old } fuel).l ∧
      (apgd.loop sqrt A c fuel iter s l theta_old).2.2.m_y =
        (apgd_seq_from sqrt s.projection_cone A c s.m_rho
          { l := l, y := s.m_y, theta := theta_old } fuel).y := by
  induction fuel with
  | zero => intro iter s l theta_old _; exact ⟨rfl, rfl, rfl⟩
  | succ fuel ih =>
    intro iter s l theta_old hall
    obtain ⟨p1, p2, p3, _, _⟩ := apgd_body_self sqrt s A c l theta_old
    have hb := apgd_body_step sqrt s A c l theta_old
    have hbl : (s.body sqrt A c l theta_old).l = (apgd_step sqrt s.projection_cone A c s.m_rho
        { l := l, y := s.m_y, theta := theta_old }).l := congrArg apgd_iterate.l hb
    unfold apgd.loop
    rw [apgd_body_diff]
    have h : ¬ relative_change l (s.body sqrt A c l theta_old).l < s.m_tol_l := by
      rw [hbl]; exact hall 1 (le_refl 1) (by omega)
    rw [if_neg h]
    have key := ih (iter + 1) (s.body sqrt A c l theta_old).self
      (s.body sqrt A c l theta_old).l (s.body sqrt A c l theta_old).theta
    rw [p1, p2, p3, hb] at key
    have hf : ∀ j, 1 ≤ j → j ≤ fuel → ¬ stops_at s.m_tol_l
        (fun i => (apgd_seq_from sqrt s.projection_cone A c s.m_rho
          (apgd_step sqrt s.projection_cone A c s.m_rho
            { l := l, y := s.m_y, theta := theta_old }) i).l) j := by
      intro j hj1 hj2
      have := hall (j + 1) (by omega) (by omega)
      unfold stops_at at this ⊢
      simp only [apgd_seq_from_shift]
      have e3 : j - 1 + 1 = j + 1 - 1 := by omega
      rw [e3]
      exact this
    obtain ⟨k1, k2, k3⟩ := key hf
    rw [apgd_seq_from_shift] at k2 k3
    exact ⟨by rw [k1]; omega, k2, k3⟩

end apgd_lemmas

theorem first_stop_or_none (p : Nat → Prop) (N : Nat) :
    (∀ j, 1 ≤ j → j ≤ N → ¬ p j) ∨
      ∃ k, 1 ≤ k ∧ k ≤ N ∧ p k ∧ ∀ j, 1 ≤ j → j < k → ¬ p j := by
  classical
  by_cases h : ∃ k, 1 ≤ k ∧ k ≤ N ∧ p k
  · right
    refine ⟨Nat.find h, (Nat.find_spec h).1, (Nat.find_spec h).2.1, (Nat.find_spec h).2.2, ?_⟩
    intro j hj1 hj2 hp
    exact Nat.find_min h hj2 ⟨hj1, by have := (Nat.find_spec h).2.1; omega, hp⟩
  · left
    intro j hj1 hj2 hp
    exact h ⟨j, hj1, hj2, hp⟩

section projection_lemmas

variable {K : Type} [LinearOrderedField K] {n : Nat}

theorem uzawa_projection_stops (su : uzawa K n) (A : Matrix (Fin n) (Fin n) K)
    (c l : Fin n → K) (k : Nat) (h1 : 1 ≤ k) (h2 : k ≤ su.m_max_iter)
    (hs : stops_at su.m_tol_l (gradient_seq su.projection_cone A c su.m_rho l) k)
    (hf : ∀ j, 1 ≤ j → j < k →
      ¬ stops_at su.m_tol_l (gradient_seq su.projection_cone A c su.m_rho l) j) :
    (su.projection A c l).1 = k ∧
    (su.projection A c l).2.1 = gradient_seq su.projection_cone A c su.m_rho l k := by
  obtain ⟨e1, e2⟩ := uzawa_loop_stops A c su.m_max_iter 0
    { su with log := su.log ++ [LogEntry.start] } l k h1 h2 hs hf
  rw [Nat.zero_add] at e1
  exact ⟨e1, e2⟩

theorem uzawa_projection_exhausts (su : uzawa K n) (A : Matrix (Fin n) (Fin n) K)
    (c l : Fin n → K)
    (hall : ∀ j, 1 ≤ j → j ≤ su.m_max_iter →
      ¬ stops_at su.m_tol_l (gradient_seq su.projection_cone A c su.m_rho l) j) :
    (su.projection A c l).1 = su.m_max_iter ∧
    (su.projection A c l).2.1 = gradient_seq su.projection_cone A c su.m_rho l su.m_max_iter := by
  obtain ⟨e1, e2⟩ := uzawa_loop_exhausts A c su.m_max_iter 0
    { su with log := su.log ++ [LogEntry.start] } l hall
  rw [Nat.zero_add] at e1
  exact ⟨e1, e2⟩

theorem apgd_projection_stops (sqrt : K → K) (sa : apgd K n) (A : Matrix (Fin n) (Fin n) K)
    (c l : Fin n → K) (k : Nat) (h1 : 1 ≤ k) (h2 : k ≤ sa.m_max_iter)
    (hs : stops_at sa.m_tol_l
      (fun i => (apgd_seq sqrt sa.projection_cone A c sa.m_rho l i).l) k)
    (hf : ∀ j, 1 ≤ j → j < k →
      ¬ stops_at sa.m_tol_l (fun i => (apgd_seq sqrt sa.projection_cone A c sa.m_rho l i).l) j) :
    (sa.projection sqrt A c l).1 = k ∧
    (sa.projection sqrt A c l).2.1 = (apgd_seq sqrt sa.projection_cone A c sa.m_rho l k).l ∧
    (sa.projection sqrt A c l).2.2.m_y =
      (apgd_seq sqrt sa.projection_cone A c sa.m_rho l k).y := by
  simp only [apgd_seq_eq_from] at hs hf ⊢
  obtain ⟨e1, e2, e3⟩ := apgd_loop_stops sqrt A c sa.m_max_iter 0
    { sa with m_y := l, log := sa.log ++ [LogEntry.start] } l 1 k h1 h2 hs hf
  rw [Nat.zero_add] at e1
  exact ⟨e1, e2, e3⟩

theorem apgd_projection_exhausts (sqrt : K → K) (sa : apgd K n)
    (A : Matrix (Fin n) (Fin n) K) (c l : Fin n → K)
    (hall : ∀ j, 1 ≤ j → j ≤ sa.m_max_iter →
      ¬ stops_at sa.m_tol_l (fun i => (apgd_seq sqrt sa.projection_cone A c sa.m_rho l i).l) j) :
    (sa.projection sqrt A c l).1 = sa.m_max_iter ∧
    (sa.projection sqrt A c l).2.1 =
      (apgd_seq sqrt sa.projection_cone A c sa.m_rho l sa.m_max_iter).l ∧
    (sa.projection sqrt A c l).2.2.m_y =
      (apgd_seq sqrt sa.projection_cone A c sa.m_rho l sa.m_max_iter).y := by
  simp only [apgd_seq_eq_from] at hall ⊢
  obtain ⟨e1, e2, e3⟩ := apgd_loop_exhausts sqrt A c sa.m_max_iter 0
    { sa with m_y := l, log := sa.log ++ [LogEntry.start] } l 1 hall
  rw [Nat.zero_add] at e1
  exact ⟨e1, e2, e3⟩

end projection_lemmas

/-- Claim C14.  Stopping rule and returned count of `uzawa::projection` and
`apgd::projection`: with the iterates `l_0` (input), `l_1`, `l_2`, ..., the
function returns the least `k` in `1..max_iter` such that
`max|l_k - l_(k-1)| / (max|l_(k-1)| + 1) < tol_l`, leaving `l = l_k`; if there is
no such `k` it returns `max_iter` and leaves `l = l_(max_iter)`; with
`max_iter = 0` it returns 0 and leaves `l` unchanged. -/
theorem stopping_rule_and_count {K : Type} [LinearOrderedField K] {n : Nat} (sqrt : K → K)
    (su : uzawa K n) (sa : apgd K n) (A : Matrix (Fin n) (Fin n) K) (c l : Fin n → K) :
    ((∀ k, 1 ≤ k → k ≤ su.m_max_iter →
        stops_at su.m_tol_l (gradient_seq su.projection_cone A c su.m_rho l) k →
        (∀ j, 1 ≤ j → j < k →
          ¬ stops_at su.m_tol_l (gradient_seq su.projection_cone A c su.m_rho l) j) →
        (su.projection A c l).1 = k ∧
        (su.projection A c l).2.1 = gradient_seq su.projection_cone A c su.m_rho l k) ∧
      ((∀ j, 1 ≤ j → j ≤ su.m_max_iter →
          ¬ stops_at su.m_tol_l (gradient_seq su.projection_cone A c su.m_rho l) j) →
        (su.projection A c l).1 = su.m_max_iter ∧
        (su.projection A c l).2.1 =
          gradient_seq su.projection_cone A c su.m_rho l su.m_max_iter) ∧
      (su.m_max_iter = 0 → (su.projection A c l).1 = 0 ∧ (su.projection A c l).2.1 = l)) ∧
    ((∀ k, 1 ≤ k → k ≤ sa.m_max_iter →
        stops_at sa.m_tol_l (fun i => (apgd_seq sqrt sa.projection_cone A c sa.m_rho l i).l) k →
        (∀ j, 1 ≤ j → j < k →
          ¬ stops_at sa.m_tol_l
            (fun i => (apgd_seq sqrt sa.projection_cone A c sa.m_rho l i).l) j) →
        (sa.projection sqrt A c l).1 = k ∧
        (sa.projection sqrt A c l).2.1 = (apgd_seq sqrt sa.projection_cone A c sa.m_rho l k).l) ∧
      ((∀ j, 1 ≤ j → j ≤ sa.m_max_iter →
          ¬ stops_at sa.m_tol_l
            (fun i => (apgd_seq sqrt sa.projection_cone A c sa.m_rho l i).l) j) →
        (sa.projection sqrt A c l).1 = sa.m_max_iter ∧
        (sa.projection sqrt A c l).2.1 =
          (apgd_seq sqrt sa.projection_cone A c sa.m_rho l sa.m_max_iter).l) ∧
      (sa.m_max_iter = 0 →
        (sa.projection sqrt A c l).1 = 0 ∧ (sa.projection sqrt A c l).2.1 = l)) := by
  refine ⟨⟨?_, ?_, ?_⟩, ⟨?_, ?_, ?_⟩⟩
  · exact fun k h1 h2 hs hf => uzawa_projection_stops su A c l k h1 h2 hs hf
  · exact fun hall => uzawa_projection_exhausts su A c l hall
  · intro h0
    unfold uzawa.projection
    rw [h0]
    exact ⟨rfl, rfl⟩
  · intro k h1 h2 hs hf
    obtain ⟨e1, e2, _⟩ := apgd_projection_stops sqrt sa A c l k h1 h2 hs hf
    exact ⟨e1, e2⟩
  · intro hall
    obtain ⟨e1, e2, _⟩ := apgd_projection_exhausts sqrt sa A c l hall
    exact ⟨e1, e2⟩
  · intro h0
    unfold apgd.projection
    rw [h0]
    exact ⟨rfl, rfl⟩

theorem amax_abs_one (x : Fin 1 → ℚ) : amax_abs x = |x 0| := by
  simp [amax_abs, List.ofFn_succ]

theorem demo_gradient_step (x : Fin 1 → ℚ) :
    gradient_step projection_max (1 : Matrix (Fin 1) (Fin 1) ℚ) 0 (1999 / 2000) x =
      fun _ => max (x 0 - 1999 / 2000 * x 0) 0 := by
  funext i
  have hi : i = 0 := Subsingleton.elim i 0
  subst hi
  simp [gradient_step, projection_max]

theorem demo_gradient_seq :
    gradient_seq projection_max (1 : Matrix (Fin 1) (Fin 1) ℚ) 0 (1999 / 2000) (fun _ => 1) 1
        = (fun _ => 1 / 2000) ∧
    gradient_seq projection_max (1 : Matrix (Fin 1) (Fin 1) ℚ) 0 (1999 / 2000) (fun _ => 1) 2
        = (fun _ => 1 / 4000000) := by
  have h1 : gradient_seq projection_max (1 : Matrix (Fin 1) (Fin 1) ℚ) 0 (1999 / 2000)
      (fun _ => 1) 1 = (fun _ => 1 / 2000) := by
    show gradient_step projection_max 1 0 (1999 / 2000) (fun _ => 1) = _
    rw [demo_gradient_step]
    funext _
    norm_num
  refine ⟨h1, ?_⟩
  show gradient_step projection_max 1 0 (1999 / 2000)
    (gradient_seq projection_max 1 0 (1999 / 2000) (fun _ => 1) 1) = _
  rw [h1, demo_gradient_step]
  funext _
  norm_num

/-- Claim C16.  Uzawa and projected gradient have the identical update rule:
for every `A`, `c`, `l` and `rho` (and the same projection `Π`), one pass through
the loop body of `uzawa::projection` and one pass through the loop body of
`projected_gradient::projection` both replace `l` by `Π(l - rho * (A * l + c))`,
producing the same vector. -/
theorem identical_update_rule {K : Type} [LinearOrderedField K] {n : Nat}
    (su : uzawa K n) (sp : projected_gradient K n) (A : Matrix (Fin n) (Fin n) K)
    (c l : Fin n → K) (proj : (Fin n → K) → (Fin n → K)) (rho : K)
    (hu : su.projection_cone = proj ∧ su.m_rho = rho)
    (hp : sp.projection_cone = proj ∧ sp.m_rho = rho) :
    (su.body A c l).l = proj (l - rho • (A.mulVec l + c)) ∧
    (sp.body A c l).l = proj (l - rho • (A.mulVec l + c)) ∧
    (su.body A c l).l = (sp.body A c l).l := by
  have e1 : (su.body A c l).l = proj (l - rho • (A.mulVec l + c)) := by
    rw [uzawa_body_l, hu.1, hu.2]; rfl
  have e2 : (sp.body A c l).l = proj (l - rho • (A.mulVec l + c)) := by
    unfold projected_gradient.body
    simp only [mkl_sparse_d_mv_one_one, hp.1, hp.2]
  exact ⟨e1, e2, e1.trans e2.symm⟩

/-- Claim C16 at the one-row problem `A = 1`, `c = 0`, `l = 1`. -/
theorem identical_update_rule_witness :
    (demo_uzawa.projection_cone = projection_max ∧ demo_uzawa.m_rho = 1999 / 2000) ∧
    (demo_projected_gradient.projection_cone = projection_max ∧
      demo_projected_gradient.m_rho = 1999 / 2000) ∧
    (demo_uzawa.body 1 0 (fun _ => 1)).l =
      projection_max ((fun _ => 1) - (1999 / 2000 : ℚ) •
        (Matrix.mulVec (1 : Matrix (Fin 1) (Fin 1) ℚ) (fun _ => 1) + 0)) ∧
    (demo_projected_gradient.body 1 0 (fun _ => 1)).l =
      projection_max ((fun _ => 1) - (1999 / 2000 : ℚ) •
        (Matrix.mulVec (1 : Matrix (Fin 1) (Fin 1) ℚ) (fun _ => 1) + 0)) ∧
    (demo_uzawa.body 1 0 (fun _ => 1)).l = (demo_projected_gradient.body 1 0 (fun _ => 1)).l :=
  ⟨⟨rfl, rfl⟩, ⟨rfl, rfl⟩,
    identical_update_rule demo_uzawa demo_projected_gradient 1 0 (fun _ => 1) projection_max
      (1999 / 2000) ⟨rfl, rfl⟩ ⟨rfl, rfl⟩⟩

/-- Claim C17.  APGD update rule: `apgd::projection` starts from `y_0 = l_0` and
`theta_0 = 1`; a pass through the loop body with the current `l_k`, `y_k`
(`m_y`), `theta_k` (`theta_old`) computes `dg = A * y_k + c`,
`l_(k+1) = Π(y_k - rho * dg)`,
`theta_(k+1) = (1/2) * (theta_k * sqrt(4 + theta_k^2) - theta_k^2)`,
`beta_(k+1) = theta_k * (1 - theta_k) / (theta_k^2 + theta_(k+1))` and
`y_(k+1) = l_(k+1) + beta_(k+1) * (l_(k+1) - l_k)`; and the `l` and `m_y` that the
function leaves are the iterates `l_K`, `y_K` of this recurrence for the
returned count `K`. -/
theorem apgd_update_rule {K : Type} [LinearOrderedField K] {n : Nat} (sqrt : K → K)
    (sa : apgd K n) (A : Matrix (Fin n) (Fin n) K) (c l : Fin n → K) (theta_old : K) :
    (sa.body sqrt A c l theta_old).self.m_dg = A.mulVec sa.m_y + c ∧
    (sa.body sqrt A c l theta_old).l
        = sa.projection_cone (sa.m_y - sa.m_rho • (A.mulVec sa.m_y + c)) ∧
    (sa.body sqrt A c l theta_old).theta
        = (1 / 2) * (theta_old * sqrt (4 + theta_old ^ 2) - theta_old ^ 2) ∧
    (sa.body sqrt A c l theta_old).self.m_y
        = (sa.body sqrt A c l theta_old).l
          + (theta_old * (1 - theta_old)
              / (theta_old ^ 2 + (sa.body sqrt A c l theta_old).theta))
            • ((sa.body sqrt A c l theta_old).l - l) ∧
    (apgd_seq sqrt sa.projection_cone A c sa.m_rho l 0).y = l ∧
    (apgd_seq sqrt sa.projection_cone A c sa.m_rho l 0).l = l ∧
    (apgd_seq sqrt sa.projection_cone A c sa.m_rho l 0).theta = 1 ∧
    (sa.projection sqrt A c l).2.1 =
      (apgd_seq sqrt sa.projection_cone A c sa.m_rho l (sa.projection sqrt A c l).1).l ∧
    (sa.projection sqrt A c l).2.2.m_y =
      (apgd_seq sqrt sa.projection_cone A c sa.m_rho l (sa.projection sqrt A c l).1).y := by
  have hb := apgd_body_step sqrt sa A c l theta_old
  have hl := congrArg apgd_iterate.l hb
  have hy := congrArg apgd_iterate.y hb
  have ht := congrArg apgd_iterate.theta hb
  simp only [apgd_step] at hl hy ht
  refine ⟨?_, hl, ht, ?_, rfl, rfl, rfl, ?_⟩
  · unfold apgd.body
    cases sa.m_verbose <;> simp [mkl_sparse_d_mv_one_one]
  · rw [hy, hl, ht]
  · rcases first_stop_or_none (stops_at sa.m_tol_l
        (fun i => (apgd_seq sqrt sa.projection_cone A c sa.m_rho l i).l)) sa.m_max_iter
      with hall | ⟨k, h1, h2, hs, hf⟩
    · obtain ⟨e1, e2, e3⟩ := apgd_projection_exhausts sqrt sa A c l hall
      rw [e1, e2, e3]
      exact ⟨rfl, rfl⟩
    · obtain ⟨e1, e2, e3⟩ := apgd_projection_stops sqrt sa A c l k h1 h2 hs hf
      rw [e1, e2, e3]
      exact ⟨rfl, rfl⟩

/-- Claim C19.  Verbose mode does not alter control flow or numerical results:
for every `A`, `c`, initial `l`, `rho`, `tol_l` and `max_iter`,
`uzawa::projection` and `apgd::projection` return the same iteration count and
leave the same final `l` (and, for APGD, the same `m_y`) whether `m_verbose` is
true or false. -/
theorem verbose_does_not_alter_results {K : Type} [LinearOrderedField K] {n : Nat}
    (sqrt : K → K) (su : uzawa K n) (sa : apgd K n) (A : Matrix (Fin n) (Fin n) K)
    (c l : Fin n → K) :
    (({ su with m_verbose := true }).projection A c l).1
        = (({ su with m_verbose := false }).projection A c l).1 ∧
    (({ su with m_verbose := true }).projection A c l).2.1
        = (({ su with m_verbose := false }).projection A c l).2.1 ∧
    (({ sa with m_verbose := true }).projection sqrt A c l).1
        = (({ sa with m_verbose := false }).projection sqrt A c l).1 ∧
    (({ sa with m_verbose := true }).projection sqrt A c l).2.1
        = (({ sa with m_verbose := false }).projection sqrt A c l).2.1 ∧
    (({ sa with m_verbose := true }).projection sqrt A c l).2.2.m_y
        = (({ sa with m_verbose := false }).projection sqrt A c l).2.2.m_y := by
  have hu : (({ su with m_verbose := true }).projection A c l).1
        = (({ su with m_verbose := false }).projection A c l).1 ∧
      (({ su with m_verbose := true }).projection A c l).2.1
        = (({ su with m_verbose := false }).projection A c l).2.1 := by
    rcases first_stop_or_none (stops_at su.m_tol_l
        (gradient_seq su.projection_cone A c su.m_rho l)) su.m_max_iter
      with hall | ⟨k, h1, h2, hs, hf⟩
    · obtain ⟨a1, a2⟩ := uzawa_projection_exhausts { su with m_verbose := true } A c l hall
      obtain ⟨b1, b2⟩ := uzawa_projection_exhausts { su with m_verbose := false } A c l hall
      exact ⟨a1.trans b1.symm, a2.trans b2.symm⟩
    · obtain ⟨a1, a2⟩ := uzawa_projection_stops { su with m_verbose := true } A c l k h1 h2
        hs hf
      obtain ⟨b1, b2⟩ := uzawa_projection_stops { su with m_verbose := false } A c l k h1 h2
        hs hf
      exact ⟨a1.trans b1.symm, a2.trans b2.symm⟩
  have ha : (({ sa with m_verbose := true }).projection sqrt A c l).1
        = (({ sa with m_verbose := false }).projection sqrt A c l).1 ∧
      (({ sa with m_verbose := true }).projection sqrt A c l).2.1
        = (({ sa with m_verbose := false }).projection sqrt A c l).2.1 ∧
      (({ sa with m_verbose := true }).projection sqrt A c l).2.2.m_y
        = (({ sa with m_verbose := false }).projection sqrt A c l).2.2.m_y := by
    rcases first_stop_or_none (stops_at sa.m_tol_l
        (fun i => (apgd_seq sqrt sa.projection_cone A c sa.m_rho l i).l)) sa.m_max_iter
      with hall | ⟨k, h1, h2, hs, hf⟩
    · obtain ⟨a1, a2, a3⟩ :=
        apgd_projection_exhausts sqrt { sa with m_verbose := true } A c l hall
      obtain ⟨b1, b2, b3⟩ :=
        apgd_projection_exhausts sqrt { sa with m_verbose := false } A c l hall
      exact ⟨a1.trans b1.symm, a2.trans b2.symm, a3.trans b3.symm⟩
    · obtain ⟨a1, a2, a3⟩ :=
        apgd_projection_stops sqrt { sa with m_verbose := true } A c l k h1 h2 hs hf
      obtain ⟨b1, b2, b3⟩ :=
        apgd_projection_stops sqrt { sa with m_verbose := false } A c l k h1 h2 hs hf
      exact ⟨a1.trans b1.symm, a2.trans b2.symm, a3.trans b3.symm⟩
  exact ⟨hu.1, hu.2, ha.1, ha.2.1, ha.2.2⟩

section projected_gradient_lemmas

variable {K : Type} [LinearOrderedField K] {n : Nat}

theorem pg_body_l (s : projected_gradient K n) (A : Matrix (Fin n) (Fin n) K)
    (c l : Fin n → K) :
    (s.body A c l).l = gradient_step s.projection_cone A c s.m_rho l := by
  unfold projected_gradient.body gradient_step
  simp [mkl_sparse_d_mv_one_one]

theorem pg_body_test (s : projected_gradient K n) (A : Matrix (Fin n) (Fin n) K)
    (c l : Fin n → K) :
    (s.body A c l).norm_dg = amax_abs (A.mulVec l + c) ∧
    (s.body A c l).norm_l = amax_abs (gradient_step s.projection_cone A c s.m_rho l) := by
  unfold projected_gradient.body gradient_step
  simp [mkl_sparse_d_mv_one_one]

theorem pg_body_self (s : projected_gradient K n) (A : Matrix (Fin n) (Fin n) K)
    (c l : Fin n → K) :
    (s.body A c l).self.projection_cone = s.projection_cone ∧
    (s.body A c l).self.m_rho = s.m_rho ∧ (s.body A c l).self.m_tol_l = s.m_tol_l ∧
    (s.body A c l).self.m_tol_dg = s.m_tol_dg :=
  ⟨rfl, rfl, rfl, rfl⟩

theorem pg_loop_stops (A : Matrix (Fin n) (Fin n) K) (c : Fin n → K) (fuel : Nat) :
    ∀ (iter : Nat) (s : projected_gradient K n) (l : Fin n → K) (k : Nat), 1 ≤ k → k ≤ fuel →
      pg_stops_at s.m_tol_dg s.m_tol_l A c (gradient_seq s.projection_cone A c s.m_rho l) k →
      (∀ j, 1 ≤ j → j < k → ¬ pg_stops_at s.m_tol_dg s.m_tol_l A c
        (gradient_seq s.projection_cone A c s.m_rho l) j) →
      (projected_gradient.loop A c fuel iter s l).1 = some (iter + k) ∧
      (projected_gradient.loop A c fuel iter s l).2.1 =
        gradient_seq s.projection_cone A c s.m_rho l k := by
  induction fuel with
  | zero => intro iter s l k h1 h2; omega
  | succ fuel ih =>
    intro iter s l k h1 h2 hstop hfirst
    obtain ⟨p1, p2, p3, p4⟩ := pg_body_self s A c l
    obtain ⟨t1, t2⟩ := pg_body_test s A c l
    unfold projected_gradient.loop
    rw [t1, t2]
    by_cases hk : k = 1
    · subst hk
      have h : amax_abs (A.mulVec l + c) < s.m_tol_dg ∨
          amax_abs (gradient_step s.projection_cone A c s.m_rho l) < s.m_tol_l := hstop
      rw [if_pos h, pg_body_l]
      exact ⟨rfl, rfl⟩
    · have h : ¬ (amax_abs (A.mulVec l + c) < s.m_tol_dg ∨
          amax_abs (gradient_step s.projection_cone A c s.m_rho l) < s.m_tol_l) :=
        hfirst 1 (le_refl 1) (by omega)
      rw [if_neg h, pg_body_l]
      have key := ih (iter + 1) (s.body A c l).self
        (gradient_step s.projection_cone A c s.m_rho l) (k - 1) (by omega) (by omega)
      rw [p1, p2, p3, p4] at key
      have e : k - 1 + 1 = k := by omega
      have hs : pg_stops_at s.m_tol_dg s.m_tol_l A c (gradient_seq s.projection_cone A c s.m_rho
          (gradient_step s.projection_cone A c s.m_rho l)) (k - 1) := by
        unfold pg_stops_at at hstop ⊢
        rw [gradient_seq_shift, gradient_seq_shift, e]
        have e2 : k - 1 - 1 + 1 = k - 1 := by omega
        rw [e2]
        exact hstop
      have hf : ∀ j, 1 ≤ j → j < k - 1 → ¬ pg_stops_at s.m_tol_dg s.m_tol_l A c
          (gradient_seq s.projection_cone A c s.m_rho
            (gradient_step s.projection_cone A c s.m_rho l)) j := by
        intro j hj1 hj2
        have := hfirst (j + 1) (by omega) (by omega)
        unfold pg_stops_at at this ⊢
        rw [gradient_seq_shift, gradient_seq_shift]
        have e3 : j - 1 + 1 = j + 1 - 1 := by omega
        rw [e3]
        exact this
      obtain ⟨k1, k2⟩ := key hs hf
      rw [gradient_seq_shift, e] at k2
      exact ⟨by rw [k1]; congr 1; omega, k2⟩

theorem pg_loop_exhausts (A : Matrix (Fin n) (Fin n) K) (c : Fin n → K) (fuel : Nat) :
    ∀ (iter : Nat) (s : projected_gradient K n) (l : Fin n → K),
      (∀ j, 1 ≤ j → j ≤ fuel → ¬ pg_stops_at s.m_tol_dg s.m_tol_l A c
        (gradient_seq s.projection_cone A c s.m_rho l) j) →
      (projected_gradient.loop A c fuel iter s l).2.1 =
        gradient_seq s.projection_cone A c s.m_rho l fuel := by
  induction fuel with
  | zero => intro iter s l _; rfl
  | succ fuel ih =>
    intro iter s l hall
    obtain ⟨p1, p2, p3, p4⟩ := pg_body_self s A c l
    obtain ⟨t1, t2⟩ := pg_body_test s A c l
    unfold projected_gradient.loop
    rw [t1, t2]
    have h : ¬ (amax_abs (A.mulVec l + c) < s.m_tol_dg ∨
        amax_abs (gradient_step s.projection_cone A c s.m_rho l) < s.m_tol_l) :=
      hall 1 (le_refl 1) (by omega)
    rw [if_neg h, pg_body_l]
    have key := ih (iter + 1) (s.body A c l).self
      (gradient_step s.projection_cone A c s.m_rho l)
    rw [p1, p2, p3, p4] at key
    have hf : ∀ j, 1 ≤ j → j ≤ fuel → ¬ pg_stops_at s.m_tol_dg s.m_tol_l A c
        (gradient_seq s.projection_cone A c s.m_rho
          (gradient_step s.projection_cone A c s.m_rho l)) j := by
      intro j hj1 hj2
      have := hall (j + 1) (by omega) (by omega)
      unfold pg_stops_at at this ⊢
      rw [gradient_seq_shift, gradient_seq_shift]
      have e3 : j - 1 + 1 = j + 1 - 1 := by omega
      rw [e3]
      exact this
    rw [key hf, gradient_seq_shift]

end projected_gradient_lemmas

/-- Claim C15 as amended.  `projected_gradient::projection` applies the update
rule of Uzawa but stops by its own test: it returns `iter + 1` at the first
iteration `k` (`1 <= k <= max_iter`) where `max|A*l_(k-1) + c| < tol_dg` or
`max|l_k| < tol_l`, leaving `l = l_k`, where `l_0`, `l_1`, ... are the iterates
of the update rule `l ← Π(l - rho*(A*l + c))` that `uzawa::projection` follows
too; when its test fires at no iteration it leaves `l = l_(max_iter)`. -/
theorem projected_gradient_own_test {K : Type} [LinearOrderedField K] {n : Nat}
    (sp : projected_gradient K n) (su : uzawa K n) (A : Matrix (Fin n) (Fin n) K)
    (c l : Fin n → K) (hproj : su.projection_cone = sp.projection_cone)
    (hrho : su.m_rho = sp.m_rho) :
    (su.body A c l).l = (sp.body A c l).l ∧
    (∀ k, 1 ≤ k → k ≤ sp.m_max_iter →
      pg_stops_at sp.m_tol_dg sp.m_tol_l A c
        (gradient_seq su.projection_cone A c su.m_rho l) k →
      (∀ j, 1 ≤ j → j < k → ¬ pg_stops_at sp.m_tol_dg sp.m_tol_l A c
        (gradient_seq su.projection_cone A c su.m_rho l) j) →
      (sp.projection A c l).1 = some k ∧
      (sp.projection A c l).2.1 = gradient_seq su.projection_cone A c su.m_rho l k) ∧
    ((∀ j, 1 ≤ j → j ≤ sp.m_max_iter → ¬ pg_stops_at sp.m_tol_dg sp.m_tol_l A c
        (gradient_seq su.projection_cone A c su.m_rho l) j) →
      (sp.projection A c l).2.1 =
        gradient_seq su.projection_cone A c su.m_rho l sp.m_max_iter) := by
  rw [hproj, hrho]
  refine ⟨?_, ?_, ?_⟩
  · rw [uzawa_body_l, pg_body_l, hproj, hrho]
  · intro k h1 h2 hs hf
    obtain ⟨e1, e2⟩ := pg_loop_stops A c sp.m_max_iter 0 sp l k h1 h2 hs hf
    rw [Nat.zero_add] at e1
    exact ⟨e1, e2⟩
  · intro hall
    exact pg_loop_exhausts A c sp.m_max_iter 0 sp l hall

theorem demo_seq_zero :
    gradient_seq projection_max (1 : Matrix (Fin 1) (Fin 1) ℚ) 0 (1999 / 2000) (fun _ => 1) 0
      = (fun _ => 1) := rfl

theorem demo_not_stops_one :
    ¬ stops_at (1 / 1000 : ℚ)
      (gradient_seq projection_max (1 : Matrix (Fin 1) (Fin 1) ℚ) 0 (1999 / 2000)
        (fun _ => 1)) 1 := by
  unfold stops_at relative_change
  rw [show (1 : Nat) - 1 = 0 from rfl, demo_seq_zero, demo_gradient_seq.1, amax_abs_one,
    amax_abs_one]
  norm_num [abs_of_neg, abs_of_pos]

theorem demo_stops_two :
    stops_at (1 / 1000 : ℚ)
      (gradient_seq projection_max (1 : Matrix (Fin 1) (Fin 1) ℚ) 0 (1999 / 2000)
        (fun _ => 1)) 2 := by
  unfold stops_at relative_change
  rw [show (2 : Nat) - 1 = 1 from rfl, demo_gradient_seq.1, demo_gradient_seq.2, amax_abs_one,
    amax_abs_one]
  norm_num [abs_of_neg, abs_of_pos]

theorem demo_pg_stops_one :
    pg_stops_at (1 / 1000 : ℚ) (1 / 1000) (1 : Matrix (Fin 1) (Fin 1) ℚ) 0
      (gradient_seq projection_max (1 : Matrix (Fin 1) (Fin 1) ℚ) 0 (1999 / 2000)
        (fun _ => 1)) 1 := by
  unfold pg_stops_at
  right
  rw [demo_gradient_seq.1, amax_abs_one]
  norm_num [abs_of_pos]

/-- Claim C15 at the one-row problem `A = 1`, `c = 0`, `l = 1` with the
frictionless projection, `rho = 1999/2000`, `tol_l = tol_dg = 1/1000`,
`max_iter = 2` for both solvers: `uzawa::projection` returns 2 and leaves
`l = 1/4000000`, `projected_gradient::projection` returns 1 and leaves
`l = 1/2000`, at an iteration where the relative change is not below `tol_l`. -/
theorem projected_gradient_differs_from_uzawa :
    (demo_uzawa.projection 1 0 (fun _ => 1)).1 = 2 ∧
    (demo_uzawa.projection 1 0 (fun _ => 1)).2.1 = (fun _ => 1 / 4000000) ∧
    (demo_projected_gradient.projection 1 0 (fun _ => 1)).1 = some 1 ∧
    (demo_projected_gradient.projection 1 0 (fun _ => 1)).2.1 = (fun _ => 1 / 2000) ∧
    ¬ stops_at demo_projected_gradient.m_tol_l
      (gradient_seq demo_projected_gradient.projection_cone 1 0 demo_projected_gradient.m_rho
        (fun _ => 1)) 1 := by
  obtain ⟨u1, u2⟩ := uzawa_projection_stops demo_uzawa 1 0 (fun _ => 1) 2 (by decide)
    (by decide) demo_stops_two (by
      intro j h1 h2
      have hj : j = 1 := by omega
      subst hj
      exact demo_not_stops_one)
  obtain ⟨p1, p2⟩ := pg_loop_stops (1 : Matrix (Fin 1) (Fin 1) ℚ) 0 2 0 demo_projected_gradient
    (fun _ => 1) 1 (by decide) (by decide) demo_pg_stops_one (by intro j h1 h2; omega)
  refine ⟨u1, ?_, p1, ?_, demo_not_stops_one⟩
  · rw [u2]; exact demo_gradient_seq.2
  · show (projected_gradient.loop 1 0 2 0 demo_projected_gradient fun _ => 1).2.1 = _
    rw [p2]; exact demo_gradient_seq.1

/-- Claim C15 as amended, at the one-row problem. -/
theorem projected_gradient_own_test_witness :
    demo_uzawa.projection_cone = demo_projected_gradient.projection_cone ∧
    demo_uzawa.m_rho = demo_projected_gradient.m_rho ∧
    (demo_projected_gradient.projection 1 0 (fun _ => 1)).1 = some 1 ∧
    (demo_projected_gradient.projection 1 0 (fun _ => 1)).2.1 =
      gradient_seq demo_uzawa.projection_cone 1 0 demo_uzawa.m_rho (fun _ => 1) 1 :=
  ⟨rfl, rfl,
    (projected_gradient_own_test demo_projected_gradient demo_uzawa 1 0 (fun _ => 1) rfl
      rfl).2.1 1 (by decide) (by decide) demo_pg_stops_one (by intro j h1 h2; omega)⟩

section log_lemmas

variable {K : Type} [LinearOrderedField K] {n : Nat}

theorem stops_shift (tol : K) (seq seq1 : Nat → (Fin n → K))
    (hshift : ∀ k, seq1 k = seq (k + 1)) (fuel : Nat) (h1 : ¬ stops_at tol seq 1) :
    (∀ j, 1 ≤ j → j ≤ fuel → ¬ stops_at tol seq1 j) ↔
      (∀ j, 1 ≤ j → j ≤ fuel + 1 → ¬ stops_at tol seq j) := by
  constructor
  · intro h j hj1 hj2
    by_cases hj : j = 1
    · subst hj; exact h1
    · have := h (j - 1) (by omega) (by omega)
      unfold stops_at at this ⊢
      rw [hshift, hshift] at this
      have e1 : j - 1 + 1 = j := by omega
      have e2 : j - 1 - 1 + 1 = j - 1 := by omega
      rw [e1, e2] at this
      exact this
  · intro h j hj1 hj2
    have := h (j + 1) (by omega) (by omega)
    unfold stops_at at this ⊢
    rw [hshift, hshift]
    have e3 : j - 1 + 1 = j + 1 - 1 := by omega
    rw [e3]
    exact this

theorem uzawa_loop_log (A : Matrix (Fin n) (Fin n) K) (c : Fin n → K) (fuel : Nat) :
    ∀ (iter : Nat) (s : uzawa K n) (l : Fin n → K),
      ∃ extra, (uzawa.loop A c fuel iter s l).2.2.log = s.log ++ extra ∧
        (LogEntry.does_not_converge ∈ extra ↔
          ∀ j, 1 ≤ j → j ≤ fuel →
            ¬ stops_at s.m_tol_l (gradient_seq s.projection_cone A c s.m_rho l) j) := by
  induction fuel with
  | zero =>
    intro iter s l
    refine ⟨[LogEntry.does_not_converge], rfl, ?_⟩
    simp only [List.mem_singleton, true_iff]
    intro j h1 h2; omega
  | succ fuel ih =>
    intro iter s l
    obtain ⟨p1, p2, p3, _, e, he, hne⟩ := uzawa_body_self s A c l
    unfold uzawa.loop
    rw [uzawa_body_diff]
    by_cases h : relative_change l (gradient_step s.projection_cone A c s.m_rho l) < s.m_tol_l
    · rw [if_pos h]
      refine ⟨e, he, ?_⟩
      constructor
      · intro hmem; exact absurd hmem hne
      · intro hall; exact absurd h (hall 1 (le_refl 1) (by omega))
    · rw [if_neg h, uzawa_body_l]
      obtain ⟨extra, hlog, hiff⟩ := ih (iter + 1) (s.body A c l).self
        (gradient_step s.projection_cone A c s.m_rho l)
      rw [p1, p2, p3] at hiff
      refine ⟨e ++ extra, by rw [hlog, he, List.append_assoc], ?_⟩
      rw [List.mem_append, hiff]
      rw [stops_shift s.m_tol_l (gradient_seq s.projection_cone A c s.m_rho l) _
        (gradient_seq_shift s.projection_cone A c s.m_rho l) fuel h]
      constructor
      · rintro (hmem | hall)
        · exact absurd hmem hne
        · exact hall
      · exact fun hall => Or.inr hall

theorem apgd_loop_log (sqrt : K → K) (A : Matrix (Fin n) (Fin n) K) (c : Fin n → K)
    (fuel : Nat) :
    ∀ (iter : Nat) (s : apgd K n) (l : Fin n → K) (theta_old : K),
      ∃ extra, (apgd.loop sqrt A c fuel iter s l theta_old).2.2.log = s.log ++ extra ∧
        (LogEntry.does_not_converge ∈ extra ↔
          ∀ j, 1 ≤ j → j ≤ fuel →
            ¬ stops_at s.m_tol_l (fun i => (apgd_seq_from sqrt s.projection_cone A c s.m_rho
              { l := l, y := s.m_y, theta := theta_old } i).l) j) := by
  induction fuel with
  | zero =>
    intro iter s l theta_old
    refine ⟨[LogEntry.does_not_converge], rfl, ?_⟩
    simp only [List.mem_singleton, true_iff]
    intro j h1 h2; omega
  | succ fuel ih =>
    intro iter s l theta_old
    obtain ⟨p1, p2, p3, _, e, he, hne⟩ := apgd_body_self sqrt s A c l theta_old
    have hb := apgd_body_step sqrt s A c l theta_old
    have hbl : (s.body sqrt A c l theta_old).l = (apgd_step sqrt s.projection_cone A c s.m_rho
        { l := l, y := s.m_y, theta := theta_old }).l := congrArg apgd_iterate.l hb
    unfold apgd.loop
    rw [apgd_body_diff]
    by_cases h : relative_change l (s.body sqrt A c l theta_old).l < s.m_tol_l
    · rw [if_pos h]
      refine ⟨e, he, ?_⟩
      constructor
      · intro hmem; exact absurd hmem hne
      · intro hall
        have := hall 1 (le_refl 1) (by omega)
        rw [hbl] at h
        exact absurd h this
    · rw [if_neg h]
      obtain ⟨extra, hlog, hiff⟩ := ih (iter + 1) (s.body sqrt A c l theta_old).self
        (s.body sqrt A c l theta_old).l (s.body sqrt A c l theta_old).theta
      rw [p1, p2, p3, hb] at hiff
      refine ⟨e ++ extra, by rw [hlog, he, List.append_assoc], ?_⟩
      rw [List.mem_append, hiff]
      have h1 : ¬ stops_at s.m_tol_l (fun i => (apgd_seq_from sqrt s.projection_cone A c s.m_rho
          { l := l, y := s.m_y, theta := theta_old } i).l) 1 := by
        rw [hbl] at h; exact h
      rw [stops_shift s.m_tol_l
        (fun i => (apgd_seq_from sqrt s.projection_cone A c s.m_rho
          { l := l, y := s.m_y, theta := theta_old } i).l) _
        (fun k => congrArg apgd_iterate.l (apgd_seq_from_shift sqrt s.projection_cone A c
          s.m_rho { l := l, y := s.m_y, theta := theta_old } k)) fuel h1]
      constructor
      · rintro (hmem | hall)
        · exact absurd hmem hne
        · exact hall
      · exact fun hall => Or.inr hall

theorem count_eq_max_iff (p : Nat → Prop) (N count : Nat)
    (hstop : ∀ k, 1 ≤ k → k ≤ N → p k → (∀ j, 1 ≤ j → j < k → ¬ p j) → count = k)
    (hall : (∀ j, 1 ≤ j → j ≤ N → ¬ p j) → count = N) :
    count = N ↔ ∀ j, 1 ≤ j → j < N → ¬ p j := by
  rcases first_stop_or_none p N with h | ⟨k, h1, h2, hs, hf⟩
  · exact ⟨fun _ j hj1 hj2 => h j hj1 (by omega), fun _ => hall h⟩
  · have hc := hstop k h1 h2 hs hf
    constructor
    · intro hN j hj1 hj2
      exact hf j hj1 (by omega)
    · intro hfail
      by_cases hk : k = N
      · omega
      · exact absurd hs (hfail k h1 (by omega))

end log_lemmas

/-- Claim C18 at the one-row problem `A = 1`, `c = 0`, `l = 1`
(`max_iter = 2`): the stopping test fails at iteration 1 and holds at iteration
2, the last one; `uzawa::projection` returns 2 = `max_iter` although the test
did not fail at every iteration. -/
theorem count_max_iter_with_convergence :
    1 ≤ demo_uzawa.m_max_iter ∧
    (demo_uzawa.projection 1 0 (fun _ => 1)).1 = demo_uzawa.m_max_iter ∧
    stops_at demo_uzawa.m_tol_l
      (gradient_seq demo_uzawa.projection_cone 1 0 demo_uzawa.m_rho (fun _ => 1))
      demo_uzawa.m_max_iter ∧
    ¬ ((demo_uzawa.projection 1 0 (fun _ => 1)).1 = demo_uzawa.m_max_iter ↔
        ∀ j, 1 ≤ j → j ≤ demo_uzawa.m_max_iter →
          ¬ stops_at demo_uzawa.m_tol_l
            (gradient_seq demo_uzawa.projection_cone 1 0 demo_uzawa.m_rho (fun _ => 1)) j) := by
  obtain ⟨u1, _⟩ := uzawa_projection_stops demo_uzawa 1 0 (fun _ => 1) 2 (by decide)
    (by decide) demo_stops_two (by
      intro j h1 h2
      have hj : j = 1 := by omega
      subst hj
      exact demo_not_stops_one)
  refine ⟨by decide, u1, demo_stops_two, ?_⟩
  intro hiff
  exact hiff.1 u1 2 (by decide) (by decide) demo_stops_two

/-- Claim C18 as amended.  For `uzawa::projection` and `apgd::projection`: if
the stopping test `max|l_k - l_(k-1)| / (max|l_(k-1)| + 1) < tol_l` failed at
every one of the `max_iter` iterations, the returned count equals `max_iter`;
the returned count equals `max_iter` if and only if the test failed at every one
of the first `max_iter - 1` iterations; and the error message
"does not converge" is logged by the call if and only if the test failed at
every one of the `max_iter` iterations. -/
theorem non_convergence_observable {K : Type} [LinearOrderedField K] {n : Nat}
    (sqrt : K → K) (su : uzawa K n) (sa : apgd K n) (A : Matrix (Fin n) (Fin n) K)
    (c l : Fin n → K) :
    (((∀ j, 1 ≤ j → j ≤ su.m_max_iter →
          ¬ stops_at su.m_tol_l (gradient_seq su.projection_cone A c su.m_rho l) j) →
        (su.projection A c l).1 = su.m_max_iter) ∧
      ((su.projection A c l).1 = su.m_max_iter ↔
        ∀ j, 1 ≤ j → j < su.m_max_iter →
          ¬ stops_at su.m_tol_l (gradient_seq su.projection_cone A c su.m_rho l) j) ∧
      ∃ extra, (su.projection A c l).2.2.log = su.log ++ extra ∧
        (LogEntry.does_not_converge ∈ extra ↔
          ∀ j, 1 ≤ j → j ≤ su.m_max_iter →
            ¬ stops_at su.m_tol_l (gradient_seq su.projection_cone A c su.m_rho l) j)) ∧
    (((∀ j, 1 ≤ j → j ≤ sa.m_max_iter →
          ¬ stops_at sa.m_tol_l
            (fun i => (apgd_seq sqrt sa.projection_cone A c sa.m_rho l i).l) j) →
        (sa.projection sqrt A c l).1 = sa.m_max_iter) ∧
      ((sa.projection sqrt A c l).1 = sa.m_max_iter ↔
        ∀ j, 1 ≤ j → j < sa.m_max_iter →
          ¬ stops_at sa.m_tol_l
            (fun i => (apgd_seq sqrt sa.projection_cone A c sa.m_rho l i).l) j) ∧
      ∃ extra, (sa.projection sqrt A c l).2.2.log = sa.log ++ extra ∧
        (LogEntry.does_not_converge ∈ extra ↔
          ∀ j, 1 ≤ j → j ≤ sa.m_max_iter →
            ¬ stops_at sa.m_tol_l
              (fun i => (apgd_seq sqrt sa.projection_cone A c sa.m_rho l i).l) j)) := by
  refine ⟨⟨?_, ?_, ?_⟩, ⟨?_, ?_, ?_⟩⟩
  · exact fun hall => (uzawa_projection_exhausts su A c l hall).1
  · exact count_eq_max_iff _ _ _
      (fun k h1 h2 hs hf => (uzawa_projection_stops su A c l k h1 h2 hs hf).1)
      (fun hall => (uzawa_projection_exhausts su A c l hall).1)
  · obtain ⟨extra, hlog, hiff⟩ := uzawa_loop_log A c su.m_max_iter 0
      { su with log := su.log ++ [LogEntry.start] } l
    refine ⟨[LogEntry.start] ++ extra, ?_, ?_⟩
    · unfold uzawa.projection
      rw [hlog, List.append_assoc]
    · rw [← hiff]
      simp
  · exact fun hall => (apgd_projection_exhausts sqrt sa A c l hall).1
  · exact count_eq_max_iff _ _ _
      (fun k h1 h2 hs hf => (apgd_projection_stops sqrt sa A c l k h1 h2 hs hf).1)
      (fun hall => (apgd_projection_exhausts sqrt sa A c l hall).1)
  · obtain ⟨extra, hlog, hiff⟩ := apgd_loop_log sqrt A c sa.m_max_iter 0
      { sa with m_y := l, log := sa.log ++ [LogEntry.start] } l 1
    refine ⟨[LogEntry.start] ++ extra, ?_, ?_⟩
    · unfold apgd.projection
      rw [hlog, List.append_assoc]
    · simp only [apgd_seq_eq_from]
      rw [← hiff]
      simp

theorem store_all_spec (ws : List (Nat × ℚ)) :
    ∀ v : List ℚ, (∀ w ∈ ws, w.1 < v.length) →
      (∀ w ∈ ws, ∀ w' ∈ ws, w.1 = w'.1 → w.2 = w'.2) →
      ∃ v', store_all v ws = some v' ∧ v'.length = v.length ∧
        (∀ w ∈ ws, v'[w.1]? = some w.2) ∧
        (∀ k, (∀ w ∈ ws, w.1 ≠ k) → v'[k]? = v[k]?) := by
  induction ws with
  | nil =>
    intro v _ _
    exact ⟨v, rfl, rfl, fun w hw => absurd hw (List.not_mem_nil w), fun _ _ => rfl⟩
  | cons w ws ih =>
    intro v hb hf
    have hw : w.1 < v.length := hb w (List.mem_cons_self w ws)
    obtain ⟨v', h1, h2, h3, h4⟩ := ih (v.set w.1 w.2)
      (fun x hx => by rw [List.length_set]; exact hb x (List.mem_cons_of_mem w hx))
      (fun x hx y hy => hf x (List.mem_cons_of_mem w hx) y (List.mem_cons_of_mem w hy))
    refine ⟨v', ?_, ?_, ?_, ?_⟩
    · simp [store_all, store, hw, h1]
    · rw [h2, List.length_set]
    · intro x hx
      rcases List.mem_cons.1 hx with hxw | hxs
      · subst hxw
        by_cases hex : ∃ y ∈ ws, y.1 = x.1
        · obtain ⟨y, hy, hyx⟩ := hex
          rw [← hyx, h3 y hy,
            hf x (List.mem_cons_self x ws) y (List.mem_cons_of_mem x hy) hyx.symm]
        · rw [h4 x.1 (fun y hy hyx => hex ⟨y, hy, hyx⟩)]
          simp [hw]
      · exact h3 x hxs
    · intro k hk
      rw [h4 k (fun y hy => hk y (List.mem_cons_of_mem w hy))]
      exact List.getElem?_set_ne (hk w (List.mem_cons_self w ws))

theorem mem_create_vector_c_writes {Omega : Type} (dim : Nat) (get_omega : Omega → Vec3)
    (o : OptimBase) (particles : scopi_container_full Omega) (w : Nat × ℚ) :
    w ∈ create_vector_c_writes dim get_omega o particles ↔
      ∃ i, i < particles.nb_active ∧
        ((∃ d, d < dim ∧ w = (o.m_c_dec + 3 * i + d,
            -particles.m (particles.nb_inactive + i) * particles.vd (i + particles.nb_inactive) d))
          ∨ ∃ d : Fin 3, w = (o.m_c_dec + 3 * particles.nb_active + 3 * i + d,
            -get_omega (particles.j (particles.nb_inactive + i)) d
              * get_omega (particles.desired_omega (i + particles.nb_inactive)) d)) := by
  unfold create_vector_c_writes
  simp only [List.mem_flatMap, List.mem_range, List.mem_append, List.mem_map, range3]
  constructor
  · rintro ⟨i, hi, h | h⟩
    · obtain ⟨d, hd, rfl⟩ := h
      exact ⟨i, hi, Or.inl ⟨d, hd, rfl⟩⟩
    · obtain ⟨d, _, rfl⟩ := h
      exact ⟨i, hi, Or.inr ⟨d, rfl⟩⟩
  · rintro ⟨i, hi, h | h⟩
    · obtain ⟨d, hd, rfl⟩ := h
      exact ⟨i, hi, Or.inl ⟨d, hd, rfl⟩⟩
    · obtain ⟨d, rfl⟩ := h
      refine ⟨i, hi, Or.inr ⟨d, ?_, rfl⟩⟩
      fin_cases d <;> simp

/-- Claim C20.  Cost vector contents: after `create_vector_c` (with `dim <= 3`
and `m_c` of length at least `c_dec + 6 * nb_active`), for every active
particle `i < nb_active` (with `off = nb_inactive`) and `d < dim`,
`m_c[c_dec + 3*i + d] = -m[off + i] * vd[off + i][d]`, and for `d` in `0..2`,
`m_c[c_dec + 3*nb_active + 3*i + d] = -J[off + i][d] * omega_desired[off + i][d]`,
where `J` and `omega_desired` are the 3-component inertia and desired angular
velocity returned by `get_omega`. -/
theorem cost_vector_contents {Omega : Type} (dim : Nat) (get_omega : Omega → Vec3)
    (o : OptimBase) (particles : scopi_container_full Omega) (hdim : dim ≤ 3)
    (hlen : o.m_c_dec + 6 * particles.nb_active ≤ o.m_c.length) :
    ∃ o', create_vector_c dim get_omega o particles = some o' ∧
      ∀ i, i < particles.nb_active →
        (∀ d, d < dim →
          o'.m_c[o.m_c_dec + 3 * i + d]? =
            some (-particles.m (particles.nb_inactive + i)
              * particles.vd (particles.nb_inactive + i) d)) ∧
        (∀ d : Fin 3,
          o'.m_c[o.m_c_dec + 3 * particles.nb_active + 3 * i + d]? =
            some (-get_omega (particles.j (particles.nb_inactive + i)) d
              * get_omega (particles.desired_omega (particles.nb_inactive + i)) d)) := by
  have hb : ∀ w ∈ create_vector_c_writes dim get_omega o particles, w.1 < o.m_c.length := by
    intro w hw
    rw [mem_create_vector_c_writes] at hw
    obtain ⟨i, hi, ⟨d, hd, rfl⟩ | ⟨d, rfl⟩⟩ := hw
    · show o.m_c_dec + 3 * i + d < _
      omega
    · show o.m_c_dec + 3 * particles.nb_active + 3 * i + (d : Nat) < _
      have := d.isLt
      omega
  have hf : ∀ w ∈ create_vector_c_writes dim get_omega o particles,
      ∀ w' ∈ create_vector_c_writes dim get_omega o particles, w.1 = w'.1 → w.2 = w'.2 := by
    intro w hw w' hw' he
    rw [mem_create_vector_c_writes] at hw hw'
    obtain ⟨i, hi, ⟨d, hd, rfl⟩ | ⟨d, rfl⟩⟩ := hw <;>
      obtain ⟨i', hi', ⟨d', hd', rfl⟩ | ⟨d', rfl⟩⟩ := hw'
    · have he' : o.m_c_dec + 3 * i + d = o.m_c_dec + 3 * i' + d' := he
      have h1 : i = i' := by omega
      have h2 : d = d' := by omega
      subst h1 h2
      rfl
    · have he' : o.m_c_dec + 3 * i + d
          = o.m_c_dec + 3 * particles.nb_active + 3 * i' + (d' : Nat) := he
      omega
    · have he' : o.m_c_dec + 3 * particles.nb_active + 3 * i + (d : Nat)
          = o.m_c_dec + 3 * i' + d' := he
      omega
    · have he' : o.m_c_dec + 3 * particles.nb_active + 3 * i + (d : Nat)
          = o.m_c_dec + 3 * particles.nb_active + 3 * i' + (d' : Nat) := he
      have hd := d.isLt
      have hd' := d'.isLt
      have h1 : i = i' := by omega
      have h2 : d = d' := Fin.ext (by omega)
      subst h1 h2
      rfl
  obtain ⟨v', h1, _, h3, _⟩ := store_all_spec _ o.m_c hb hf
  refine ⟨{ o with m_c := v' }, by simp [create_vector_c, h1], ?_⟩
  intro i hi
  constructor
  · intro d hd
    have := h3 (o.m_c_dec + 3 * i + d,
        -particles.m (particles.nb_inactive + i) * particles.vd (i + particles.nb_inactive) d)
      ((mem_create_vector_c_writes dim get_omega o particles _).2 ⟨i, hi, Or.inl ⟨d, hd, rfl⟩⟩)
    rw [Nat.add_comm i] at this
    exact this
  · intro d
    have := h3 (o.m_c_dec + 3 * particles.nb_active + 3 * i + d,
        -get_omega (particles.j (particles.nb_inactive + i)) d
          * get_omega (particles.desired_omega (i + particles.nb_inactive)) d)
      ((mem_create_vector_c_writes dim get_omega o particles _).2 ⟨i, hi, Or.inr ⟨d, rfl⟩⟩)
    rw [Nat.add_comm i] at this
    exact this

/-- Claim C20 at the small configuration, dimension 3. -/
theorem cost_vector_contents_witness :
    (3 ≤ 3 ∧ demo_optim.m_c_dec + 6 * demo_particles_full.nb_active ≤ demo_optim.m_c.length) ∧
    ∃ o', create_vector_c 3 id demo_optim demo_particles_full = some o' ∧
      o'.m_c[demo_optim.m_c_dec + 3 * 1 + 2]? =
        some (-demo_particles_full.m (demo_particles_full.nb_inactive + 1)
          * demo_particles_full.vd (demo_particles_full.nb_inactive + 1) 2) ∧
      o'.m_c[demo_optim.m_c_dec + 3 * demo_particles_full.nb_active + 3 * 1 + ((2 : Fin 3) : Nat)]? =
        some (-id (demo_particles_full.j (demo_particles_full.nb_inactive + 1)) 2
          * id (demo_particles_full.desired_omega (demo_particles_full.nb_inactive + 1)) 2) := by
  have hlen : demo_optim.m_c_dec + 6 * demo_particles_full.nb_active ≤ demo_optim.m_c.length := by
    simp [demo_optim, OptimBase.init, demo_particles_full, demo_particles]
  obtain ⟨o', h1, h2⟩ := cost_vector_contents 3 id demo_optim demo_particles_full (le_refl 3) hlen
  have hact : 1 < demo_particles_full.nb_active := by
    simp [demo_particles_full, demo_particles]
  exact ⟨⟨le_refl 3, hlen⟩, o', h1, (h2 1 hact).1 2 (by decide), (h2 1 hact).2 2⟩

/-- Claim C11 at the free contact plane-sphere of the small configuration. -/
theorem normal_row_coefficients_witness :
    (demo_problem [0, -1]).m_gamma_min < -(demo_problem [0, -1]).m_tol ∧
    -(demo_problem [0, -1]).m_tol < (0 : ℚ) ∧
    contact_writes demo_helpers (demo_problem [0, -1]) demo_particles 2 0 0
        contact_plane_sphere 0 =
      normal_row_spec demo_helpers (demo_problem [0, -1]) demo_particles 0 0
        contact_plane_sphere :=
  have h1 : (demo_problem [0, -1]).m_gamma_min < -(demo_problem [0, -1]).m_tol := by
    show demo_init.m_gamma_min < -demo_init.m_tol
    rw [demo_tol, demo_gamma_min]; norm_num
  have h2 : -(demo_problem [0, -1]).m_tol < (0 : ℚ) := by
    show -demo_init.m_tol < 0
    rw [demo_tol]; norm_num
  ⟨h1, h2, normal_row_coefficients demo_helpers (demo_problem [0, -1]) demo_particles 2 0 0
    contact_plane_sphere 0 h1 h2⟩

section feasibility

variable {K : Type} [LinearOrderedField K] {n : Nat}

theorem projection_max_nonneg (x : Fin n → K) (i : Fin n) : 0 ≤ projection_max x i :=
  le_max_right _ _

theorem gradient_seq_nonneg (A : Matrix (Fin n) (Fin n) K) (c : Fin n → K) (rho : K)
    (l : Fin n → K) (k : Nat) (hk : 1 ≤ k) (i : Fin n) :
    0 ≤ gradient_seq projection_max A c rho l k i := by
  cases k with
  | zero => omega
  | succ k => exact projection_max_nonneg _ i

theorem apgd_seq_nonneg (sqrt : K → K) (A : Matrix (Fin n) (Fin n) K) (c : Fin n → K) (rho : K)
    (l : Fin n → K) (k : Nat) (hk : 1 ≤ k) (i : Fin n) :
    0 ≤ (apgd_seq sqrt projection_max A c rho l k).l i := by
  cases k with
  | zero => omega
  | succ k => exact projection_max_nonneg _ i

end feasibility

/-- Claim C22.  Dual feasibility of the solver output: with the frictionless
projection `Π(x) = max(x, 0)` elementwise and `max_iter >= 1`, every entry of
the `l` returned by `uzawa::projection` and by `apgd::projection` is `>= 0`, for
every `A`, `c`, `rho` and every initial `l`. -/
theorem dual_feasibility {K : Type} [LinearOrderedField K] {n : Nat} (sqrt : K → K)
    (su : uzawa K n) (sa : apgd K n) (A : Matrix (Fin n) (Fin n) K) (c l : Fin n → K)
    (hu : su.projection_cone = projection_max ∧ 1 ≤ su.m_max_iter)
    (ha : sa.projection_cone = projection_max ∧ 1 ≤ sa.m_max_iter) :
    (∀ i, 0 ≤ (su.projection A c l).2.1 i) ∧ (∀ i, 0 ≤ (sa.projection sqrt A c l).2.1 i) := by
  constructor
  · intro i
    rcases first_stop_or_none (stops_at su.m_tol_l
        (gradient_seq su.projection_cone A c su.m_rho l)) su.m_max_iter
      with hall | ⟨k, h1, h2, hs, hf⟩
    · rw [(uzawa_projection_exhausts su A c l hall).2, hu.1]
      exact gradient_seq_nonneg A c su.m_rho l _ hu.2 i
    · rw [(uzawa_projection_stops su A c l k h1 h2 hs hf).2, hu.1]
      exact gradient_seq_nonneg A c su.m_rho l _ h1 i
  · intro i
    rcases first_stop_or_none (stops_at sa.m_tol_l
        (fun j => (apgd_seq sqrt sa.projection_cone A c sa.m_rho l j).l)) sa.m_max_iter
      with hall | ⟨k, h1, h2, hs, hf⟩
    · rw [(apgd_projection_exhausts sqrt sa A c l hall).2.1, ha.1]
      exact apgd_seq_nonneg sqrt A c sa.m_rho l _ ha.2 i
    · rw [(apgd_projection_stops sqrt sa A c l k h1 h2 hs hf).2.1, ha.1]
      exact apgd_seq_nonneg sqrt A c sa.m_rho l _ h1 i

/-- Claim C22 at the one-row problem `A = 1`, `c = 0` with the negative initial
vector `l = -1`. -/
theorem dual_feasibility_witness :
    (demo_uzawa.projection_cone = projection_max ∧ 1 ≤ demo_uzawa.m_max_iter) ∧
    (demo_apgd.projection_cone = projection_max ∧ 1 ≤ demo_apgd.m_max_iter) ∧
    (∀ i, 0 ≤ (demo_uzawa.projection 1 0 (fun _ => -1)).2.1 i) ∧
    (∀ i, 0 ≤ (demo_apgd.projection demo_sqrt 1 0 (fun _ => -1)).2.1 i) :=
  ⟨⟨rfl, by decide⟩, ⟨rfl, by decide⟩,
    dual_feasibility demo_sqrt demo_uzawa demo_apgd 1 0 (fun _ => -1) ⟨rfl, by decide⟩
      ⟨rfl, by decide⟩⟩

/-- Claim C23.  Projection idempotence for the frictionless cone: with
`Π(x) = max(x, 0)` elementwise, `Π(Π(x)) = Π(x)` for every vector `x`, and
`Π(x) = x` exactly when every entry of `x` is `>= 0`. -/
theorem projection_max_idempotent {K : Type} [LinearOrderedField K] {n : Nat}
    (x : Fin n → K) :
    projection_max (projection_max x) = projection_max x ∧
    (projection_max x = x ↔ ∀ i, 0 ≤ x i) := by
  constructor
  · funext i
    exact max_eq_left (le_max_right _ _)
  · constructor
    · intro h i
      rw [← h]
      exact le_max_right _ _
    · intro h
      funext i
      exact max_eq_left (h i)

theorem f_contact_some (lambda : List ℚ) (d : Decode) (h1 : d.first < lambda.length)
    (h2 : ∀ k, d.second = some k → k < lambda.length) :
    ∃ f, f_contact lambda d = some f := by
  unfold f_contact
  cases hs : d.second with
  | none => simp [List.getElem?_eq_getElem h1]
  | some k => simp [List.getElem?_eq_getElem h1, List.getElem?_eq_getElem (h2 k hs)]

theorem decode_indices_lt (st : ViscousWithFriction) (i : Nat)
    (hneg : st.m_nb_gamma_neg = n_negative_gamma st.m_tol st.m_gamma_min st.m_gamma)
    (hbond : st.m_nb_gamma_min = n_bonded st.m_gamma_min st.m_gamma)
    (hge : ∀ g ∈ st.m_gamma, st.m_gamma_min ≤ g) (hlt : i < st.m_gamma.length) :
    (decode_indices st st.m_gamma[i] i
        (n_negative_gamma st.m_tol st.m_gamma_min (st.m_gamma.take i))
        (n_bonded st.m_gamma_min (st.m_gamma.take i))).first <
      st.m_gamma.length - st.m_nb_gamma_min + st.m_nb_gamma_neg + 2 * 4 * st.m_nb_gamma_min ∧
    ∀ k, (decode_indices st st.m_gamma[i] i
        (n_negative_gamma st.m_tol st.m_gamma_min (st.m_gamma.take i))
        (n_bonded st.m_gamma_min (st.m_gamma.take i))).second = some k →
      k < st.m_gamma.length - st.m_nb_gamma_min + st.m_nb_gamma_neg
        + 2 * 4 * st.m_nb_gamma_min := by
  have hg : st.m_gamma[i]? = some st.m_gamma[i] := List.getElem?_eq_getElem hlt
  have hgmin := hge _ (List.getElem?_mem hg)
  have t1 := n_negative_gamma_take_succ st.m_tol st.m_gamma_min _ st.m_gamma i hg
  have t2 := n_bonded_take_succ st.m_gamma_min _ st.m_gamma i hg
  have l1 := n_negative_gamma_take_le st.m_tol st.m_gamma_min st.m_gamma (i + 1)
  have l2 := n_bonded_take_le st.m_gamma_min st.m_gamma (i + 1)
  have l3 := counts_le_length st.m_tol st.m_gamma_min st.m_gamma
  unfold decode_indices
  by_cases hb : st.m_gamma[i] = st.m_gamma_min
  · rw [if_pos hb] at t2
    simp only [hb, ne_eq, not_true_eq_false, if_false, Option.some.injEq]
    constructor
    · omega
    · intro k hk; omega
  · by_cases hn : st.m_gamma[i] < -st.m_tol
    · have hlt2 : st.m_gamma_min < st.m_gamma[i] := lt_of_le_of_ne hgmin (Ne.symm hb)
      rw [if_pos ⟨hlt2, hn⟩] at t1
      simp only [ne_eq, hb, not_false_eq_true, if_true, hn, Option.some.injEq]
      constructor
      · omega
      · intro k hk; omega
    · simp only [ne_eq, hb, not_false_eq_true, if_true, hn, if_false]
      constructor
      · omega
      · intro k hk; exact Option.noConfusion hk

theorem update_gamma_loop_in_range (st : ViscousWithFriction) (lambda : List ℚ)
    (hneg : st.m_nb_gamma_neg = n_negative_gamma st.m_tol st.m_gamma_min st.m_gamma)
    (hbond : st.m_nb_gamma_min = n_bonded st.m_gamma_min st.m_gamma)
    (hge : ∀ g ∈ st.m_gamma, st.m_gamma_min ≤ g)
    (hR : st.m_gamma.length - st.m_nb_gamma_min + st.m_nb_gamma_neg
      + 2 * 4 * st.m_nb_gamma_min ≤ lambda.length) (n : Nat) :
    ∀ (i : Nat) (s : GammaLoop), i + n ≤ st.m_gamma.length →
      ∃ s', update_gamma_loop st lambda n i
          (n_negative_gamma st.m_tol st.m_gamma_min (st.m_gamma.take i))
          (n_bonded st.m_gamma_min (st.m_gamma.take i)) s = some s' ∧
        ∀ p ∈ s'.reads, p ∈ s.reads ∨
          (p.1.first < st.m_gamma.length - st.m_nb_gamma_min + st.m_nb_gamma_neg
              + 2 * 4 * st.m_nb_gamma_min ∧
            ∀ k, p.1.second = some k →
              k < st.m_gamma.length - st.m_nb_gamma_min + st.m_nb_gamma_neg
                + 2 * 4 * st.m_nb_gamma_min) := by
  induction n with
  | zero =>
    intro i s _
    exact ⟨s, rfl, fun p hp => Or.inl hp⟩
  | succ n ih =>
    intro i s hi
    have hlt : i < st.m_gamma.length := by omega
    have hg : st.m_gamma[i]? = some st.m_gamma[i] := List.getElem?_eq_getElem hlt
    have hgmin := hge _ (List.getElem?_mem hg)
    have t1 := n_negative_gamma_take_succ st.m_tol st.m_gamma_min _ st.m_gamma i hg
    have t2 := n_bonded_take_succ st.m_gamma_min _ st.m_gamma i hg
    have hd := decode_indices_lt st i hneg hbond hge hlt
    obtain ⟨f, hf⟩ := f_contact_some lambda _ (lt_of_lt_of_le hd.1 hR)
      (fun k hk => lt_of_lt_of_le (hd.2 k hk) hR)
    have c1 : (if st.m_gamma[i] ≠ st.m_gamma_min ∧ st.m_gamma[i] < -st.m_tol then
          n_negative_gamma st.m_tol st.m_gamma_min (st.m_gamma.take i) + 1
        else n_negative_gamma st.m_tol st.m_gamma_min (st.m_gamma.take i)) =
        n_negative_gamma st.m_tol st.m_gamma_min (st.m_gamma.take (i + 1)) := by
      rw [t1]
      by_cases hb : st.m_gamma[i] = st.m_gamma_min
      · have : ¬ (st.m_gamma_min < st.m_gamma[i] ∧ st.m_gamma[i] < -st.m_tol) :=
          fun h => (ne_of_gt h.1) hb
        simp [hb]
      · by_cases hn : st.m_gamma[i] < -st.m_tol
        · have hlt2 : st.m_gamma_min < st.m_gamma[i] := lt_of_le_of_ne hgmin (Ne.symm hb)
          simp [hb, hn, hlt2]
        · simp [hb, hn]
    have c2 : (if st.m_gamma[i] ≠ st.m_gamma_min then
          n_bonded st.m_gamma_min (st.m_gamma.take i)
        else n_bonded st.m_gamma_min (st.m_gamma.take i) + 1) =
        n_bonded st.m_gamma_min (st.m_gamma.take (i + 1)) := by
      rw [t2]
      by_cases hb : st.m_gamma[i] = st.m_gamma_min <;> simp [hb]
    obtain ⟨s', hs', hreads⟩ := ih (i + 1)
      { gamma_old := s.gamma_old.set i (gamma_update st st.m_gamma[i] f)
        reads := s.reads ++ [(decode_indices st st.m_gamma[i] i
          (n_negative_gamma st.m_tol st.m_gamma_min (st.m_gamma.take i))
          (n_bonded st.m_gamma_min (st.m_gamma.take i)), f)] } (by omega)
    refine ⟨s', ?_, ?_⟩
    · unfold update_gamma_loop
      simp only [hg, hf, c1, c2]
      exact hs'
    · intro p hp
      rcases hreads p hp with h1 | h1
      · simp only [List.mem_append, List.mem_singleton] at h1
        rcases h1 with h1 | h1
        · exact Or.inl h1
        · right
          subst h1
          exact hd
      · exact Or.inr h1

/-- Claim C26.  For a gamma vector with one entry per contact, every entry
`>= gamma_min`, and counts from `set_gamma`, `update_gamma_impl` called with a
`lambda` of length `number_row_matrix_impl(contacts)` runs to the end, reads the
multipliers of every contact, and every multiplier index it reads is smaller than
`number_row_matrix_impl(contacts)`. -/
theorem update_gamma_reads_in_range (st0 : ViscousWithFriction) (contacts : List neighbor)
    (gamma lambda : List ℚ) (hlen : gamma.length = contacts.length)
    (hge : ∀ g ∈ gamma, st0.m_gamma_min ≤ g)
    (hl : lambda.length = number_row_matrix_impl (set_gamma st0 gamma) contacts) :
    ∃ s, update_gamma_run (set_gamma st0 gamma) contacts lambda = some s ∧
      (update_gamma_impl (set_gamma st0 gamma) contacts lambda).isSome = true ∧
      s.reads.length = contacts.length ∧
      ∀ p ∈ s.reads,
        p.1.first < number_row_matrix_impl (set_gamma st0 gamma) contacts ∧
        ∀ k, p.1.second = some k →
          k < number_row_matrix_impl (set_gamma st0 gamma) contacts := by
  have hgam : (set_gamma st0 gamma).m_gamma = gamma := rfl
  have hrow : number_row_matrix_impl (set_gamma st0 gamma) contacts =
      (set_gamma st0 gamma).m_gamma.length - (set_gamma st0 gamma).m_nb_gamma_min
        + (set_gamma st0 gamma).m_nb_gamma_neg + 2 * 4 * (set_gamma st0 gamma).m_nb_gamma_min := by
    rw [hgam, hlen]; rfl
  have hz := update_gamma_loop_in_range (set_gamma st0 gamma) lambda
    (set_gamma_nb_gamma_neg st0 gamma) (set_gamma_nb_gamma_min st0 gamma) hge
    (by rw [hl, hrow]) contacts.length 0
    { gamma_old := resize (set_gamma st0 gamma).m_gamma_old (set_gamma st0 gamma).m_gamma.length
      reads := [] }
    (by rw [hgam]; omega)
  obtain ⟨s, hs, hreads⟩ := hz
  have hs' : update_gamma_run (set_gamma st0 gamma) contacts lambda = some s := by
    unfold update_gamma_run
    simpa [n_negative_gamma, n_bonded] using hs
  obtain ⟨_, e2, _, _, _⟩ := update_gamma_loop_spec (set_gamma st0 gamma) _ contacts.length
    0 0 0 _ s hs' (resize_length _ _)
  refine ⟨s, hs', by simp [update_gamma_impl, hs'], by simpa using e2, ?_⟩
  intro p hp
  rcases hreads p hp with h1 | h1
  · simp at h1
  · rw [hrow]
    exact h1

/-- Claim C26 at the small configuration, with a multiplier vector of length
3. -/
theorem update_gamma_reads_in_range_witness :
    ([0, -1] : List ℚ).length = demo_contacts.length ∧
    (∀ g ∈ ([0, -1] : List ℚ), demo_init.m_gamma_min ≤ g) ∧
    ([2, 5, 1] : List ℚ).length = number_row_matrix_impl (demo_problem [0, -1]) demo_contacts ∧
    ∃ s, update_gamma_run (demo_problem [0, -1]) demo_contacts [2, 5, 1] = some s ∧
      ∀ p ∈ s.reads,
        p.1.first < number_row_matrix_impl (demo_problem [0, -1]) demo_contacts ∧
        ∀ k, p.1.second = some k →
          k < number_row_matrix_impl (demo_problem [0, -1]) demo_contacts := by
  have hge : ∀ g ∈ ([0, -1] : List ℚ), demo_init.m_gamma_min ≤ g := by
    rw [demo_gamma_min]
    intro g hg
    simp only [List.mem_cons, List.mem_singleton, List.not_mem_nil, or_false] at hg
    rcases hg with h | h <;> rw [h] <;> norm_num
  have hrow : ([2, 5, 1] : List ℚ).length =
      number_row_matrix_impl (demo_problem [0, -1]) demo_contacts := by
    rw [demo_problem_free_negative]
    simp [number_row_matrix_impl, demo_contacts]
  obtain ⟨s, h1, _, _, h4⟩ := update_gamma_reads_in_range demo_init demo_contacts [0, -1]
    [2, 5, 1] rfl hge hrow
  exact ⟨rfl, hge, hrow, s, h1, h4⟩

theorem gamma_update_snap_mono (gamma_min tol v w : ℚ) (htol : 0 < tol)
    (hmin : gamma_min ≤ -tol) (hvw : v ≤ w) :
    (if (if v - gamma_min < tol then gamma_min else v) > -tol then 0
      else (if v - gamma_min < tol then gamma_min else v)) ≤
    (if (if w - gamma_min < tol then gamma_min else w) > -tol then 0
      else (if w - gamma_min < tol then gamma_min else w)) := by
  split_ifs <;> linarith

theorem gamma_update_antitone (st : ViscousWithFriction) (g f1 f2 : ℚ) (hdt : 0 ≤ st.m_dt)
    (htol : 0 < st.m_tol) (hmin : st.m_gamma_min ≤ -st.m_tol) (hf : f1 ≤ f2) :
    gamma_update st g f2 ≤ gamma_update st g f1 := by
  unfold gamma_update
  have h1 : g - st.m_dt * f2 ≤ g - st.m_dt * f1 := by
    have := mul_le_mul_of_nonneg_left hf hdt
    linarith
  exact gamma_update_snap_mono st.m_gamma_min st.m_tol _ _ htol hmin
    (max_le_max le_rfl (min_le_min le_rfl h1))

theorem gamma_update_bonded_stays (st : ViscousWithFriction) (f : ℚ) (hdt : 0 ≤ st.m_dt)
    (htol : 0 < st.m_tol) (hmin : st.m_gamma_min ≤ -st.m_tol) (hf : 0 ≤ f) :
    gamma_update st st.m_gamma_min f = st.m_gamma_min := by
  have h1 : st.m_gamma_min - st.m_dt * f ≤ st.m_gamma_min := by
    have := mul_nonneg hdt hf
    linarith
  have hv : max st.m_gamma_min (min 0 (st.m_gamma_min - st.m_dt * f)) = st.m_gamma_min :=
    max_eq_left (le_trans (min_le_right _ _) h1)
  unfold gamma_update
  simp only [hv]
  split_ifs <;> linarith

theorem gamma_update_free_stays (st : ViscousWithFriction) (f : ℚ) (hdt : 0 ≤ st.m_dt)
    (htol : 0 < st.m_tol) (hmin : st.m_gamma_min ≤ -st.m_tol) (hf : f ≤ 0) :
    gamma_update st 0 f = 0 := by
  have h1 : 0 ≤ 0 - st.m_dt * f := by
    have := mul_nonneg hdt (neg_nonneg.mpr hf)
    linarith
  have hv : max st.m_gamma_min (min 0 (0 - st.m_dt * f)) = 0 := by
    rw [min_eq_left h1, max_eq_right (by linarith)]
  unfold gamma_update
  simp only [hv]
  split_ifs <;> linarith

theorem demo_update_run_larger :
    update_gamma_run (demo_problem [0, -1]) demo_contacts [3, 6, 1] =
      some { gamma_old := [-3 / 100, -21 / 20]
             reads := [(⟨0, none⟩, 3), (⟨1, some 2⟩, 5)] } := by
  rw [demo_problem_free_negative]
  simp [update_gamma_run, update_gamma_loop, resize, decode_indices, f_contact, gamma_update,
    demo_init, demo_contacts, ViscousWithFriction.init]
  norm_num [max_def, min_def]

/-- Claim C29.  Monotone gamma update: for `dt >= 0`, `tol > 0` and
`gamma_min <= -tol`, two runs of `update_gamma_impl` on the same state with
multiplier vectors that decode to the contact forces `f1 <= f2` for contact `i`
produce `m_gamma_old[i]` values `x2 <= x1`; a bonded contact
(`gamma == gamma_min`) with `f_contact >= 0` stays at `gamma_min` and a contact at
`gamma = 0` with `f_contact <= 0` stays at `0`. -/
theorem monotone_gamma_update (st : ViscousWithFriction) (contacts : List neighbor)
    (lambda1 lambda2 : List ℚ) (s1 s2 : GammaLoop) (hdt : 0 ≤ st.m_dt) (htol : 0 < st.m_tol)
    (hmin : st.m_gamma_min ≤ -st.m_tol)
    (hrun1 : update_gamma_run st contacts lambda1 = some s1)
    (hrun2 : update_gamma_run st contacts lambda2 = some s2) :
    update_gamma_impl st contacts lambda1 =
        some { st with m_contacts_old := contacts, m_gamma_old := s1.gamma_old } ∧
    update_gamma_impl st contacts lambda2 =
        some { st with m_contacts_old := contacts, m_gamma_old := s2.gamma_old } ∧
    ∀ i, i < contacts.length →
      ∃ g d1 d2 f1 f2 x1 x2, st.m_gamma[i]? = some g ∧
        s1.reads[i]? = some (d1, f1) ∧ f_contact lambda1 d1 = some f1 ∧
        s2.reads[i]? = some (d2, f2) ∧ f_contact lambda2 d2 = some f2 ∧
        s1.gamma_old[i]? = some x1 ∧ s2.gamma_old[i]? = some x2 ∧
        (f1 ≤ f2 → x2 ≤ x1) ∧
        (g = st.m_gamma_min → 0 ≤ f1 → x1 = st.m_gamma_min) ∧
        (g = 0 → f1 ≤ 0 → x1 = 0) := by
  refine ⟨by simp [update_gamma_impl, hrun1], by simp [update_gamma_impl, hrun2], ?_⟩
  intro i hi
  obtain ⟨_, _, _, _, e5⟩ := update_gamma_loop_spec st lambda1 contacts.length 0 0 0 _ s1 hrun1
    (resize_length _ _)
  obtain ⟨_, _, _, _, e6⟩ := update_gamma_loop_spec st lambda2 contacts.length 0 0 0 _ s2 hrun2
    (resize_length _ _)
  obtain ⟨g, d1, f1, q1, q2, q3, q4⟩ := e5 i (Nat.zero_le i) (by omega)
  obtain ⟨g2, d2, f2, r1, r2, r3, r4⟩ := e6 i (Nat.zero_le i) (by omega)
  rw [q1] at r1
  simp only [Option.some.injEq] at r1
  subst r1
  simp only [List.length_nil, Nat.zero_add, Nat.sub_zero] at q2 r2
  refine ⟨g, d1, d2, f1, f2, _, _, q1, q2, q3, r2, r3, q4, r4, ?_, ?_, ?_⟩
  · exact gamma_update_antitone st g f1 f2 hdt htol hmin
  · intro hg hf
    rw [hg]
    exact gamma_update_bonded_stays st f1 hdt htol hmin hf
  · intro hg hf
    rw [hg]
    exact gamma_update_free_stays st f1 hdt htol hmin hf

/-- Claim C29 at the small configuration: raising the contact force of the
second contact from 4 to 5 lowers its new gamma from `-26/25` to `-21/20`. -/
theorem monotone_gamma_update_witness :
    0 ≤ (demo_problem [0, -1]).m_dt ∧ 0 < (demo_problem [0, -1]).m_tol ∧
    (demo_problem [0, -1]).m_gamma_min ≤ -(demo_problem [0, -1]).m_tol ∧
    ∃ g d1 d2 f1 f2 x1 x2, (demo_problem [0, -1]).m_gamma[1]? = some g ∧
      ([(⟨0, none⟩, 2), (⟨1, some 2⟩, 4)] : List (Decode × ℚ))[1]? = some (d1, f1) ∧
      f_contact [2, 5, 1] d1 = some f1 ∧
      ([(⟨0, none⟩, 3), (⟨1, some 2⟩, 5)] : List (Decode × ℚ))[1]? = some (d2, f2) ∧
      f_contact [3, 6, 1] d2 = some f2 ∧
      ([-1 / 50, -26 / 25] : List ℚ)[1]? = some x1 ∧
      ([-3 / 100, -21 / 20] : List ℚ)[1]? = some x2 ∧
      (f1 ≤ f2 → x2 ≤ x1) ∧
      (g = (demo_problem [0, -1]).m_gamma_min → 0 ≤ f1 →
        x1 = (demo_problem [0, -1]).m_gamma_min) ∧
      (g = 0 → f1 ≤ 0 → x1 = 0) := by
  have h0 : 0 ≤ (demo_problem [0, -1]).m_dt := by
    rw [demo_problem_free_negative]; norm_num [demo_init, ViscousWithFriction.init]
  have h1 : 0 < (demo_problem [0, -1]).m_tol := by
    show 0 < demo_init.m_tol
    rw [demo_tol]; norm_num
  have h2 : (demo_problem [0, -1]).m_gamma_min ≤ -(demo_problem [0, -1]).m_tol := by
    show demo_init.m_gamma_min ≤ -demo_init.m_tol
    rw [demo_tol, demo_gamma_min]; norm_num
  exact ⟨h0, h1, h2, (monotone_gamma_update (demo_problem [0, -1]) demo_contacts [2, 5, 1]
    [3, 6, 1] _ _ h0 h1 h2 demo_update_run demo_update_run_larger).2.2 1 (by decide)⟩

theorem coo_loop_frame (h : Helpers) (st : ViscousWithFriction) (particles : scopi_container)
    (size firstCol : Nat) (contacts_old : List neighbor) (gamma_old : List ℚ) :
    ∀ (cs : List neighbor) (ic : Nat),
      coo_loop h { st with m_contacts_old := contacts_old, m_gamma_old := gamma_old }
        particles size firstCol ic cs = coo_loop h st particles size firstCol ic cs := by
  intro cs
  induction cs with
  | nil => intro ic; rfl
  | cons c cs ih =>
    intro ic
    unfold coo_loop
    rw [ih (ic + 1)]
    rfl

/-- Claim C30.  Frame of `update_gamma_impl`: when it returns, `m_contacts_old`
is the contact list passed and `m_gamma_old` has the length of `m_gamma`; the
parameters, `m_gamma`, the two counters, the assembled triplets and
`m_distances` are unchanged, and so are the row count and the triplets that the
assembly writes for any contact list. -/
theorem update_gamma_frame (st st' : ViscousWithFriction) (contacts : List neighbor)
    (lambda : List ℚ) (hrun : update_gamma_impl st contacts lambda = some st') :
    st'.m_contacts_old = contacts ∧
    st'.m_gamma_old.length = st.m_gamma.length ∧
    st'.m_gamma = st.m_gamma ∧
    st'.m_nb_gamma_min = st.m_nb_gamma_min ∧
    st'.m_nb_gamma_neg = st.m_nb_gamma_neg ∧
    st'.m_A_rows = st.m_A_rows ∧ st'.m_A_cols = st.m_A_cols ∧
    st'.m_A_values = st.m_A_values ∧
    st'.m_distances = st.m_distances ∧
    st'.m_nparticles = st.m_nparticles ∧ st'.m_dt = st.m_dt ∧ st'.m_tol = st.m_tol ∧
    st'.m_gamma_min = st.m_gamma_min ∧ st'.m_mu = st.m_mu ∧
    (∀ cs, number_row_matrix_impl st' cs = number_row_matrix_impl st cs) ∧
    ∀ (h : Helpers) (particles : scopi_container) (cs : List neighbor) (firstCol : Nat),
      coo_writes h st' particles cs firstCol = coo_writes h st particles cs firstCol := by
  unfold update_gamma_impl at hrun
  cases hr : update_gamma_run st contacts lambda with
  | none => simp [hr] at hrun
  | some s =>
    simp only [hr, Option.some.injEq] at hrun
    subst hrun
    obtain ⟨e1, _⟩ := update_gamma_loop_spec st lambda contacts.length 0 0 0 _ s hr
      (resize_length _ _)
    refine ⟨rfl, ?_, rfl, rfl, rfl, rfl, rfl, rfl, rfl, rfl, rfl, rfl, rfl, rfl,
      fun _ => rfl, ?_⟩
    · show s.gamma_old.length = st.m_gamma.length
      rw [e1]
      exact resize_length _ _
    · intro h particles cs firstCol
      exact coo_loop_frame h st particles cs.length firstCol contacts s.gamma_old cs 0

/-- Claim C30 at the small configuration with the multipliers `[2, 5, 1]`. -/
theorem update_gamma_frame_witness :
    update_gamma_impl (demo_problem [0, -1]) demo_contacts [2, 5, 1] =
      some { demo_problem [0, -1] with
        m_contacts_old := demo_contacts, m_gamma_old := [-1 / 50, -26 / 25] } ∧
    ({ demo_problem [0, -1] with
        m_contacts_old := demo_contacts, m_gamma_old := [-1 / 50, -26 / 25] }
      : ViscousWithFriction).m_gamma = (demo_problem [0, -1]).m_gamma :=
  have hrun : update_gamma_impl (demo_problem [0, -1]) demo_contacts [2, 5, 1] =
      some { demo_problem [0, -1] with
        m_contacts_old := demo_contacts, m_gamma_old := [-1 / 50, -26 / 25] } := by
    simp [update_gamma_impl, demo_update_run]
  ⟨hrun, (update_gamma_frame _ _ demo_contacts [2, 5, 1] hrun).2.2.1⟩

theorem signed_pair_filter (ic row2 : Nat) (hne : ic ≠ row2) (first : List Triplet)
    (hrow : ∀ t ∈ first, t.row = ic) :
    (signed_pair row2 first).filter (fun t => decide (t.row = ic)) = first ∧
    (signed_pair row2 first).filter (fun t => decide (t.row = row2)) =
      first.map (fun t => ⟨row2, t.col, -t.value⟩) := by
  induction first with
  | nil => exact ⟨rfl, rfl⟩
  | cons t ts ih =>
    have ht : t.row = ic := hrow t (List.mem_cons_self _ _)
    obtain ⟨i1, i2⟩ := ih (fun u hu => hrow u (List.mem_cons_of_mem _ hu))
    have e : signed_pair row2 (t :: ts) =
        t :: ⟨row2, t.col, -t.value⟩ :: signed_pair row2 ts := by
      simp [signed_pair]
    have hne1 : ¬ row2 = ic := fun h => hne h.symm
    have hne2 : ¬ t.row = row2 := by rw [ht]; exact hne
    rw [e]
    constructor
    · rw [List.filter_cons_of_pos (by simpa using ht),
        List.filter_cons_of_neg (by simpa using hne1), i1]
    · rw [List.filter_cons_of_neg (by simpa using hne2),
        List.filter_cons_of_pos (by simp), i2]
      rfl

theorem writes_negative_signed_pair (h : Helpers) (st : ViscousWithFriction)
    (particles : scopi_container) (size firstCol ic : Nat) (c : neighbor) (g : ℚ)
    (hg : g < -st.m_tol) :
    writes_not_bonded h st particles size firstCol ic c g =
      signed_pair (size - st.m_nb_gamma_min + ic)
        (writes_not_bonded h st particles size firstCol ic c (-st.m_tol)) := by
  unfold writes_not_bonded signed_pair
  by_cases hi : particles.nb_inactive ≤ c.i <;> by_cases hj : particles.nb_inactive ≤ c.j <;>
    simp [hg, hi, hj, range3]

theorem rows_free_first (h : Helpers) (st : ViscousWithFriction)
    (particles : scopi_container) (size firstCol ic : Nat) (c : neighbor) :
    ∀ t ∈ writes_not_bonded h st particles size firstCol ic c (-st.m_tol), t.row = ic := by
  intro t ht
  by_cases hact : particles.nb_inactive ≤ c.i ∨ particles.nb_inactive ≤ c.j
  · have hm : t.row ∈ rows_written
        (writes_not_bonded h st particles size firstCol ic c (-st.m_tol)) := by
      unfold rows_written
      rw [List.mem_toFinset]
      exact List.mem_map_of_mem _ ht
    rw [mem_rows_not_bonded h st particles size firstCol ic c _ hact] at hm
    rcases hm with hm | ⟨hm, _⟩
    · exact hm
    · exact absurd hm (lt_irrefl _)
  · rw [not_or] at hact
    unfold writes_not_bonded at ht
    simp [hact.1, hact.2] at ht

theorem n_bonded_lt_length (gamma_min g : ℚ) (gamma : List ℚ) (k : Nat)
    (hk : gamma[k]? = some g) (hg : g ≠ gamma_min) : n_bonded gamma_min gamma < gamma.length := by
  unfold n_bonded
  refine lt_of_le_of_ne (List.countP_le_length _) ?_
  intro he
  have hall := List.countP_eq_length.mp he g (List.getElem?_mem hk)
  exact hg (of_decide_eq_true hall)

theorem demo_problem_one_free :
    set_gamma demo_init [0] =
      { demo_init with m_gamma := [0], m_nb_gamma_neg := 0, m_nb_gamma_min := 0 } := by
  simp [demo_init, set_gamma, set_gamma_step, ViscousWithFriction.init]
  norm_num

theorem store_front_none {α : Type} (v ws : List α) (hlt : v.length < ws.length) :
    store_front v ws = none := by
  unfold store_front
  rw [if_neg (by omega)]

theorem length_writes_free_both_active (h : Helpers) (st : ViscousWithFriction)
    (particles : scopi_container) (size firstCol ic : Nat) (c : neighbor) (g : ℚ)
    (hi : particles.nb_inactive ≤ c.i) (hj : particles.nb_inactive ≤ c.j)
    (hne : g ≠ st.m_gamma_min) (hg : ¬ g < -st.m_tol) :
    (contact_writes h st particles size firstCol ic c g).length = 12 := by
  unfold contact_writes
  rw [if_pos hne]
  unfold writes_not_bonded
  simp [hi, hj, hg, range3]

/-- Claim C24, evaluated at one free contact between two active particles
(`gamma = 0`, sphere-sphere contact of the small configuration).  The loop of
`create_matrix_constraint_coo_impl` writes 12 triplets, while
`number_row_matrix_impl` is 1 and the three buffers are resized to 6 entries:
the writes at the positions 6 to 11 fall behind the end of the buffers. -/
theorem triplet_buffer_too_small_both_active :
    (demo_particles.nb_inactive ≤ contact_sphere_sphere.i ∧
      demo_particles.nb_inactive ≤ contact_sphere_sphere.j) ∧
    (coo_writes demo_helpers (set_gamma demo_init [0]) demo_particles
      [contact_sphere_sphere] 0).map List.length = some 12 ∧
    6 * number_row_matrix_impl (set_gamma demo_init [0]) [contact_sphere_sphere] = 6 ∧
    (create_matrix_constraint_coo_impl demo_helpers (set_gamma demo_init [0]) demo_particles
      [contact_sphere_sphere] 0).isNone = true := by
  have hw : coo_writes demo_helpers (set_gamma demo_init [0]) demo_particles
      [contact_sphere_sphere] 0 =
      some (contact_writes demo_helpers (set_gamma demo_init [0]) demo_particles 1 0 0
        contact_sphere_sphere 0) := by
    simp [coo_writes, coo_loop, set_gamma]
  have hl : (contact_writes demo_helpers (set_gamma demo_init [0]) demo_particles 1 0 0
      contact_sphere_sphere 0).length = 12 :=
    length_writes_free_both_active _ _ _ _ _ _ _ _ (by decide) (by decide)
      (by rw [demo_problem_one_free]; norm_num [demo_init, ViscousWithFriction.init])
      (by rw [demo_problem_one_free]; norm_num [demo_init, ViscousWithFriction.init])
  have hr : number_row_matrix_impl (set_gamma demo_init [0]) [contact_sphere_sphere] = 1 := by
    rw [demo_problem_one_free]
    rfl
  refine ⟨⟨by decide, by decide⟩, by rw [hw, Option.map_some', hl], by rw [hr], ?_⟩
  have e1 : store_front (resize (set_gamma demo_init [0]).m_A_rows (6 * 1))
      ((contact_writes demo_helpers (set_gamma demo_init [0]) demo_particles 1 0 0
        contact_sphere_sphere 0).map Triplet.row) = none :=
    store_front_none _ _ (by rw [resize_length, List.length_map, hl]; decide)
  unfold create_matrix_constraint_coo_impl
  simp only [hw, hr, e1]
  rfl

/-- Claim C25, evaluated at a mixed list.  For the contacts plane-sphere (free,
`gamma = 0`) and sphere-sphere (negative gamma, `gamma = -1`), with the counts of
`set_gamma`, `m_distances` has length `number_row_matrix_impl(contacts) = 3`,
while `create_vector_distances_impl` writes `-dij` of the second contact at
index 3. -/
theorem distances_index_out_of_range_free_then_negative :
    (∀ g ∈ ([0, -1] : List ℚ), (demo_problem [0, -1]).m_gamma_min ≤ g ∧ g ≤ 0) ∧
    number_row_matrix_impl (demo_problem [0, -1]) demo_contacts = 3 ∧
    distances_writes (demo_problem [0, -1]) demo_contacts =
      some [[(0, contact_plane_sphere.dij)],
            [(1, contact_sphere_sphere.dij), (3, -contact_sphere_sphere.dij)]] ∧
    (create_vector_distances_impl (demo_problem [0, -1]) demo_contacts).isNone = true := by
  have hw : distances_writes (demo_problem [0, -1]) demo_contacts =
      some [[(0, contact_plane_sphere.dij)],
            [(1, contact_sphere_sphere.dij), (3, -contact_sphere_sphere.dij)]] := by
    rw [demo_problem_free_negative]
    simp [distances_writes, distances_loop, distance_writes, demo_contacts, demo_init,
      ViscousWithFriction.init]
    norm_num
  refine ⟨?_, ?_, hw, ?_⟩
  · rw [demo_problem_free_negative]
    norm_num [demo_init, ViscousWithFriction.init]
  · rw [demo_problem_free_negative]
    simp [number_row_matrix_impl, demo_contacts]
  · unfold create_vector_distances_impl
    rw [hw]
    rw [demo_problem_free_negative]
    simp [store_all, store, demo_contacts]

theorem create_vector_c_some {Omega : Type} (dim : Nat) (get_omega : Omega → Vec3)
    (o : OptimBase) (particles : scopi_container_full Omega) (hdim : dim ≤ 3)
    (hlen : o.m_c_dec + 6 * particles.nb_active ≤ o.m_c.length) :
    ∃ v', store_all o.m_c (create_vector_c_writes dim get_omega o particles) = some v' ∧
      create_vector_c dim get_omega o particles = some { o with m_c := v' } ∧
      v'.length = o.m_c.length ∧
      (∀ w ∈ create_vector_c_writes dim get_omega o particles, v'[w.1]? = some w.2) ∧
      (∀ k, (∀ w ∈ create_vector_c_writes dim get_omega o particles, w.1 ≠ k) →
        v'[k]? = o.m_c[k]?) := by
  have hb : ∀ w ∈ create_vector_c_writes dim get_omega o particles, w.1 < o.m_c.length := by
    intro w hw
    rw [mem_create_vector_c_writes] at hw
    obtain ⟨i, hi, ⟨d, hd, rfl⟩ | ⟨d, rfl⟩⟩ := hw
    · show o.m_c_dec + 3 * i + d < _
      omega
    · show o.m_c_dec + 3 * particles.nb_active + 3 * i + (d : Nat) < _
      have := d.isLt
      omega
  have hf : ∀ w ∈ create_vector_c_writes dim get_omega o particles,
      ∀ w' ∈ create_vector_c_writes dim get_omega o particles, w.1 = w'.1 → w.2 = w'.2 := by
    intro w hw w' hw' he
    rw [mem_create_vector_c_writes] at hw hw'
    obtain ⟨i, hi, ⟨d, hd, rfl⟩ | ⟨d, rfl⟩⟩ := hw <;>
      obtain ⟨i', hi', ⟨d', hd', rfl⟩ | ⟨d', rfl⟩⟩ := hw'
    · have he' : o.m_c_dec + 3 * i + d = o.m_c_dec + 3 * i' + d' := he
      have h1 : i = i' := by omega
      have h2 : d = d' := by omega
      subst h1 h2
      rfl
    · have he' : o.m_c_dec + 3 * i + d
          = o.m_c_dec + 3 * particles.nb_active + 3 * i' + (d' : Nat) := he
      omega
    · have he' : o.m_c_dec + 3 * particles.nb_active + 3 * i + (d : Nat)
          = o.m_c_dec + 3 * i' + d' := he
      omega
    · have he' : o.m_c_dec + 3 * particles.nb_active + 3 * i + (d : Nat)
          = o.m_c_dec + 3 * particles.nb_active + 3 * i' + (d' : Nat) := he
      have hd := d.isLt
      have hd' := d'.isLt
      have h1 : i = i' := by omega
      have h2 : d = d' := Fin.ext (by omega)
      subst h1 h2
      rfl
  obtain ⟨v', h1, h2, h3, h4⟩ := store_all_spec _ o.m_c hb hf
  exact ⟨v', h1, by simp [create_vector_c, h1], h2, h3, h4⟩

theorem demo_create_vector_c :
    ∃ v', create_vector_c 3 id demo_optim demo_particles_full =
      some { demo_optim with m_c := v' } := by
  obtain ⟨v', _, h, _⟩ := create_vector_c_some 3 id demo_optim demo_particles_full (le_refl 3)
    (by simp [demo_optim, OptimBase.init, demo_particles_full, demo_particles])
  exact ⟨v', h⟩

theorem demo_distances_no_contact :
    create_vector_distances_impl (set_gamma demo_init []) [] =
      some { set_gamma demo_init [] with m_distances := [] } := by
  simp [create_vector_distances_impl, distances_writes, distances_loop, store_all, set_gamma]

theorem run_eq {Omega P D : Type} (ops : OptimOps Omega P D) (dim : Nat)
    (get_omega : Omega → Vec3) (o o1 : OptimBase) (problem p1 : P) (derived : D)
    (particles : scopi_container_full Omega) (contacts : List neighbor)
    (hc : create_vector_c dim get_omega o particles = some o1)
    (hd : ops.create_vector_distances problem contacts = some p1) :
    OptimBase.run ops dim get_omega o problem derived particles contacts =
      some { base := o1
             problem := (ops.solve_optimization_problem_impl o1 p1 derived particles contacts).1
             derived := (ops.solve_optimization_problem_impl o1 p1 derived particles contacts).2.1
             log := [RunLog.cputime_vectors,
               RunLog.iterations
                 (ops.solve_optimization_problem_impl o1 p1 derived particles contacts).2.2,
               RunLog.contacts contacts.length (ops.get_nb_active_contacts_impl
                 (ops.solve_optimization_problem_impl o1 p1 derived particles contacts).2.1)] } := by
  unfold OptimBase.run
  rw [hc]
  simp only [hd]
  rfl

/-- Claim C21, refuted at zero contacts.  With a problem whose `should_solve()`
is false and an empty contact list, `OptimBase::run` still invokes the derived
solver: the solver has been called once and 7 iterations are logged. -/
theorem run_solves_when_should_solve_false :
    OptimBase.should_solve demo_ops (set_gamma demo_init []) = false ∧
    (OptimBase.run demo_ops 3 id demo_optim (set_gamma demo_init []) 0
        demo_particles_full []).map (fun r => (r.derived, r.log)) =
      some (1, [RunLog.cputime_vectors, RunLog.iterations 7, RunLog.contacts 0 0]) := by
  obtain ⟨v', hv⟩ := demo_create_vector_c
  refine ⟨rfl, ?_⟩
  rw [run_eq demo_ops 3 id demo_optim _ (set_gamma demo_init []) _ 0
    demo_particles_full [] hv demo_distances_no_contact]
  rfl

/-- Claim C21, amended.  `OptimBase::run` does not consult `should_solve()`:
whenever `create_vector_c` and `create_vector_distances` succeed, it invokes
`solve_optimization_problem` once and returns the problem and solver states and
the iteration count of that call, and the result is the same for every
`should_solve` of the problem. -/
theorem run_always_solves {Omega P D : Type} (ops : OptimOps Omega P D) (dim : Nat)
    (get_omega : Omega → Vec3) (o o1 : OptimBase) (problem p1 : P) (derived : D)
    (particles : scopi_container_full Omega) (contacts : List neighbor)
    (hc : create_vector_c dim get_omega o particles = some o1)
    (hd : ops.create_vector_distances problem contacts = some p1) :
    OptimBase.run ops dim get_omega o problem derived particles contacts =
      some { base := o1
             problem := (ops.solve_optimization_problem_impl o1 p1 derived particles contacts).1
             derived := (ops.solve_optimization_problem_impl o1 p1 derived particles contacts).2.1
             log := [RunLog.cputime_vectors,
               RunLog.iterations
                 (ops.solve_optimization_problem_impl o1 p1 derived particles contacts).2.2,
               RunLog.contacts contacts.length (ops.get_nb_active_contacts_impl
                 (ops.solve_optimization_problem_impl o1 p1 derived particles contacts).2.1)] } ∧
    ∀ f : P → Bool,
      OptimBase.run { ops with should_solve := f } dim get_omega o problem derived particles
          contacts =
        OptimBase.run ops dim get_omega o problem derived particles contacts :=
  ⟨run_eq ops dim get_omega o o1 problem p1 derived particles contacts hc hd, fun _ => rfl⟩

/-- Claim C21, amended, at zero contacts with two active particles: the result of
`run` is the same when `should_solve()` is true. -/
theorem run_always_solves_witness :
    ∃ o1, create_vector_c 3 id demo_optim demo_particles_full = some o1 ∧
      demo_ops.create_vector_distances (set_gamma demo_init []) [] =
        some { set_gamma demo_init [] with m_distances := [] } ∧
      OptimBase.run { demo_ops with should_solve := fun _ => true } 3 id demo_optim
          (set_gamma demo_init []) 0 demo_particles_full [] =
        OptimBase.run demo_ops 3 id demo_optim (set_gamma demo_init []) 0
          demo_particles_full [] := by
  obtain ⟨v', hv⟩ := demo_create_vector_c
  exact ⟨_, hv, demo_distances_no_contact,
    (run_always_solves demo_ops 3 id demo_optim _ (set_gamma demo_init []) _ 0
      demo_particles_full [] hv demo_distances_no_contact).2 (fun _ => true)⟩

section fixed_points

variable {K : Type} [LinearOrderedField K] {n : Nat}

theorem foldl_max_zero (xs : List K) (h : ∀ a ∈ xs, a = 0) : xs.foldl max 0 = 0 := by
  induction xs with
  | nil => rfl
  | cons a as ih =>
    rw [List.foldl_cons, h a (List.mem_cons_self _ _), max_self]
    exact ih (fun b hb => h b (List.mem_cons_of_mem _ hb))

theorem amax_abs_zero : amax_abs (0 : Fin n → K) = 0 := by
  unfold amax_abs
  apply foldl_max_zero
  intro a ha
  rw [List.mem_ofFn] at ha
  obtain ⟨i, rfl⟩ := ha
  simp

theorem relative_change_self (l : Fin n → K) : relative_change l l = 0 := by
  unfold relative_change
  rw [sub_self, amax_abs_zero, zero_div]

theorem apgd_seq_one_l (sqrt : K → K) (proj : (Fin n → K) → (Fin n → K))
    (A : Matrix (Fin n) (Fin n) K) (c : Fin n → K) (rho : K) (l : Fin n → K) :
    (apgd_seq sqrt proj A c rho l 1).l = gradient_step proj A c rho l := rfl

end fixed_points

/-- Claim C31.  Fixed points are returned at once: if the initial `l` satisfies
`l = Π(l - rho*(A*l + c))`, `tol_l > 0` and `max_iter >= 1`, then
`uzawa::projection` and `apgd::projection` both return 1 and leave `l` equal to
the initial `l`. -/
theorem fixed_point_returned_at_once {K : Type} [LinearOrderedField K] {n : Nat}
    (sqrt : K → K) (su : uzawa K n) (sa : apgd K n) (A : Matrix (Fin n) (Fin n) K)
    (c l : Fin n → K)
    (hu : gradient_step su.projection_cone A c su.m_rho l = l ∧ 0 < su.m_tol_l ∧
      1 ≤ su.m_max_iter)
    (ha : gradient_step sa.projection_cone A c sa.m_rho l = l ∧ 0 < sa.m_tol_l ∧
      1 ≤ sa.m_max_iter) :
    ((su.projection A c l).1 = 1 ∧ (su.projection A c l).2.1 = l) ∧
    ((sa.projection sqrt A c l).1 = 1 ∧ (sa.projection sqrt A c l).2.1 = l) := by
  constructor
  · have hs : stops_at su.m_tol_l (gradient_seq su.projection_cone A c su.m_rho l) 1 := by
      show relative_change l (gradient_step su.projection_cone A c su.m_rho l) < su.m_tol_l
      rw [hu.1, relative_change_self]
      exact hu.2.1
    obtain ⟨e1, e2⟩ := uzawa_projection_stops su A c l 1 (le_refl 1) hu.2.2 hs
      (fun j h1 h2 => by omega)
    refine ⟨e1, ?_⟩
    rw [e2]
    exact hu.1
  · have hs : stops_at sa.m_tol_l
        (fun i => (apgd_seq sqrt sa.projection_cone A c sa.m_rho l i).l) 1 := by
      show relative_change l (gradient_step sa.projection_cone A c sa.m_rho l) < sa.m_tol_l
      rw [ha.1, relative_change_self]
      exact ha.2.1
    obtain ⟨e1, e2, _⟩ := apgd_projection_stops sqrt sa A c l 1 (le_refl 1) ha.2.2 hs
      (fun j h1 h2 => by omega)
    refine ⟨e1, ?_⟩
    rw [e2, apgd_seq_one_l]
    exact ha.1

/-- Claim C31 at the one-row problem `A = 1`, `c = -1` with the fixed point
`l = 1` of the frictionless projection. -/
theorem fixed_point_returned_at_once_witness :
    (gradient_step demo_uzawa.projection_cone 1 (fun _ => -1) demo_uzawa.m_rho
        (fun _ => (1 : ℚ)) = (fun _ : Fin 1 => (1 : ℚ)) ∧
      0 < demo_uzawa.m_tol_l ∧ 1 ≤ demo_uzawa.m_max_iter) ∧
    (gradient_step demo_apgd.projection_cone 1 (fun _ => -1) demo_apgd.m_rho
        (fun _ => (1 : ℚ)) = (fun _ : Fin 1 => (1 : ℚ)) ∧
      0 < demo_apgd.m_tol_l ∧ 1 ≤ demo_apgd.m_max_iter) ∧
    ((demo_uzawa.projection 1 (fun _ => -1) (fun _ => 1)).1 = 1 ∧
      (demo_uzawa.projection 1 (fun _ => -1) (fun _ => 1)).2.1 = fun _ => 1) ∧
    ((demo_apgd.projection demo_sqrt 1 (fun _ => -1) (fun _ => 1)).1 = 1 ∧
      (demo_apgd.projection demo_sqrt 1 (fun _ => -1) (fun _ => 1)).2.1 = fun _ => 1) := by
  have hfix : ∀ rho : ℚ, gradient_step projection_max 1 (fun _ => -1) rho
      (fun _ => (1 : ℚ)) = (fun _ : Fin 1 => (1 : ℚ)) := by
    intro rho
    funext i
    simp [gradient_step, projection_max]
  have hu : gradient_step demo_uzawa.projection_cone 1 (fun _ => -1) demo_uzawa.m_rho
        (fun _ => (1 : ℚ)) = (fun _ : Fin 1 => (1 : ℚ)) ∧
      0 < demo_uzawa.m_tol_l ∧ 1 ≤ demo_uzawa.m_max_iter :=
    ⟨hfix _, by norm_num [demo_uzawa], by decide⟩
  have ha : gradient_step demo_apgd.projection_cone 1 (fun _ => -1) demo_apgd.m_rho
        (fun _ => (1 : ℚ)) = (fun _ : Fin 1 => (1 : ℚ)) ∧
      0 < demo_apgd.m_tol_l ∧ 1 ≤ demo_apgd.m_max_iter :=
    ⟨hfix _, by norm_num [demo_apgd], by decide⟩
  exact ⟨hu, ha, fixed_point_returned_at_once demo_sqrt demo_uzawa demo_apgd 1 (fun _ => -1)
    (fun _ => 1) hu ha⟩

theorem max_sub_eq_iff_complementarity {K : Type} [LinearOrderedField K] (a g rho : K)
    (hrho : 0 < rho) : max (a - rho * g) 0 = a ↔ 0 ≤ a ∧ 0 ≤ g ∧ a * g = 0 := by
  constructor
  · intro h
    have ha : 0 ≤ a := by
      have := le_max_right (a - rho * g) 0
      rw [h] at this
      exact this
    have h1 : a - rho * g ≤ a := by
      have := le_max_left (a - rho * g) 0
      rw [h] at this
      exact this
    have hg : 0 ≤ g := by
      by_contra hn
      have : rho * g < 0 := mul_neg_of_pos_of_neg hrho (not_le.mp hn)
      linarith
    refine ⟨ha, hg, ?_⟩
    rcases max_choice (a - rho * g) 0 with h2 | h2
    · rw [h2] at h
      have h3 : rho * g = 0 := by linarith
      rcases mul_eq_zero.mp h3 with h4 | h4
      · exact absurd h4 (ne_of_gt hrho)
      · rw [h4, mul_zero]
    · rw [h2] at h
      rw [← h, zero_mul]
  · rintro ⟨ha, hg, h⟩
    rcases mul_eq_zero.mp h with h1 | h1
    · rw [h1, zero_sub]
      exact max_eq_right (by have := mul_nonneg hrho.le hg; linarith)
    · rw [h1, mul_zero, sub_zero]
      exact max_eq_left ha

/-- Claim C32.  A fixed point of the Uzawa map solves the contact
complementarity problem: for `rho > 0` and the frictionless projection
`max(x, 0)`, one pass of the loop body of `uzawa::projection` leaves `l`
unchanged, that is `l = max(l - rho*(A*l + c), 0)`, if and only if `l >= 0`,
`A*l + c >= 0` and `l[i]*(A*l + c)[i] = 0` for every row `i`. -/
theorem fixed_point_iff_complementarity {K : Type} [LinearOrderedField K] {n : Nat}
    (s : uzawa K n) (A : Matrix (Fin n) (Fin n) K) (c l : Fin n → K)
    (h : s.projection_cone = projection_max ∧ 0 < s.m_rho) :
    ((s.body A c l).l = l ↔ l = projection_max (l - s.m_rho • (A.mulVec l + c))) ∧
    ((s.body A c l).l = l ↔
      (∀ i, 0 ≤ l i) ∧ (∀ i, 0 ≤ (A.mulVec l + c) i) ∧ ∀ i, l i * (A.mulVec l + c) i = 0) := by
  have e : (s.body A c l).l = projection_max (l - s.m_rho • (A.mulVec l + c)) := by
    rw [uzawa_body_l, h.1]
    rfl
  have hp : ∀ i, projection_max (l - s.m_rho • (A.mulVec l + c)) i =
      max (l i - s.m_rho * (A.mulVec l + c) i) 0 := fun i => rfl
  refine ⟨by rw [e]; exact eq_comm, ?_⟩
  rw [e]
  constructor
  · intro hfix
    have hi : ∀ i, 0 ≤ l i ∧ 0 ≤ (A.mulVec l + c) i ∧ l i * (A.mulVec l + c) i = 0 := by
      intro i
      refine (max_sub_eq_iff_complementarity _ _ _ h.2).mp ?_
      rw [← hp i, hfix]
    exact ⟨fun i => (hi i).1, fun i => (hi i).2.1, fun i => (hi i).2.2⟩
  · rintro ⟨h1, h2, h3⟩
    funext i
    rw [hp i]
    exact (max_sub_eq_iff_complementarity _ _ _ h.2).mpr ⟨h1 i, h2 i, h3 i⟩

/-- Claim C32 at the one-row problem `A = 1`, `c = -1`, `l = 1`: `l >= 0`, the
residual `A*l + c` is `0`, and one pass of the loop body returns `l`. -/
theorem fixed_point_iff_complementarity_witness :
    (demo_uzawa.projection_cone = projection_max ∧ 0 < demo_uzawa.m_rho) ∧
    (demo_uzawa.body 1 (fun _ => -1) (fun _ => 1)).l = (fun _ => 1) := by
  have h : demo_uzawa.projection_cone = projection_max ∧ 0 < demo_uzawa.m_rho :=
    ⟨rfl, by norm_num [demo_uzawa]⟩
  refine ⟨h, (fixed_point_iff_complementarity demo_uzawa 1 (fun _ => -1) (fun _ => 1) h).2.mpr
    ⟨?_, ?_, ?_⟩⟩
  · intro i
    norm_num
  · intro i
    simp
  · intro i
    simp

/-- Claim C34.  The first APGD iteration is a plain projected-gradient step:
with `theta_old = 1` the numerator of `beta` is `0` (the denominator
`theta_old^2 + theta` being non-zero), so the first pass of the loop of
`apgd::projection` produces `l_1 = Π(l_0 - rho*(A*l_0 + c))` and `m_y = l_1`,
the `l_1` of one pass of the loop of `uzawa::projection` with the same
projection and `rho`; with `max_iter = 1` both solvers return the count 1 and
the same `l`. -/
theorem first_apgd_iteration_is_gradient_step {K : Type} [LinearOrderedField K] {n : Nat}
    (sqrt : K → K) (sa : apgd K n) (su : uzawa K n) (A : Matrix (Fin n) (Fin n) K)
    (c l : Fin n → K)
    (hden : (1 : K) * 1 + 1 / 2 * (1 * sqrt (4 + 1 * 1) - 1 * 1) ≠ 0)
    (hsame : sa.projection_cone = su.projection_cone ∧ sa.m_rho = su.m_rho) :
    (({ sa with m_y := l, log := sa.log ++ [LogEntry.start] } : apgd K n).body sqrt A c l 1).l =
      sa.projection_cone (l - sa.m_rho • (A.mulVec l + c)) ∧
    (({ sa with m_y := l, log := sa.log ++ [LogEntry.start] } : apgd K n).body sqrt A c l
        1).self.m_y =
      (({ sa with m_y := l, log := sa.log ++ [LogEntry.start] } : apgd K n).body sqrt A c l
        1).l ∧
    (({ sa with m_y := l, log := sa.log ++ [LogEntry.start] } : apgd K n).body sqrt A c l 1).l =
      (su.body A c l).l ∧
    (sa.m_max_iter = 1 → su.m_max_iter = 1 →
      (sa.projection sqrt A c l).1 = 1 ∧ (su.projection A c l).1 = 1 ∧
      (sa.projection sqrt A c l).2.1 = (su.projection A c l).2.1) := by
  have hbeta : (1 : K) * (1 - 1) / (1 * 1 + 1 / 2 * (1 * sqrt (4 + 1 * 1) - 1 * 1)) = 0 := by
    rw [div_eq_iff hden]
    ring
  have hstep := apgd_body_step sqrt
    ({ sa with m_y := l, log := sa.log ++ [LogEntry.start] } : apgd K n) A c l 1
  have hl := congrArg apgd_iterate.l hstep
  have hy := congrArg apgd_iterate.y hstep
  simp only [apgd_step] at hl hy
  have hl1 : (({ sa with m_y := l, log := sa.log ++ [LogEntry.start] } : apgd K n).body
      sqrt A c l 1).l = sa.projection_cone (l - sa.m_rho • (A.mulVec l + c)) := hl
  refine ⟨hl1, ?_, ?_, ?_⟩
  · rw [hy, hl]
    have hb : (1 : K) * (1 - 1) / (1 ^ 2 + 1 / 2 * (1 * sqrt (4 + 1 ^ 2) - 1 ^ 2)) = 0 := by
      rw [← hbeta]
      ring_nf
    rw [hb, zero_smul, add_zero]
  · rw [hl1, uzawa_body_l, hsame.1, hsame.2]
    rfl
  · intro ha1 hu1
    have ea : (sa.projection sqrt A c l).1 = 1 ∧
        (sa.projection sqrt A c l).2.1 =
          (apgd_seq sqrt sa.projection_cone A c sa.m_rho l 1).l := by
      rcases first_stop_or_none (stops_at sa.m_tol_l
          (fun i => (apgd_seq sqrt sa.projection_cone A c sa.m_rho l i).l)) sa.m_max_iter
        with hall | ⟨k, h1, h2, hs, hf⟩
      · obtain ⟨e1, e2, _⟩ := apgd_projection_exhausts sqrt sa A c l hall
        rw [ha1] at e1 e2
        exact ⟨e1, e2⟩
      · have hk : k = 1 := by omega
        subst hk
        obtain ⟨e1, e2, _⟩ := apgd_projection_stops sqrt sa A c l 1 h1 h2 hs hf
        exact ⟨e1, e2⟩
    have eu : (su.projection A c l).1 = 1 ∧
        (su.projection A c l).2.1 = gradient_seq su.projection_cone A c su.m_rho l 1 := by
      rcases first_stop_or_none (stops_at su.m_tol_l
          (gradient_seq su.projection_cone A c su.m_rho l)) su.m_max_iter
        with hall | ⟨k, h1, h2, hs, hf⟩
      · obtain ⟨e1, e2⟩ := uzawa_projection_exhausts su A c l hall
        rw [hu1] at e1 e2
        exact ⟨e1, e2⟩
      · have hk : k = 1 := by omega
        subst hk
        exact uzawa_projection_stops su A c l 1 h1 h2 hs hf
    refine ⟨ea.1, eu.1, ?_⟩
    rw [ea.2, eu.2, apgd_seq_one_l, hsame.1, hsame.2]
    rfl

/-- Claim C34 at the one-row problem `A = 1`, `c = 0`, `l = 1` with
`max_iter = 1` for both solvers. -/
theorem first_apgd_iteration_is_gradient_step_witness :
    (1 : ℚ) * 1 + 1 / 2 * (1 * demo_sqrt (4 + 1 * 1) - 1 * 1) ≠ 0 ∧
    (({ demo_apgd with m_max_iter := 1 } : apgd ℚ 1).projection_cone =
        ({ demo_uzawa with m_max_iter := 1 } : uzawa ℚ 1).projection_cone ∧
      ({ demo_apgd with m_max_iter := 1 } : apgd ℚ 1).m_rho =
        ({ demo_uzawa with m_max_iter := 1 } : uzawa ℚ 1).m_rho) ∧
    (({ demo_apgd with m_max_iter := 1 } : apgd ℚ 1).projection demo_sqrt 1 0 (fun _ => 1)).1
      = 1 ∧
    (({ demo_uzawa with m_max_iter := 1 } : uzawa ℚ 1).projection 1 0 (fun _ => 1)).1 = 1 ∧
    (({ demo_apgd with m_max_iter := 1 } : apgd ℚ 1).projection demo_sqrt 1 0 (fun _ => 1)).2.1
      = (({ demo_uzawa with m_max_iter := 1 } : uzawa ℚ 1).projection 1 0 (fun _ => 1)).2.1 := by
  have hden : (1 : ℚ) * 1 + 1 / 2 * (1 * demo_sqrt (4 + 1 * 1) - 1 * 1) ≠ 0 := by
    norm_num [demo_sqrt]
  have hsame : ({ demo_apgd with m_max_iter := 1 } : apgd ℚ 1).projection_cone =
        ({ demo_uzawa with m_max_iter := 1 } : uzawa ℚ 1).projection_cone ∧
      ({ demo_apgd with m_max_iter := 1 } : apgd ℚ 1).m_rho =
        ({ demo_uzawa with m_max_iter := 1 } : uzawa ℚ 1).m_rho := ⟨rfl, rfl⟩
  exact ⟨hden, hsame, (first_apgd_iteration_is_gradient_step demo_sqrt
    ({ demo_apgd with m_max_iter := 1 } : apgd ℚ 1)
    ({ demo_uzawa with m_max_iter := 1 } : uzawa ℚ 1) 1 0 (fun _ => 1) hden hsame).2.2.2
      rfl rfl⟩

theorem apgd_seq_theta {K : Type} [LinearOrderedField K] {n : Nat} (sqrt : K → K)
    (proj : (Fin n → K) → (Fin n → K)) (A : Matrix (Fin n) (Fin n) K) (c : Fin n → K)
    (rho : K) (l0 : Fin n → K) (k : Nat) :
    (apgd_seq sqrt proj A c rho l0 k).theta = apgd_theta sqrt k := by
  induction k with
  | zero => rfl
  | succ k ih =>
    show 1 / 2 * ((apgd_seq sqrt proj A c rho l0 k).theta
        * sqrt (4 + (apgd_seq sqrt proj A c rho l0 k).theta ^ 2)
        - (apgd_seq sqrt proj A c rho l0 k).theta ^ 2) = _
    rw [ih, pow_two]
    rfl

theorem apgd_body_theta {K : Type} [LinearOrderedField K] {n : Nat} (sqrt : K → K)
    (s : apgd K n) (A : Matrix (Fin n) (Fin n) K) (c l : Fin n → K) (k : Nat) :
    (s.body sqrt A c l (apgd_theta sqrt k)).theta = apgd_theta sqrt (k + 1) := by
  unfold apgd.body
  by_cases hv : s.m_verbose = true <;> simp [hv, apgd_theta]

theorem theta_step {K : Type} [LinearOrderedField K] (t s : K) (ht : 0 < t) (ht1 : t ≤ 1)
    (hs : 0 ≤ s) (hs2 : s ^ 2 = 4 + t * t) :
    0 < 1 / 2 * (t * s - t * t) ∧ 1 / 2 * (t * s - t * t) < t ∧
    (1 / 2 * (t * s - t * t)) ^ 2 = (1 - 1 / 2 * (t * s - t * t)) * t ^ 2 ∧
    0 < t * t + 1 / 2 * (t * s - t * t) ∧
    0 ≤ t * (1 - t) / (t * t + 1 / 2 * (t * s - t * t)) ∧
    t * (1 - t) / (t * t + 1 / 2 * (t * s - t * t)) < 1 := by
  have hst : t < s := by
    by_contra hn
    have h1 : s ≤ t := not_lt.mp hn
    have h2 : s ^ 2 ≤ t ^ 2 := pow_le_pow_left₀ hs h1 2
    linarith
  have hpos : 0 < 1 / 2 * (t * s - t * t) := by
    have : 0 < t * (s - t) := mul_pos ht (sub_pos.mpr hst)
    linarith
  have hsq : (1 / 2 * (t * s - t * t)) ^ 2 = (1 - 1 / 2 * (t * s - t * t)) * t ^ 2 := by
    linear_combination (t ^ 2 / 4) * hs2
  have ht2 : 0 < t ^ 2 := pow_pos ht 2
  have hlt : 1 / 2 * (t * s - t * t) < t := by
    by_contra hn
    have h1 : t ≤ 1 / 2 * (t * s - t * t) := not_lt.mp hn
    have h2 : t ^ 2 ≤ (1 / 2 * (t * s - t * t)) ^ 2 := pow_le_pow_left₀ ht.le h1 2
    rw [hsq] at h2
    have h3 : (1 / 2 * (t * s - t * t)) * t ^ 2 ≤ 0 := by linarith
    have h4 : 0 < (1 / 2 * (t * s - t * t)) * t ^ 2 := mul_pos hpos ht2
    linarith
  have hden : 0 < t * t + 1 / 2 * (t * s - t * t) := by
    have : 0 < t * t := mul_pos ht ht
    linarith
  refine ⟨hpos, hlt, hsq, hden, div_nonneg (mul_nonneg ht.le (by linarith)) hden.le, ?_⟩
  rw [div_lt_one hden]
  by_contra hn
  have h1 : 1 / 2 * (t * s - t * t) ≤ t - 2 * (t * t) := by linarith [not_lt.mp hn]
  have h2 : (1 / 2 * (t * s - t * t)) ^ 2 ≤ (t - 2 * (t * t)) ^ 2 :=
    pow_le_pow_left₀ hpos.le h1 2
  rw [hsq] at h2
  have h3 : (1 - (t - 2 * (t * t))) * t ^ 2 ≤ (1 - 1 / 2 * (t * s - t * t)) * t ^ 2 :=
    mul_le_mul_of_nonneg_right (by linarith) ht2.le
  have h4 : t ^ 2 * (3 * t - 2 * t ^ 2) ≤ 0 := by linarith [le_trans h3 h2]
  have h5 : 0 < 3 * t - 2 * t ^ 2 := by
    have := mul_pos ht (show 0 < 3 - 2 * t by linarith)
    linarith
  have h6 : 0 < t ^ 2 * (3 * t - 2 * t ^ 2) := mul_pos ht2 h5
  linarith

theorem apgd_theta_range (k : Nat) :
    0 < apgd_theta Real.sqrt k ∧ apgd_theta Real.sqrt k ≤ 1 := by
  induction k with
  | zero => exact ⟨one_pos, le_refl 1⟩
  | succ k ih =>
    obtain ⟨h1, h2, _⟩ := theta_step (apgd_theta Real.sqrt k)
      (Real.sqrt (4 + apgd_theta Real.sqrt k * apgd_theta Real.sqrt k)) ih.1 ih.2
      (Real.sqrt_nonneg _) (Real.sq_sqrt (add_nonneg (by norm_num) (mul_self_nonneg _)))
    exact ⟨h1, le_trans h2.le ih.2⟩

/-- Claim C33.  Momentum coefficients of APGD stay in range: over the reals,
with the recurrence of `apgd::projection` started at `theta_0 = 1`, every `k`
satisfies `0 < theta_(k+1) < theta_k <= 1` and
`theta_(k+1)^2 = (1 - theta_(k+1))*theta_k^2`, the denominator
`theta_k^2 + theta_(k+1)` is positive and `0 <= beta_(k+1) < 1`. -/
theorem momentum_coefficients_in_range (k : Nat) :
    0 < apgd_theta Real.sqrt (k + 1) ∧
    apgd_theta Real.sqrt (k + 1) < apgd_theta Real.sqrt k ∧
    apgd_theta Real.sqrt k ≤ 1 ∧
    apgd_theta Real.sqrt (k + 1) ^ 2 =
      (1 - apgd_theta Real.sqrt (k + 1)) * apgd_theta Real.sqrt k ^ 2 ∧
    0 < apgd_theta Real.sqrt k * apgd_theta Real.sqrt k + apgd_theta Real.sqrt (k + 1) ∧
    0 ≤ apgd_beta Real.sqrt k ∧ apgd_beta Real.sqrt k < 1 := by
  obtain ⟨h0, h1⟩ := apgd_theta_range k
  obtain ⟨a, b, c, d, e, f⟩ := theta_step (apgd_theta Real.sqrt k)
    (Real.sqrt (4 + apgd_theta Real.sqrt k * apgd_theta Real.sqrt k)) h0 h1
    (Real.sqrt_nonneg _) (Real.sq_sqrt (add_nonneg (by norm_num) (mul_self_nonneg _)))
  exact ⟨a, b, h1, c, d, e, f⟩

theorem flatMap_congr_mem {α β : Type} (xs : List α) (f g : α → List β)
    (h : ∀ a ∈ xs, f a = g a) : xs.flatMap f = xs.flatMap g := by
  induction xs with
  | nil => rfl
  | cons a as ih =>
    rw [List.flatMap_cons, List.flatMap_cons, h a (List.mem_cons_self _ _),
      ih (fun b hb => h b (List.mem_cons_of_mem _ hb))]

theorem create_vector_c_writes_congr {Omega : Type} (dim : Nat) (get_omega : Omega → Vec3)
    (o : OptimBase) (particles particles' : scopi_container_full Omega)
    (h1 : particles'.nb_inactive = particles.nb_inactive)
    (h2 : particles'.nb_active = particles.nb_active)
    (h : ∀ k, particles.nb_inactive ≤ k → k < particles.nb_inactive + particles.nb_active →
      particles'.m k = particles.m k ∧ (∀ d, particles'.vd k d = particles.vd k d) ∧
      particles'.desired_omega k = particles.desired_omega k ∧ particles'.j k = particles.j k) :
    create_vector_c_writes dim get_omega o particles' =
      create_vector_c_writes dim get_omega o particles := by
  unfold create_vector_c_writes
  simp only [h1, h2]
  apply flatMap_congr_mem
  intro i hi
  rw [List.mem_range] at hi
  obtain ⟨a, b, c, d⟩ := h (particles.nb_inactive + i) (by omega) (by omega)
  have b' : ∀ d, particles'.vd (i + particles.nb_inactive) d =
      particles.vd (i + particles.nb_inactive) d := by
    rw [Nat.add_comm i]
    exact b
  have c' : particles'.desired_omega (i + particles.nb_inactive) =
      particles.desired_omega (i + particles.nb_inactive) := by
    rw [Nat.add_comm i]
    exact c
  simp only [a, b', c', d]

/-- Claim C35.  Frame of `create_vector_c` (with `dim <= 3` and `m_c` of length
at least `c_dec + 6 * nb_active`): it returns, leaves `m_nparts`, `m_c_dec` and
the length of `m_c` unchanged, leaves unchanged every entry of `m_c` with index
`< c_dec` or `>= c_dec + 6 * nb_active` and, for `dim = 2`, every entry
`c_dec + 3*i + 2`; every index it writes lies in
`[c_dec, c_dec + 6 * nb_active)`; and its result is the same for any container
with the same counts and the same mass, inertia, desired velocity and desired
angular velocity of the active particles. -/
theorem create_vector_c_frame {Omega : Type} (dim : Nat) (get_omega : Omega → Vec3)
    (o : OptimBase) (particles : scopi_container_full Omega) (hdim : dim ≤ 3)
    (hlen : o.m_c_dec + 6 * particles.nb_active ≤ o.m_c.length) :
    ∃ o', create_vector_c dim get_omega o particles = some o' ∧
      o'.m_nparts = o.m_nparts ∧ o'.m_c_dec = o.m_c_dec ∧ o'.m_c.length = o.m_c.length ∧
      (∀ k, k < o.m_c_dec ∨ o.m_c_dec + 6 * particles.nb_active ≤ k →
        o'.m_c[k]? = o.m_c[k]?) ∧
      (dim = 2 → ∀ i, i < particles.nb_active →
        o'.m_c[o.m_c_dec + 3 * i + 2]? = o.m_c[o.m_c_dec + 3 * i + 2]?) ∧
      (∀ w ∈ create_vector_c_writes dim get_omega o particles,
        o.m_c_dec ≤ w.1 ∧ w.1 < o.m_c_dec + 6 * particles.nb_active) ∧
      ∀ particles' : scopi_container_full Omega,
        particles'.nb_inactive = particles.nb_inactive →
        particles'.nb_active = particles.nb_active →
        (∀ k, particles.nb_inactive ≤ k → k < particles.nb_inactive + particles.nb_active →
          particles'.m k = particles.m k ∧ (∀ d, particles'.vd k d = particles.vd k d) ∧
          particles'.desired_omega k = particles.desired_omega k ∧
          particles'.j k = particles.j k) →
        create_vector_c dim get_omega o particles' =
          create_vector_c dim get_omega o particles := by
  have hrange : ∀ w ∈ create_vector_c_writes dim get_omega o particles,
      o.m_c_dec ≤ w.1 ∧ w.1 < o.m_c_dec + 6 * particles.nb_active := by
    intro w hw
    rw [mem_create_vector_c_writes] at hw
    obtain ⟨i, hi, ⟨d, hd, rfl⟩ | ⟨d, rfl⟩⟩ := hw
    · show o.m_c_dec ≤ o.m_c_dec + 3 * i + d ∧ o.m_c_dec + 3 * i + d < _
      omega
    · show o.m_c_dec ≤ o.m_c_dec + 3 * particles.nb_active + 3 * i + (d : Nat) ∧
        o.m_c_dec + 3 * particles.nb_active + 3 * i + (d : Nat) < _
      have := d.isLt
      omega
  obtain ⟨v', _, h2, h3, _, h5⟩ := create_vector_c_some dim get_omega o particles hdim hlen
  refine ⟨{ o with m_c := v' }, h2, rfl, rfl, h3, ?_, ?_, hrange, ?_⟩
  · intro k hk
    apply h5
    intro w hw he
    have := hrange w hw
    omega
  · intro h2d i hi
    apply h5
    intro w hw he
    rw [mem_create_vector_c_writes] at hw
    obtain ⟨i', hi', ⟨d, hd, rfl⟩ | ⟨d, rfl⟩⟩ := hw
    · have he' : o.m_c_dec + 3 * i' + d = o.m_c_dec + 3 * i + 2 := he
      omega
    · have he' : o.m_c_dec + 3 * particles.nb_active + 3 * i' + (d : Nat) =
          o.m_c_dec + 3 * i + 2 := he
      omega
  · intro particles' e1 e2 e3
    unfold create_vector_c
    rw [create_vector_c_writes_congr dim get_omega o particles particles' e1 e2 e3]

/-- Claim C35 at the small configuration in dimension 2: the third linear
component of the first active particle keeps the value 0 of the constructor. -/
theorem create_vector_c_frame_witness :
    (2 ≤ 3 ∧ demo_optim.m_c_dec + 6 * demo_particles_full.nb_active ≤ demo_optim.m_c.length) ∧
    ∃ o', create_vector_c 2 id demo_optim demo_particles_full = some o' ∧
      o'.m_c.length = 12 ∧ o'.m_c[2]? = some 0 := by
  have hlen : demo_optim.m_c_dec + 6 * demo_particles_full.nb_active ≤ demo_optim.m_c.length := by
    simp [demo_optim, OptimBase.init, demo_particles_full, demo_particles]
  obtain ⟨o', h1, _, _, h4, _, h6, _⟩ :=
    create_vector_c_frame 2 id demo_optim demo_particles_full (by decide) hlen
  refine ⟨⟨by decide, hlen⟩, o', h1, ?_, ?_⟩
  · rw [h4]
    simp [demo_optim, OptimBase.init]
  · have := h6 rfl 0 (by simp [demo_particles_full, demo_particles])
    simp only [demo_optim, OptimBase.init] at this
    simpa using this

theorem set_vd_spec (s : vap_projection) {dim : Nat} (i : Nat) :
    ∀ (ds : List (Fin dim)) (row : Fin dim → ℚ),
      (∀ d ∈ ds, ∃ x, xtensor2_at s.m_u i d = some x) →
      ∃ row', vap_projection.set_vd s i ds row = some row' ∧
        (∀ d ∈ ds, xtensor2_at s.m_u i d = some (row' d)) ∧
        ∀ d, d ∉ ds → row' d = row d := by
  intro ds
  induction ds with
  | nil =>
    intro row _
    exact ⟨row, rfl, fun d hd => absurd hd (List.not_mem_nil d), fun _ _ => rfl⟩
  | cons d ds ih =>
    intro row h
    obtain ⟨x, hx⟩ := h d (List.mem_cons_self _ _)
    obtain ⟨row', h1, h2, h3⟩ := ih (Function.update row d x)
      (fun e he => h e (List.mem_cons_of_mem _ he))
    refine ⟨row', ?_, ?_, ?_⟩
    · unfold vap_projection.set_vd
      simp only [hx]
      exact h1
    · intro e he
      by_cases hmem : e ∈ ds
      · exact h2 e hmem
      · have hed : e = d := by
          rcases List.mem_cons.mp he with h4 | h4
          · exact h4
          · exact absurd h4 hmem
        subst hed
        rw [h3 e hmem, Function.update_same]
        exact hx
    · intro e he
      have hne : e ≠ d := fun h4 => he (h4 ▸ List.mem_cons_self _ _)
      have hnot : e ∉ ds := fun h4 => he (List.mem_cons_of_mem _ h4)
      rw [h3 e hnot, Function.update_noteq hne]

theorem set_a_priori_velocity_loop_spec {dim : Nat} {Omega : Type} (of_scalar : ℚ → Omega)
    (s : vap_projection) :
    ∀ (is : List Nat) (p : scopi_container_velocities dim Omega),
      (∀ i ∈ is, i + s.m_active_ptr < p.vd.length ∧ i + s.m_active_ptr < p.omega.length ∧
        (∀ d : Fin dim, ∃ x, xtensor2_at s.m_u i d = some x) ∧
        ∃ x, xtensor2_at s.m_w i 2 = some x) →
      ∃ p', vap_projection.set_a_priori_velocity_loop of_scalar s is p = some p' ∧
        p'.vd.length = p.vd.length ∧ p'.omega.length = p.omega.length ∧
        (∀ i ∈ is, ∃ row x, p'.vd[i + s.m_active_ptr]? = some row ∧
          (∀ d : Fin dim, xtensor2_at s.m_u i d = some (row d)) ∧
          xtensor2_at s.m_w i 2 = some x ∧
          p'.omega[i + s.m_active_ptr]? = some (of_scalar x)) ∧
        ∀ k, (∀ i ∈ is, i + s.m_active_ptr ≠ k) →
          p'.vd[k]? = p.vd[k]? ∧ p'.omega[k]? = p.omega[k]? := by
  intro is
  induction is with
  | nil =>
    intro p _
    exact ⟨p, rfl, rfl, rfl, fun i hi => absurd hi (List.not_mem_nil i), fun _ _ => ⟨rfl, rfl⟩⟩
  | cons i rest ih =>
    intro p h
    obtain ⟨b1, b2, hu, x, hx⟩ := h i (List.mem_cons_self _ _)
    have hrow : p.vd[i + s.m_active_ptr]? = some p.vd[i + s.m_active_ptr] :=
      List.getElem?_eq_getElem b1
    obtain ⟨row1, r1, r2, _⟩ := set_vd_spec s i (List.finRange dim) p.vd[i + s.m_active_ptr]
      (fun d _ => hu d)
    obtain ⟨p', q1, q2, q3, q4, q5⟩ := ih
      { vd := p.vd.set (i + s.m_active_ptr) row1
        omega := p.omega.set (i + s.m_active_ptr) (of_scalar x) }
      (fun j hj => by
        obtain ⟨c1, c2, c3, c4⟩ := h j (List.mem_cons_of_mem _ hj)
        exact ⟨by simpa using c1, by simpa using c2, c3, c4⟩)
    refine ⟨p', ?_, ?_, ?_, ?_, ?_⟩
    · unfold vap_projection.set_a_priori_velocity_loop
      simp only [hrow, r1, hx, if_pos b2]
      exact q1
    · rw [q2]
      simp
    · rw [q3]
      simp
    · intro j hj
      by_cases hmem : j ∈ rest
      · exact q4 j hmem
      · have hji : j = i := by
          rcases List.mem_cons.mp hj with h4 | h4
          · exact h4
          · exact absurd h4 hmem
        subst hji
        have hk : ∀ i' ∈ rest, i' + s.m_active_ptr ≠ j + s.m_active_ptr := by
          intro i' hi' he
          have : i' = j := by omega
          exact hmem (this ▸ hi')
        obtain ⟨k1, k2⟩ := q5 (j + s.m_active_ptr) hk
        refine ⟨row1, x, ?_, fun d => r2 d (List.mem_finRange d), hx, ?_⟩
        · rw [k1]
          exact List.getElem?_set_self (by simpa using b1)
        · rw [k2]
          exact List.getElem?_set_self (by simpa using b2)
    · intro k hk
      have hne : i + s.m_active_ptr ≠ k := hk i (List.mem_cons_self _ _)
      obtain ⟨k1, k2⟩ := q5 k (fun j hj => hk j (List.mem_cons_of_mem _ hj))
      constructor
      · rw [k1]
        exact List.getElem?_set_ne hne
      · rw [k2]
        exact List.getElem?_set_ne hne

/-- Claim C36.  `vap_projection` copies the stored velocities to the active
particles only: after `set_u_w(u, w)`, with `u(i, d)` (`d < dim`) and `w(i, 2)`
present for every `i < Nactive` and at least `active_ptr + Nactive` particles,
`set_a_priori_velocity_impl` returns, sets `vd[active_ptr + i][d] = u(i, d)` and
`omega[active_ptr + i] = w(i, 2)` for every `i < Nactive`, leaves `vd` and `omega`
of every particle with index `< active_ptr` (and `>= active_ptr + Nactive`)
unchanged, and `update_velocity_impl` changes nothing. -/
theorem vap_projection_copies_to_active {dim : Nat} {Omega : Type} (of_scalar : ℚ → Omega)
    (s : vap_projection) (u w : List (List ℚ))
    (particles : scopi_container_velocities dim Omega)
    (hsize : s.m_active_ptr + s.m_Nactive ≤ particles.vd.length ∧
      s.m_active_ptr + s.m_Nactive ≤ particles.omega.length)
    (hu : ∀ i, i < s.m_Nactive → ∀ d : Fin dim, ∃ x, xtensor2_at u i d = some x)
    (hw : ∀ i, i < s.m_Nactive → ∃ x, xtensor2_at w i 2 = some x) :
    ∃ p', (s.set_u_w u w).set_a_priori_velocity_impl of_scalar particles = some p' ∧
      p'.vd.length = particles.vd.length ∧ p'.omega.length = particles.omega.length ∧
      (∀ i, i < s.m_Nactive → ∃ row x, p'.vd[s.m_active_ptr + i]? = some row ∧
        (∀ d : Fin dim, xtensor2_at u i d = some (row d)) ∧
        xtensor2_at w i 2 = some x ∧ p'.omega[s.m_active_ptr + i]? = some (of_scalar x)) ∧
      (∀ k, k < s.m_active_ptr ∨ s.m_active_ptr + s.m_Nactive ≤ k →
        p'.vd[k]? = particles.vd[k]? ∧ p'.omega[k]? = particles.omega[k]?) ∧
      ∀ uadapt wadapt : List (List ℚ),
        (s.set_u_w u w).update_velocity_impl p' uadapt wadapt = (s.set_u_w u w, p') := by
  obtain ⟨p', q1, q2, q3, q4, q5⟩ := set_a_priori_velocity_loop_spec of_scalar (s.set_u_w u w)
    (List.range s.m_Nactive) particles
    (fun i hi => by
      rw [List.mem_range] at hi
      have e1 : (s.set_u_w u w).m_active_ptr = s.m_active_ptr := rfl
      rw [e1]
      exact ⟨by omega, by omega, hu i hi, hw i hi⟩)
  refine ⟨p', q1, q2, q3, ?_, ?_, fun _ _ => rfl⟩
  · intro i hi
    obtain ⟨row, x, a1, a2, a3, a4⟩ := q4 i (List.mem_range.mpr hi)
    have e1 : i + (s.set_u_w u w).m_active_ptr = s.m_active_ptr + i := Nat.add_comm _ _
    rw [e1] at a1 a4
    exact ⟨row, x, a1, a2, a3, a4⟩
  · intro k hk
    apply q5 k
    intro i hi he
    rw [List.mem_range] at hi
    have e1 : (s.set_u_w u w).m_active_ptr = s.m_active_ptr := rfl
    rw [e1] at he
    omega

/-- Claim C36 in dimension 2 with one obstacle and two active particles:
the angular velocity of the first active particle becomes `w(0, 2) = 5` and the
obstacle keeps its angular velocity `7`. -/
theorem vap_projection_copies_to_active_witness :
    ((vap_projection.init 2 1 (1 / 100)).m_active_ptr
        + (vap_projection.init 2 1 (1 / 100)).m_Nactive ≤ demo_velocities.vd.length ∧
      (vap_projection.init 2 1 (1 / 100)).m_active_ptr
        + (vap_projection.init 2 1 (1 / 100)).m_Nactive ≤ demo_velocities.omega.length) ∧
    ∃ p', demo_vap.set_a_priori_velocity_impl id demo_velocities = some p' ∧
      p'.omega[1]? = some 5 ∧ p'.omega[0]? = some 7 := by
  have hsize : (vap_projection.init 2 1 (1 / 100)).m_active_ptr
        + (vap_projection.init 2 1 (1 / 100)).m_Nactive ≤ demo_velocities.vd.length ∧
      (vap_projection.init 2 1 (1 / 100)).m_active_ptr
        + (vap_projection.init 2 1 (1 / 100)).m_Nactive ≤ demo_velocities.omega.length :=
    ⟨by decide, by decide⟩
  have hu : ∀ i, i < (vap_projection.init 2 1 (1 / 100)).m_Nactive → ∀ d : Fin 2,
      ∃ x, xtensor2_at [[1, 2], [3, 4]] i d = some x := by
    intro i hi d
    have hi2 : i < 2 := hi
    interval_cases i <;> fin_cases d <;> exact ⟨_, rfl⟩
  have hw : ∀ i, i < (vap_projection.init 2 1 (1 / 100)).m_Nactive →
      ∃ x, xtensor2_at [[0, 0, 5], [0, 0, 6]] i 2 = some x := by
    intro i hi
    have hi2 : i < 2 := hi
    interval_cases i <;> exact ⟨_, rfl⟩
  obtain ⟨p', h1, _, _, h4, h5, _⟩ := vap_projection_copies_to_active id
    (vap_projection.init 2 1 (1 / 100)) [[1, 2], [3, 4]] [[0, 0, 5], [0, 0, 6]]
    demo_velocities hsize hu hw
  refine ⟨hsize, p', h1, ?_, ?_⟩
  · obtain ⟨_, x, _, _, a3, a4⟩ := h4 0 (by decide)
    have hx : x = 5 := by
      have e : xtensor2_at [[0, 0, 5], [0, 0, 6]] 0 2 = some 5 := rfl
      rw [e] at a3
      exact (Option.some.inj a3).symm
    rw [hx] at a4
    exact a4
  · have := (h5 0 (Or.inl (by decide))).2
    rw [this]
    rfl

theorem mem_not_bonded_block_cols (second_row : Bool) (col0 x : Nat)
    (hx : x ∈ not_bonded_block_cols second_row col0) : ∃ d : Fin 3, x = col0 + d := by
  unfold not_bonded_block_cols at hx
  rw [List.mem_flatMap] at hx
  obtain ⟨d, _, hd⟩ := hx
  cases second_row <;> simp at hd <;> exact ⟨d, hd⟩

theorem mem_bonded_block_cols (col0 x : Nat) (hx : x ∈ bonded_block_cols col0) :
    ∃ d : Fin 3, x = col0 + d := by
  unfold bonded_block_cols at hx
  simp only [List.mem_append, List.mem_flatMap, List.mem_map, List.mem_cons,
    List.mem_singleton, List.not_mem_nil, or_false, or_self] at hx
  rcases hx with ⟨d, _, hd⟩ | ⟨_, _, d, _, hd⟩
  · exact ⟨d, hd⟩
  · exact ⟨d, hd.symm⟩

theorem cols_of_writes_not_bonded (h : Helpers) (st : ViscousWithFriction)
    (particles : scopi_container) (size firstCol ic : Nat) (c : neighbor) (g : ℚ) :
    (writes_not_bonded h st particles size firstCol ic c g).map Triplet.col =
      column_layout_spec particles firstCol c
        (not_bonded_block_cols (decide (g < -st.m_tol))) := by
  unfold writes_not_bonded column_layout_spec not_bonded_block_cols
  by_cases hg : g < -st.m_tol <;> by_cases hi : particles.nb_inactive ≤ c.i <;>
    by_cases hj : particles.nb_inactive ≤ c.j <;>
    simp [hg, hi, hj, range3, Nat.mul_comm]

theorem cols_of_contact_writes (h : Helpers) (st : ViscousWithFriction)
    (particles : scopi_container) (size firstCol ic : Nat) (c : neighbor) (g : ℚ)
    (hn : st.m_nparticles = particles.nb_active) :
    (contact_writes h st particles size firstCol ic c g).map Triplet.col =
      column_layout_spec particles firstCol c
        (if g ≠ st.m_gamma_min then not_bonded_block_cols (decide (g < -st.m_tol))
         else bonded_block_cols) := by
  unfold contact_writes
  by_cases hg : g ≠ st.m_gamma_min
  · rw [if_pos hg, if_pos hg]
    exact cols_of_writes_not_bonded h st particles size firstCol ic c g
  · rw [if_neg hg, if_neg hg, cols_of_writes_bonded, hn]
    unfold column_layout_spec
    simp only [Nat.mul_comm _ 3]

theorem column_layout_spec_range (particles : scopi_container) (firstCol : Nat) (c : neighbor)
    (group : Nat → List Nat) (hgroup : ∀ col0 x, x ∈ group col0 → ∃ d : Fin 3, x = col0 + d)
    (hi : c.i < particles.nb_inactive + particles.nb_active)
    (hj : c.j < particles.nb_inactive + particles.nb_active) (x : Nat)
    (hx : x ∈ column_layout_spec particles firstCol c group) :
    firstCol ≤ x ∧ x < firstCol + 6 * particles.nb_active := by
  unfold column_layout_spec at hx
  simp only [List.mem_append] at hx
  rcases hx with ((hx | hx) | hx) | hx <;>
    (split_ifs at hx with ha
     · obtain ⟨d, rfl⟩ := hgroup _ x hx
       have := d.isLt
       omega
     · exact absurd hx (List.not_mem_nil x))

/-- Claim C10.  Column layout, for a problem constructed with the number of
active particles (`m_nparticles = nb_active`), particle indices inside the
container and one gamma per contact: `create_matrix_constraint_coo_impl` runs
its loop to the end; for every contact, in every regime, the columns of its
triplets are, in the order of writing, those of the layout of the
specification (linear coefficients of an active particle `p` in the columns
`firstCol + 3*p + d`, angular coefficients in `firstCol + 3*nb_active + 3*p + d`,
nothing for an inactive particle); and every column written lies in
`[firstCol, firstCol + 6*nb_active)`. -/
theorem column_layout (h : Helpers) (st : ViscousWithFriction) (particles : scopi_container)
    (contacts : List neighbor) (firstCol : Nat)
    (hn : st.m_nparticles = particles.nb_active)
    (hidx : ∀ c ∈ contacts, c.i < particles.nb_inactive + particles.nb_active ∧
      c.j < particles.nb_inactive + particles.nb_active)
    (hlen : contacts.length ≤ st.m_gamma.length) :
    ∃ ts, coo_writes h st particles contacts firstCol = some ts ∧
      (∀ k c g, contacts[k]? = some c → st.m_gamma[k]? = some g →
        (contact_writes h st particles contacts.length firstCol k c g).map Triplet.col =
          column_layout_spec particles firstCol c
            (if g ≠ st.m_gamma_min then not_bonded_block_cols (decide (g < -st.m_tol))
             else bonded_block_cols)) ∧
      (∀ (second_row : Bool) (col0 x : Nat),
        x ∈ not_bonded_block_cols second_row col0 ∨ x ∈ bonded_block_cols col0 →
          ∃ d : Fin 3, x = col0 + d) ∧
      ∀ t ∈ ts, firstCol ≤ t.col ∧ t.col < firstCol + 6 * particles.nb_active := by
  obtain ⟨ts, hts⟩ := coo_loop_some h st particles contacts.length firstCol contacts 0
    (by omega)
  have hgroup : ∀ (second_row : Bool) (col0 x : Nat),
      x ∈ not_bonded_block_cols second_row col0 ∨ x ∈ bonded_block_cols col0 →
        ∃ d : Fin 3, x = col0 + d := by
    intro b col0 x hx
    rcases hx with hx | hx
    · exact mem_not_bonded_block_cols b col0 x hx
    · exact mem_bonded_block_cols col0 x hx
  refine ⟨ts, hts, ?_, hgroup, ?_⟩
  · intro k c g _ _
    exact cols_of_contact_writes h st particles contacts.length firstCol k c g hn
  · intro t ht
    obtain ⟨k, c, g, hc, _, hm⟩ :=
      (coo_loop_mem h st particles contacts.length firstCol contacts 0 ts hts t).1 ht
    have hcm : c ∈ contacts := List.getElem?_mem hc
    have hcol : t.col ∈ (contact_writes h st particles contacts.length firstCol (0 + k) c
        g).map Triplet.col := List.mem_map_of_mem _ hm
    rw [cols_of_contact_writes h st particles contacts.length firstCol (0 + k) c g hn] at hcol
    refine column_layout_spec_range particles firstCol c _ ?_ (hidx c hcm).1 (hidx c hcm).2
      t.col hcol
    intro col0 x hx
    by_cases hg : g ≠ st.m_gamma_min
    · rw [if_pos hg] at hx
      exact mem_not_bonded_block_cols _ col0 x hx
    · rw [if_neg hg] at hx
      exact mem_bonded_block_cols col0 x hx

/-- Claim C10 at the small configuration with a bonded and a free contact: the
problem is constructed for the two active particles, and every column written
is below `6 * 2`. -/
theorem column_layout_witness :
    (demo_problem [-3, 0]).m_nparticles = demo_particles.nb_active ∧
    (∀ c ∈ demo_contacts, c.i < demo_particles.nb_inactive + demo_particles.nb_active ∧
      c.j < demo_particles.nb_inactive + demo_particles.nb_active) ∧
    demo_contacts.length ≤ (demo_problem [-3, 0]).m_gamma.length ∧
    ∃ ts, coo_writes demo_helpers (demo_problem [-3, 0]) demo_particles demo_contacts 0
        = some ts ∧
      (contact_writes demo_helpers (demo_problem [-3, 0]) demo_particles demo_contacts.length
          0 0 contact_plane_sphere (-3)).map Triplet.col =
        column_layout_spec demo_particles 0 contact_plane_sphere
          (if (-3 : ℚ) ≠ (demo_problem [-3, 0]).m_gamma_min then
            not_bonded_block_cols (decide ((-3 : ℚ) < -(demo_problem [-3, 0]).m_tol))
           else bonded_block_cols) ∧
      ∀ t ∈ ts, 0 ≤ t.col ∧ t.col < 0 + 6 * demo_particles.nb_active := by
  have hidx : ∀ c ∈ demo_contacts,
      c.i < demo_particles.nb_inactive + demo_particles.nb_active ∧
      c.j < demo_particles.nb_inactive + demo_particles.nb_active := by
    intro c hc
    simp only [demo_contacts, List.mem_cons, List.mem_singleton, List.not_mem_nil,
      or_false] at hc
    rcases hc with rfl | rfl <;> exact ⟨by decide, by decide⟩
  obtain ⟨ts, h1, h2, _, h4⟩ := column_layout demo_helpers (demo_problem [-3, 0])
    demo_particles demo_contacts 0 rfl hidx (le_refl 2)
  exact ⟨rfl, hidx, le_refl 2, ts, h1, h2 0 contact_plane_sphere (-3) rfl rfl, h4⟩

theorem demo_problem_bonded_negative :
    demo_problem [-3, -1] =
      { demo_init with m_gamma := [-3, -1], m_nb_gamma_neg := 1, m_nb_gamma_min := 1 } := by
  simp [demo_problem, demo_init, set_gamma, set_gamma_step, ViscousWithFriction.init]
  norm_num

theorem length_writes_bonded_one_active (h : Helpers) (st : ViscousWithFriction)
    (particles : scopi_container) (size firstCol ic : Nat) (c : neighbor)
    (hi : ¬ particles.nb_inactive ≤ c.i) (hj : particles.nb_inactive ≤ c.j) :
    (writes_bonded h st particles size firstCol ic c).length = 48 := by
  unfold writes_bonded
  simp [hi, hj, range3]

theorem length_writes_negative_one_active (h : Helpers) (st : ViscousWithFriction)
    (particles : scopi_container) (size firstCol ic : Nat) (c : neighbor) (g : ℚ)
    (hi : ¬ particles.nb_inactive ≤ c.i) (hj : particles.nb_inactive ≤ c.j)
    (hg : g < -st.m_tol) :
    (writes_not_bonded h st particles size firstCol ic c g).length = 12 := by
  unfold writes_not_bonded
  simp [hi, hj, hg, range3]

theorem create_matrix_constraint_coo_impl_isSome (h : Helpers) (st : ViscousWithFriction)
    (particles : scopi_container) (contacts : List neighbor) (firstCol : Nat)
    (ts : List Triplet) (hw : coo_writes h st particles contacts firstCol = some ts)
    (hlen : ts.length ≤ 6 * number_row_matrix_impl st contacts) :
    (create_matrix_constraint_coo_impl h st particles contacts firstCol).isSome = true := by
  unfold create_matrix_constraint_coo_impl
  simp only [hw]
  unfold store_front
  simp [resize_length, hlen]

/-- Claim C27, evaluated at a mixed list.  For the contacts plane-sphere
(bonded, `gamma = gamma_min = -3`) and plane-second sphere (negative gamma,
`gamma = -1`), with the counts of `set_gamma`, both operations run to the end;
`create_matrix_constraint_coo_impl` writes the two rows of the second contact
at the indices 1 and 2 (row 2 is also the first row of the bonded contact),
while `create_vector_distances_impl` stores its `dij` at index 0 and `-dij` at
index 1: the entry of `m_distances` for row 1 is `-dij` and the entry for row 2
is the `dij` of the bonded contact. -/
theorem signed_pair_distances_not_in_contact_rows :
    ((demo_problem [-3, -1]).m_gamma_min < -1 ∧ (-1 : ℚ) < -(demo_problem [-3, -1]).m_tol) ∧
    (create_matrix_constraint_coo_impl demo_helpers (demo_problem [-3, -1]) demo_particles
      [contact_plane_sphere, contact_plane_second_sphere] 0).isSome = true ∧
    rows_written (contact_writes demo_helpers (demo_problem [-3, -1]) demo_particles 2 0 1
      contact_plane_second_sphere (-1)) = {1, 2} ∧
    rows_written (contact_writes demo_helpers (demo_problem [-3, -1]) demo_particles 2 0 0
      contact_plane_sphere (-3)) = Finset.Ico 2 6 ∪ Finset.Ico 6 10 ∧
    distances_writes (demo_problem [-3, -1])
        [contact_plane_sphere, contact_plane_second_sphere] =
      some [[(2, contact_plane_sphere.dij), (6, -contact_plane_sphere.dij)],
            [(0, contact_plane_second_sphere.dij), (1, -contact_plane_second_sphere.dij)]] ∧
    (create_vector_distances_impl (demo_problem [-3, -1])
        [contact_plane_sphere, contact_plane_second_sphere]).map
        ViscousWithFriction.m_distances =
      some [contact_plane_second_sphere.dij, -contact_plane_second_sphere.dij,
        contact_plane_sphere.dij, 0, 0, 0, -contact_plane_sphere.dij, 0, 0, 0] := by
  have hg : (demo_problem [-3, -1]).m_gamma_min < -1 ∧
      (-1 : ℚ) < -(demo_problem [-3, -1]).m_tol := by
    rw [demo_problem_bonded_negative]
    norm_num [demo_init, ViscousWithFriction.init]
  have hgm : (-3 : ℚ) = (demo_problem [-3, -1]).m_gamma_min := by
    rw [demo_problem_bonded_negative]
    norm_num [demo_init, ViscousWithFriction.init]
  have hne : (-1 : ℚ) ≠ (demo_problem [-3, -1]).m_gamma_min := ne_of_gt hg.1
  have hw : coo_writes demo_helpers (demo_problem [-3, -1]) demo_particles
      [contact_plane_sphere, contact_plane_second_sphere] 0 =
      some (contact_writes demo_helpers (demo_problem [-3, -1]) demo_particles 2 0 0
          contact_plane_sphere (-3) ++
        contact_writes demo_helpers (demo_problem [-3, -1]) demo_particles 2 0 1
          contact_plane_second_sphere (-1)) := by
    have hgam : (demo_problem [-3, -1]).m_gamma = [-3, -1] := rfl
    simp [coo_writes, coo_loop, hgam]
  have hl0 : (contact_writes demo_helpers (demo_problem [-3, -1]) demo_particles 2 0 0
      contact_plane_sphere (-3)).length = 48 := by
    unfold contact_writes
    rw [if_neg (not_not.mpr hgm)]
    exact length_writes_bonded_one_active _ _ _ _ _ _ _ (by decide) (by decide)
  have hl1 : (contact_writes demo_helpers (demo_problem [-3, -1]) demo_particles 2 0 1
      contact_plane_second_sphere (-1)).length = 12 := by
    unfold contact_writes
    rw [if_pos hne]
    exact length_writes_negative_one_active _ _ _ _ _ _ _ _ (by decide) (by decide) hg.2
  have hrow : number_row_matrix_impl (demo_problem [-3, -1])
      [contact_plane_sphere, contact_plane_second_sphere] = 10 := by
    rw [demo_problem_bonded_negative]
    rfl
  have hd : distances_writes (demo_problem [-3, -1])
      [contact_plane_sphere, contact_plane_second_sphere] =
      some [[(2, contact_plane_sphere.dij), (6, -contact_plane_sphere.dij)],
            [(0, contact_plane_second_sphere.dij), (1, -contact_plane_second_sphere.dij)]] := by
    rw [demo_problem_bonded_negative]
    simp [distances_writes, distances_loop, distance_writes, demo_init,
      ViscousWithFriction.init]
    norm_num
  refine ⟨hg, ?_, ?_, ?_, hd, ?_⟩
  · exact create_matrix_constraint_coo_impl_isSome _ _ _ _ _ _ hw
      (by rw [List.length_append, hl0, hl1, hrow])
  · rw [rows_contact_negative _ _ _ _ _ _ _ _ (Or.inr (by decide)) hg.1 hg.2]
    rw [demo_problem_bonded_negative]
    rfl
  · rw [rows_contact_bonded _ _ _ _ _ _ _ _ (Or.inr (by decide)) hgm]
    rw [demo_problem_bonded_negative]
    rfl
  · unfold create_vector_distances_impl
    rw [hd]
    rw [demo_problem_bonded_negative]
    simp [store_all, store, contact_plane_sphere, contact_plane_second_sphere]

end Scopi
